import Mathlib

/-!
# Reference-counted smart pointers: `ff::SharedPtr` and `ff::WeakPtr`

A shallow embedding of `src/fflib/base/smart_ptr.h`.

* Raw pointers are natural numbers, `NULL` is `0`.
* The heap holds the live `RefData` objects (control blocks), a log of every
  `delete m_dest_ptr` and a log of every `delete m_ref_data`.
* Every member function takes the handle it is called on and the heap, and gives
  back the updated handle and heap.  An access through a pointer to a control
  block that is null or was already deleted is undefined behaviour in C++; it is
  the result `none` here.
-/

namespace ff

/-- A raw pointer (`object_t*` or `RefData*`). -/
abbrev Ptr := Nat

/-- The null pointer. -/
def NULL : Ptr := 0

/-- Modelled from the spec: the `RefCount` class of `atomic_op.h`, which is not part of
the sources.  The spec describes it as the AtomicCounter, an integer with initial value 0
supporting `increment`, `increment_and_fetch(n) -> int` (the resulting value) and
`decrement_and_check_zero() -> bool`, with no overflow handling. -/
structure RefCount where
  m_ref_num : Int := 0
deriving DecidableEq, Repr

/-- The call `inc()`. -/
def RefCount.inc (c : RefCount) : RefCount :=
  { m_ref_num := c.m_ref_num + 1 }

/-- The call `inc_and_fetch(n)`: adds `n` and returns the resulting value. -/
def RefCount.inc_and_fetch (c : RefCount) (n : Int) : Int × RefCount :=
  (c.m_ref_num + n, { m_ref_num := c.m_ref_num + n })

/-- The call `dec_and_check_zero()`: subtracts one and tells whether the result is zero. -/
def RefCount.dec_and_check_zero (c : RefCount) : Bool × RefCount :=
  (decide (c.m_ref_num - 1 = 0), { m_ref_num := c.m_ref_num - 1 })

/-- The call `value()`. -/
def RefCount.value (c : RefCount) : Int :=
  c.m_ref_num

/-- The control block `struct RefData`.  The member `m_mutex` only guards the critical
section of `WeakPtr::lock`; in a sequential run the scoped guard is taken and released
inside that call, so it carries no state here (the two-thread model further down has it). -/
structure RefData where
  m_ref_count : RefCount := {}
  m_weak_ref_count : RefCount := {}
deriving DecidableEq, Repr

/-- The heap: live control blocks, the allocator position, and the two deletion logs
(most recent first).  A deleted control block is logged with the counters it had when
it was deleted. -/
structure Heap where
  blocks : Ptr → Option RefData
  next_block : Ptr
  deleted_objs : List Ptr
  deleted_blocks : List (Ptr × RefData)

/-- The heap with nothing allocated. -/
def Heap.empty : Heap :=
  { blocks := fun _ => none, next_block := 0, deleted_objs := [], deleted_blocks := [] }

/-- Reading `*c`: fails on the null pointer and on a deleted block. -/
def Heap.deref (h : Heap) (c : Ptr) : Option RefData :=
  if c = NULL then none else h.blocks c

/-- Writing `*c`. -/
def Heap.store (h : Heap) (c : Ptr) (rd : RefData) : Heap :=
  { h with blocks := fun a => if a = c then some rd else h.blocks a }

/-- The expression `new RefData()`: a fresh non-null address with both counters 0. -/
def Heap.new_RefData (h : Heap) : Ptr × Heap :=
  (h.next_block + 1,
   { h with blocks := fun a => if a = h.next_block + 1 then some {} else h.blocks a,
            next_block := h.next_block + 1 })

/-- The statement `delete m_dest_ptr`. -/
def Heap.delete_obj (h : Heap) (p : Ptr) : Heap :=
  { h with deleted_objs := p :: h.deleted_objs }

/-- The statement `delete m_ref_data`. -/
def Heap.delete_block (h : Heap) (c : Ptr) : Option Heap :=
  match h.deref c with
  | none => none
  | some rd =>
    some { h with blocks := fun a => if a = c then none else h.blocks a,
                  deleted_blocks := (c, rd) :: h.deleted_blocks }

/-- The call `c->m_ref_count.inc()`. -/
def Heap.ref_count_inc (h : Heap) (c : Ptr) : Option Heap :=
  match h.deref c with
  | none => none
  | some rd => some (h.store c { rd with m_ref_count := rd.m_ref_count.inc })

/-- The call `c->m_weak_ref_count.inc()`. -/
def Heap.weak_ref_count_inc (h : Heap) (c : Ptr) : Option Heap :=
  match h.deref c with
  | none => none
  | some rd => some (h.store c { rd with m_weak_ref_count := rd.m_weak_ref_count.inc })

/-- The call `c->m_ref_count.inc_and_fetch(n)`. -/
def Heap.ref_count_inc_and_fetch (h : Heap) (c : Ptr) (n : Int) : Option (Int × Heap) :=
  match h.deref c with
  | none => none
  | some rd =>
    some ((rd.m_ref_count.inc_and_fetch n).1,
          h.store c { rd with m_ref_count := (rd.m_ref_count.inc_and_fetch n).2 })

/-- The call `c->m_ref_count.dec_and_check_zero()`. -/
def Heap.ref_count_dec_and_check_zero (h : Heap) (c : Ptr) : Option (Bool × Heap) :=
  match h.deref c with
  | none => none
  | some rd =>
    some (rd.m_ref_count.dec_and_check_zero.1,
          h.store c { rd with m_ref_count := rd.m_ref_count.dec_and_check_zero.2 })

/-- The call `c->m_weak_ref_count.dec_and_check_zero()`. -/
def Heap.weak_ref_count_dec_and_check_zero (h : Heap) (c : Ptr) : Option (Bool × Heap) :=
  match h.deref c with
  | none => none
  | some rd =>
    some (rd.m_weak_ref_count.dec_and_check_zero.1,
          h.store c { rd with m_weak_ref_count := rd.m_weak_ref_count.dec_and_check_zero.2 })

/-- The fields of `class SharedPtr<T>`. -/
structure SharedPtr where
  m_dest_ptr : Ptr
  m_ref_data : Ptr
deriving DecidableEq, Repr

/-- The fields of `class WeakPtr<T>`. -/
structure WeakPtr where
  m_dest_ptr : Ptr
  m_ref_data : Ptr
deriving DecidableEq, Repr

/-- The default constructor `SharedPtr()`. -/
def SharedPtr.ctor : SharedPtr :=
  { m_dest_ptr := NULL, m_ref_data := NULL }

/-- The constructor `SharedPtr(object_t* p)`. -/
def SharedPtr.ctor_ptr (p : Ptr) (h : Heap) : Option (SharedPtr × Heap) :=
  if p ≠ NULL then
    match h.new_RefData.2.ref_count_inc h.new_RefData.1 with
    | none => none
    | some h1 =>
      match h1.weak_ref_count_inc h.new_RefData.1 with
      | none => none
      | some h2 => some ({ m_dest_ptr := p, m_ref_data := h.new_RefData.1 }, h2)
  else
    some ({ m_dest_ptr := p, m_ref_data := NULL }, h)

/-- The accessor `get()`. -/
def SharedPtr.get (self : SharedPtr) : Ptr :=
  self.m_dest_ptr

/-- The accessor `ger_ref_count()`. -/
def SharedPtr.ger_ref_count (self : SharedPtr) : Ptr :=
  self.m_ref_data

/-- The copy constructor `SharedPtr(const self_type_t& p)`. -/
def SharedPtr.ctor_copy (p : SharedPtr) (h : Heap) : Option (SharedPtr × Heap) :=
  if p.get ≠ NULL then
    match h.ref_count_inc p.ger_ref_count with
    | none => none
    | some h1 =>
      match h1.weak_ref_count_inc p.ger_ref_count with
      | none => none
      | some h2 => some ({ m_dest_ptr := p.get, m_ref_data := p.ger_ref_count }, h2)
  else
    some ({ m_dest_ptr := p.get, m_ref_data := p.ger_ref_count }, h)

/-- The constructor `SharedPtr(object_t* p, RefData* data_)`: only the weak counter is
incremented. -/
def SharedPtr.ctor_ptr_data (p : Ptr) (data_ : Ptr) (h : Heap) : Option (SharedPtr × Heap) :=
  if p ≠ NULL then
    match h.weak_ref_count_inc data_ with
    | none => none
    | some h1 => some ({ m_dest_ptr := p, m_ref_data := data_ }, h1)
  else
    some ({ m_dest_ptr := p, m_ref_data := data_ }, h)

/-- The accessor `ref_count()`; the conversion to `size_t` is `Int.toNat`. -/
def SharedPtr.ref_count (self : SharedPtr) (h : Heap) : Option Nat :=
  if self.m_ref_data ≠ NULL then
    match h.deref self.m_ref_data with
    | none => none
    | some rd => some rd.m_ref_count.value.toNat
  else
    some 0

/-- The conversion `operator bool()`. -/
def SharedPtr.operator_bool (self : SharedPtr) : Bool :=
  decide (NULL ≠ self.m_dest_ptr)

/-- The member `SharedPtr::reset()`. -/
def SharedPtr.reset (self : SharedPtr) (h : Heap) : Option (SharedPtr × Heap) :=
  if self.m_dest_ptr ≠ NULL then
    match h.ref_count_dec_and_check_zero self.m_ref_data with
    | none => none
    | some (z, h1) =>
      -- `delete m_dest_ptr; m_dest_ptr = NULL;` when the strong counter reached zero
      let self1 : SharedPtr := if z then { self with m_dest_ptr := NULL } else self
      let h2 : Heap := if z then h1.delete_obj self.m_dest_ptr else h1
      match h2.weak_ref_count_dec_and_check_zero self1.m_ref_data with
      | none => none
      | some (zw, h3) =>
        if zw then
          -- `delete m_ref_data; m_ref_data = NULL;`
          match h3.delete_block self1.m_ref_data with
          | none => none
          | some h4 => some ({ self1 with m_ref_data := NULL }, h4)
        else
          some (self1, h3)
  else
    some (self, h)

/-- The destructor `~SharedPtr()`: the heap after it (the handle is gone). -/
def SharedPtr.dtor (self : SharedPtr) (h : Heap) : Option Heap :=
  (self.reset h).map Prod.snd

/-- The assignment `operator=(const self_type_t& src_)`; `same_object` is the test
`&src_ == this`. -/
def SharedPtr.assign (self : SharedPtr) (src_ : SharedPtr) (same_object : Bool) (h : Heap) :
    Option (SharedPtr × Heap) :=
  if same_object then
    some (self, h)
  else
    match self.reset h with
    | none => none
    | some (_, h1) =>
      if src_.get ≠ NULL then
        match h1.ref_count_inc src_.ger_ref_count with
        | none => none
        | some h2 =>
          match h2.weak_ref_count_inc src_.ger_ref_count with
          | none => none
          | some h3 => some ({ m_dest_ptr := src_.get, m_ref_data := src_.ger_ref_count }, h3)
      else
        some ({ m_dest_ptr := src_.get, m_ref_data := src_.ger_ref_count }, h1)

/-- The default constructor `WeakPtr()`. -/
def WeakPtr.ctor : WeakPtr :=
  { m_dest_ptr := NULL, m_ref_data := NULL }

/-- The constructor `WeakPtr(const SharedPtr<R>& p)`. -/
def WeakPtr.ctor_shared (p : SharedPtr) (h : Heap) : Option (WeakPtr × Heap) :=
  if p.ger_ref_count ≠ NULL then
    match h.weak_ref_count_inc p.ger_ref_count with
    | none => none
    | some h1 => some ({ m_dest_ptr := p.get, m_ref_data := p.ger_ref_count }, h1)
  else
    some ({ m_dest_ptr := p.get, m_ref_data := p.ger_ref_count }, h)

/-- The accessor `get()`. -/
def WeakPtr.get (self : WeakPtr) : Ptr :=
  self.m_dest_ptr

/-- The accessor `ger_ref_count()`. -/
def WeakPtr.ger_ref_count (self : WeakPtr) : Ptr :=
  self.m_ref_data

/-- The copy constructor `WeakPtr(const self_type_t& p)`. -/
def WeakPtr.ctor_copy (p : WeakPtr) (h : Heap) : Option (WeakPtr × Heap) :=
  if p.ger_ref_count ≠ NULL then
    match h.weak_ref_count_inc p.ger_ref_count with
    | none => none
    | some h1 => some ({ m_dest_ptr := p.get, m_ref_data := p.ger_ref_count }, h1)
  else
    some ({ m_dest_ptr := p.get, m_ref_data := p.ger_ref_count }, h)

/-- The member `WeakPtr::lock()`: the returned handle, the updated weak handle and the
heap.  The returned temporary is built in place (no extra copy). -/
def WeakPtr.lock (self : WeakPtr) (h : Heap) : Option (SharedPtr × WeakPtr × Heap) :=
  if self.m_dest_ptr = NULL ∨ self.m_ref_data = NULL then
    some (SharedPtr.ctor, self, h)
  else
    match h.ref_count_inc_and_fetch self.m_ref_data 1 with
    | none => none
    | some (v, h1) =>
      if 1 = v then
        match h1.ref_count_dec_and_check_zero self.m_ref_data with
        | none => none
        | some (_, h2) => some (SharedPtr.ctor, { self with m_dest_ptr := NULL }, h2)
      else
        match SharedPtr.ctor_ptr_data self.m_dest_ptr self.m_ref_data h1 with
        | none => none
        | some (s, h2) => some (s, self, h2)

/-- The member `WeakPtr::reset()`. -/
def WeakPtr.reset (self : WeakPtr) (h : Heap) : Option (WeakPtr × Heap) :=
  if self.m_ref_data ≠ NULL then
    match h.weak_ref_count_dec_and_check_zero self.m_ref_data with
    | none => none
    | some (zw, h1) =>
      if zw then
        match h1.delete_block self.m_ref_data with
        | none => none
        | some h2 => some ({ m_dest_ptr := NULL, m_ref_data := NULL }, h2)
      else
        some ({ self with m_dest_ptr := NULL }, h1)
  else
    some ({ self with m_dest_ptr := NULL }, h)

/-- The destructor `~WeakPtr()`: the heap after it. -/
def WeakPtr.dtor (self : WeakPtr) (h : Heap) : Option Heap :=
  (self.reset h).map Prod.snd

/-- The assignment `operator=(const SharedPtr<R>& p)` of `WeakPtr`. -/
def WeakPtr.assign_shared (self : WeakPtr) (p : SharedPtr) (h : Heap) :
    Option (WeakPtr × Heap) :=
  match self.reset h with
  | none => none
  | some (_, h1) =>
    if p.ger_ref_count ≠ NULL then
      match h1.weak_ref_count_inc p.ger_ref_count with
      | none => none
      | some h2 => some ({ m_dest_ptr := p.get, m_ref_data := p.ger_ref_count }, h2)
    else
      some ({ m_dest_ptr := p.get, m_ref_data := p.ger_ref_count }, h1)

/-- The assignment `operator=(const self_type_t& p)` of `WeakPtr`; `same_object` is the
test `&p == this`. -/
def WeakPtr.assign (self : WeakPtr) (p : WeakPtr) (same_object : Bool) (h : Heap) :
    Option (WeakPtr × Heap) :=
  if same_object then
    some (self, h)
  else
    match self.reset h with
    | none => none
    | some (_, h1) =>
      if p.ger_ref_count ≠ NULL then
        match h1.weak_ref_count_inc p.ger_ref_count with
        | none => none
        | some h2 => some ({ m_dest_ptr := p.get, m_ref_data := p.ger_ref_count }, h2)
      else
        some ({ m_dest_ptr := p.get, m_ref_data := p.ger_ref_count }, h1)

/-! ## Programs: sequences of operations on handle variables

A world is the heap together with the handle objects created so far; a destroyed object
is `none` and can no longer be used. -/

/-- The handle objects of a program and the heap. -/
structure World where
  strong : List (Option SharedPtr)
  weak : List (Option WeakPtr)
  heap : Heap

/-- No handle objects, empty heap. -/
def World.empty : World :=
  { strong := [], weak := [], heap := Heap.empty }

/-- The strong handle object number `i`, when it exists and was not destroyed. -/
def World.get_strong (w : World) (i : Nat) : Option SharedPtr :=
  match w.strong[i]? with
  | some (some a) => some a
  | _ => none

/-- The weak handle object number `i`, when it exists and was not destroyed. -/
def World.get_weak (w : World) (i : Nat) : Option WeakPtr :=
  match w.weak[i]? with
  | some (some a) => some a
  | _ => none

/-- One statement of a program; `i` and `j` number handle objects. -/
inductive Op where
  /-- A new object `SharedPtr a(p)`. -/
  | ctor_ptr (p : Ptr)
  /-- A new object `SharedPtr b(a_i)`. -/
  | copy (i : Nat)
  /-- The assignment `a_i = a_j`. -/
  | assign (i j : Nat)
  /-- The call `a_i.reset()`. -/
  | reset (i : Nat)
  /-- The end of the lifetime of `a_i`. -/
  | dtor (i : Nat)
  /-- A new object `WeakPtr w(a_i)`. -/
  | weak_ctor_shared (i : Nat)
  /-- A new object `WeakPtr v(w_i)`. -/
  | weak_ctor_copy (i : Nat)
  /-- The assignment `w_i = a_j`. -/
  | weak_assign_shared (i j : Nat)
  /-- The assignment `w_i = w_j`. -/
  | weak_assign (i j : Nat)
  /-- A new object `SharedPtr s = w_i.lock()`. -/
  | weak_lock (i : Nat)
  /-- The call `w_i.reset()`. -/
  | weak_reset (i : Nat)
  /-- The end of the lifetime of `w_i`. -/
  | weak_dtor (i : Nat)
deriving DecidableEq, Repr

/-- Executing one statement.  The result is `none` when the statement names an object that
does not exist or was destroyed, and when the call touches a deleted control block. -/
def World.step (w : World) : Op → Option World
  | .ctor_ptr p =>
    match SharedPtr.ctor_ptr p w.heap with
    | none => none
    | some (s, h) => some { w with strong := w.strong ++ [some s], heap := h }
  | .copy i =>
    match w.get_strong i with
    | none => none
    | some a =>
      match SharedPtr.ctor_copy a w.heap with
      | none => none
      | some (s, h) => some { w with strong := w.strong ++ [some s], heap := h }
  | .assign i j =>
    match w.get_strong i, w.get_strong j with
    | some a, some b =>
      match a.assign b (decide (i = j)) w.heap with
      | none => none
      | some (s, h) => some { w with strong := w.strong.set i (some s), heap := h }
    | _, _ => none
  | .reset i =>
    match w.get_strong i with
    | none => none
    | some a =>
      match a.reset w.heap with
      | none => none
      | some (s, h) => some { w with strong := w.strong.set i (some s), heap := h }
  | .dtor i =>
    match w.get_strong i with
    | none => none
    | some a =>
      match a.dtor w.heap with
      | none => none
      | some h => some { w with strong := w.strong.set i none, heap := h }
  | .weak_ctor_shared i =>
    match w.get_strong i with
    | none => none
    | some a =>
      match WeakPtr.ctor_shared a w.heap with
      | none => none
      | some (v, h) => some { w with weak := w.weak ++ [some v], heap := h }
  | .weak_ctor_copy i =>
    match w.get_weak i with
    | none => none
    | some a =>
      match WeakPtr.ctor_copy a w.heap with
      | none => none
      | some (v, h) => some { w with weak := w.weak ++ [some v], heap := h }
  | .weak_assign_shared i j =>
    match w.get_weak i, w.get_strong j with
    | some a, some b =>
      match a.assign_shared b w.heap with
      | none => none
      | some (v, h) => some { w with weak := w.weak.set i (some v), heap := h }
    | _, _ => none
  | .weak_assign i j =>
    match w.get_weak i, w.get_weak j with
    | some a, some b =>
      match a.assign b (decide (i = j)) w.heap with
      | none => none
      | some (v, h) => some { w with weak := w.weak.set i (some v), heap := h }
    | _, _ => none
  | .weak_lock i =>
    match w.get_weak i with
    | none => none
    | some a =>
      match a.lock w.heap with
      | none => none
      | some (s, v, h) =>
        some { strong := w.strong ++ [some s], weak := w.weak.set i (some v), heap := h }
  | .weak_reset i =>
    match w.get_weak i with
    | none => none
    | some a =>
      match a.reset w.heap with
      | none => none
      | some (v, h) => some { w with weak := w.weak.set i (some v), heap := h }
  | .weak_dtor i =>
    match w.get_weak i with
    | none => none
    | some a =>
      match a.dtor w.heap with
      | none => none
      | some h => some { w with weak := w.weak.set i none, heap := h }

/-- Executing a program, statement by statement. -/
def World.run (w : World) : List Op → Option World
  | [] => some w
  | op :: ops =>
    match w.step op with
    | none => none
    | some w1 => w1.run ops

/-- The heap after `delete m_ref_data` on block `c`, whose counters were `rd`. -/
def Heap.without (h : Heap) (c : Ptr) (rd : RefData) : Heap :=
  { h with blocks := fun a => if a = c then none else h.blocks a,
           deleted_blocks := (c, rd) :: h.deleted_blocks }

/-- The counters of block `c`: the current ones while it is live, the ones it was deleted
with afterwards. -/
def Heap.last_counts (h : Heap) (c : Ptr) : Option RefData :=
  match h.deref c with
  | some rd => some rd
  | none => h.deleted_blocks.lookup c

/-- The strong count of block `c` (see `Heap.last_counts`). -/
def Heap.strong_count (h : Heap) (c : Ptr) : Option Int :=
  (h.last_counts c).map fun rd => rd.m_ref_count.value

/-- The weak count of block `c` (see `Heap.last_counts`). -/
def Heap.weak_count (h : Heap) (c : Ptr) : Option Int :=
  (h.last_counts c).map fun rd => rd.m_weak_ref_count.value

/-- The statements that only involve strong handles sharing the blocks already there:
copy construction, assignment, `reset()` and destruction. -/
def Op.strong_only : Op → Bool
  | .copy _ => true
  | .assign _ _ => true
  | .reset _ => true
  | .dtor _ => true
  | _ => false

/-- The strong handle object a statement releases by `reset()` or by destruction. -/
def Op.released : Op → Option Nat
  | .reset i => some i
  | .dtor i => some i
  | _ => none

/-- Invariant of a program on strong handles of one pointee `p` with control block `c`,
while the pointee lives: both counters are `n ≥ 1`, nothing was deleted, every handle
object that was not destroyed is `(p, c)`, and `n` plus the number `k` of releases made
so far is the number of handle objects. -/
def World.alive (p c : Ptr) (k : Nat) (w : World) : Prop :=
  ∃ n : Int, 1 ≤ n ∧ w.heap.blocks c = some ⟨⟨n⟩, ⟨n⟩⟩ ∧ w.heap.deleted_objs = [] ∧
    w.heap.deleted_blocks = [] ∧ (∀ x ∈ w.strong, x = none ∨ x = some ⟨p, c⟩) ∧
    n + (k : Int) = (w.strong.length : Int)

/-- Invariant of the same programs once the pointee was destroyed: the pointee and the
block were deleted once, with both counters 0, and every handle object was destroyed, or
dangles as `(p, c)`, or has a null pointee. -/
def World.dead (p c : Ptr) (w : World) : Prop :=
  w.heap.blocks c = none ∧ w.heap.deleted_objs = [p] ∧
    w.heap.deleted_blocks = [(c, ⟨⟨0⟩, ⟨0⟩⟩)] ∧
    (∀ x ∈ w.strong, x = none ∨ x = some ⟨p, c⟩ ∨ ∃ r, x = some ⟨NULL, r⟩)

/-! ## Two threads: `SharedPtr::reset` against `WeakPtr::lock`

Thread A runs `reset()` on its strong handle, thread B runs `lock()` on its weak handle.
Each thread is cut into steps with one access to shared memory each (a counter operation,
the mutex, a `delete`); a schedule picks the thread that makes the next step. -/

/-- The two threads. -/
inductive Tid where
  | A
  | B
deriving DecidableEq, Repr

/-- Where thread A stands in `SharedPtr::reset`: before
`m_ref_count.dec_and_check_zero()`, before `delete m_dest_ptr`, before
`m_weak_ref_count.dec_and_check_zero()`, before `delete m_ref_data`, returned. -/
inductive APc where
  | dec_strong
  | delete_obj
  | dec_weak
  | delete_block
  | done
deriving DecidableEq, Repr

/-- Where thread B stands in `WeakPtr::lock`: before the null test and the acquisition of
`m_mutex`, before `m_ref_count.inc_and_fetch(1)`, before the undoing
`m_ref_count.dec_and_check_zero()`, before `m_dest_ptr = NULL; return shared_type_t()`,
before `return shared_type_t(m_dest_ptr, m_ref_data)`, returned. -/
inductive BPc where
  | acquire
  | inc_fetch
  | undo
  | clear_return
  | build
  | done
deriving DecidableEq, Repr

/-- The state of the two threads.  `fault` records an access to a deleted control block.
`a_saw` and `b_inc_first` are observations made at A's decrement: the strong count it
started from, and whether B's increment had already happened. -/
structure Race where
  heap : Heap
  mutex : Bool
  a : SharedPtr
  a_pc : APc
  a_z : Bool
  a_zw : Bool
  b : WeakPtr
  b_pc : BPc
  b_v : Int
  b_ret : Option SharedPtr
  fault : Bool
  a_saw : Option Int
  b_inc_first : Bool

/-- Both threads at the start of their calls. -/
def Race.init (a : SharedPtr) (b : WeakPtr) (h : Heap) : Race :=
  { heap := h, mutex := false, a := a, a_pc := .dec_strong, a_z := false, a_zw := false,
    b := b, b_pc := .acquire, b_v := 0, b_ret := none, fault := false, a_saw := none,
    b_inc_first := false }

/-- One step of thread A through `SharedPtr::reset`. -/
def Race.step_a (r : Race) : Race :=
  match r.a_pc with
  | .dec_strong =>
    if r.a.m_dest_ptr ≠ NULL then
      match r.heap.ref_count_dec_and_check_zero r.a.m_ref_data with
      | none => { r with fault := true, a_pc := .done }
      | some (z, h) =>
        { r with heap := h, a_z := z, a_pc := .delete_obj,
                 a_saw := r.heap.strong_count r.a.m_ref_data,
                 b_inc_first := decide (r.b_pc ≠ .acquire ∧ r.b_pc ≠ .inc_fetch) }
    else
      { r with a_pc := .done }
  | .delete_obj =>
    if r.a_z then
      { r with heap := r.heap.delete_obj r.a.m_dest_ptr,
               a := { r.a with m_dest_ptr := NULL }, a_pc := .dec_weak }
    else
      { r with a_pc := .dec_weak }
  | .dec_weak =>
    match r.heap.weak_ref_count_dec_and_check_zero r.a.m_ref_data with
    | none => { r with fault := true, a_pc := .done }
    | some (zw, h) => { r with heap := h, a_zw := zw, a_pc := .delete_block }
  | .delete_block =>
    if r.a_zw then
      match r.heap.delete_block r.a.m_ref_data with
      | none => { r with fault := true, a_pc := .done }
      | some h => { r with heap := h, a := { r.a with m_ref_data := NULL }, a_pc := .done }
    else
      { r with a_pc := .done }
  | .done => r

/-- One step of thread B through `WeakPtr::lock`.  The guard on `m_mutex` is released when
the block that declares it is left: by the `return` of the failure path, or at the end of
the block on the success path. -/
def Race.step_b (r : Race) : Race :=
  match r.b_pc with
  | .acquire =>
    if r.b.m_dest_ptr = NULL ∨ r.b.m_ref_data = NULL then
      { r with b_ret := some SharedPtr.ctor, b_pc := .done }
    else if r.mutex then
      r
    else
      { r with mutex := true, b_pc := .inc_fetch }
  | .inc_fetch =>
    match r.heap.ref_count_inc_and_fetch r.b.m_ref_data 1 with
    | none => { r with fault := true, b_pc := .done }
    | some (v, h) =>
      if 1 = v then
        { r with heap := h, b_v := v, b_pc := .undo }
      else
        { r with heap := h, b_v := v, mutex := false, b_pc := .build }
  | .undo =>
    match r.heap.ref_count_dec_and_check_zero r.b.m_ref_data with
    | none => { r with fault := true, b_pc := .done }
    | some (_, h) => { r with heap := h, b_pc := .clear_return }
  | .clear_return =>
    { r with b := { r.b with m_dest_ptr := NULL }, mutex := false,
             b_ret := some SharedPtr.ctor, b_pc := .done }
  | .build =>
    match SharedPtr.ctor_ptr_data r.b.m_dest_ptr r.b.m_ref_data r.heap with
    | none => { r with fault := true, b_pc := .done }
    | some (s, h) => { r with heap := h, b_ret := some s, b_pc := .done }
  | .done => r

/-- One step of the chosen thread. -/
def Race.step (r : Race) : Tid → Race
  | .A => r.step_a
  | .B => r.step_b

/-- The state after a schedule. -/
def Race.run (r : Race) : List Tid → Race
  | [] => r
  | t :: ts => (r.step t).run ts

/-- What an observer sees of a race: the program counters, the result of `lock()`, the
deletion log of pointees, the strong count, the fault flag and the two observations. -/
def Race.view (r : Race) (c : Ptr) :
    APc × BPc × Option SharedPtr × List Ptr × Option Int × Bool × Option Int × Bool :=
  (r.a_pc, r.b_pc, r.b_ret, r.heap.deleted_objs, r.heap.strong_count c, r.fault, r.a_saw,
    r.b_inc_first)

/-- Thread A has made its decrement of the strong counter. -/
def APc.decremented : APc → Bool
  | .dec_strong => false
  | _ => true

/-- Thread A is past the statement `delete m_dest_ptr`. -/
def APc.past_delete : APc → Bool
  | .dec_strong => false
  | .delete_obj => false
  | _ => true

/-- Thread A has made its decrement of the weak counter. -/
def APc.weak_decremented : APc → Bool
  | .delete_block => true
  | .done => true
  | _ => false

/-- Thread B has made its increment of the strong counter. -/
def BPc.incremented : BPc → Bool
  | .acquire => false
  | .inc_fetch => false
  | _ => true

/-- Thread B is past the undoing decrement (on the failure path). -/
def BPc.past_undo : BPc → Bool
  | .clear_return => true
  | .done => true
  | _ => false

/-- Thread B holds `m_mutex`. -/
def BPc.holds_mutex : BPc → Bool
  | .inc_fetch => true
  | .undo => true
  | .clear_return => true
  | _ => false

/-- The strong count a race state must have, from the progress of the two threads. -/
def Race.strong_expected (r : Race) : Int :=
  1 - (if r.a_pc.decremented then 1 else 0) + (if r.b_pc.incremented then 1 else 0)
    - (if r.b_pc.past_undo ∧ r.b_v = 1 then 1 else 0)

/-- The weak count a race state must have, starting from `k`. -/
def Race.weak_expected (r : Race) (k : Int) : Int :=
  k - (if r.a_pc.weak_decremented then 1 else 0)
    + (if r.b_pc = .done ∧ r.b_v = 2 then 1 else 0)

/-- Invariant of the race started with A's handle `(p, c)`, B's handle `(p, c)`, strong
count 1, weak count `k` and pointee deletion log `D`. -/
def Race.inv (p c : Ptr) (k : Int) (D : List Ptr) (r : Race) : Prop :=
  r.fault = false ∧ r.a.m_ref_data = c ∧ r.b.m_ref_data = c ∧
  r.heap.blocks c = some ⟨⟨r.strong_expected⟩, ⟨r.weak_expected k⟩⟩ ∧
  r.heap.deleted_objs = (if r.a_pc.past_delete ∧ r.a_z then p :: D else D) ∧
  r.a.m_dest_ptr = (if r.a_pc.past_delete ∧ r.a_z then NULL else p) ∧
  r.b.m_dest_ptr = (if r.b_pc = .done ∧ r.b_v = 1 then NULL else p) ∧
  r.mutex = r.b_pc.holds_mutex ∧
  r.b_ret = (if r.b_pc = .done then
      some (if r.b_v = 1 then SharedPtr.ctor else ⟨p, c⟩) else none) ∧
  (r.b_pc.incremented → r.b_v = (if r.a_pc.decremented ∧ ¬ r.b_inc_first then 1 else 2)) ∧
  (r.a_pc.decremented → r.a_z = !r.b_inc_first ∧
      r.a_saw = some (if r.b_inc_first then 2 else 1)) ∧
  (¬ r.a_pc.decremented → r.a_saw = none ∧ r.b_inc_first = false) ∧
  (r.b_inc_first → r.b_pc.incremented) ∧
  (r.b_pc = .undo ∨ r.b_pc = .clear_return → r.b_v = 1) ∧
  (r.b_pc = .build → r.b_v = 2) ∧
  (r.a_pc = .delete_block → r.a_zw = false)

/-- The number of steps thread A has made. -/
def APc.rank : APc → Nat
  | .dec_strong => 0
  | .delete_obj => 1
  | .dec_weak => 2
  | .delete_block => 3
  | .done => 4

/-- A lower bound on the number of steps thread B has made (4 when it has returned). -/
def BPc.rank : BPc → Nat
  | .acquire => 0
  | .inc_fetch => 1
  | .undo => 2
  | .clear_return => 3
  | .build => 3
  | .done => 4

/-! ## Dereference, comparison and the boolean conversion of the weak handle -/

/-- The macro `FF_ASSERT(X)`: throws `std::runtime_error("SharedPtr NULL DATA")` when `X`
is false. -/
def FF_ASSERT (x : Bool) : Except String Unit :=
  if !x then Except.error "SharedPtr NULL DATA" else Except.ok ()

/-- The member `operator*()`: the pointee it refers to (its address), with the handle and
the heap, which the call does not touch. -/
def SharedPtr.operator_star (self : SharedPtr) (h : Heap) :
    Except String (Ptr × SharedPtr × Heap) :=
  match FF_ASSERT (decide (NULL ≠ self.m_dest_ptr)) with
  | Except.error e => Except.error e
  | Except.ok _ => Except.ok (self.m_dest_ptr, self, h)

/-- The member `operator->()`. -/
def SharedPtr.operator_arrow (self : SharedPtr) (h : Heap) :
    Except String (Ptr × SharedPtr × Heap) :=
  match FF_ASSERT (decide (NULL ≠ self.m_dest_ptr)) with
  | Except.error e => Except.error e
  | Except.ok _ => Except.ok (self.m_dest_ptr, self, h)

/-- The member `operator==(const self_type_t& p)`. -/
def SharedPtr.operator_eq (self : SharedPtr) (p : SharedPtr) : Bool :=
  decide (self.m_dest_ptr = p.get)

/-- The member `operator==(const object_t* p)`. -/
def SharedPtr.operator_eq_ptr (self : SharedPtr) (p : Ptr) : Bool :=
  decide (self.m_dest_ptr = p)

/-- The conversion `operator bool() const` of `WeakPtr`, `return bool(lock());`: the weak
handle is locked, the temporary strong handle is converted and then destroyed at the end of
the expression.  The result, the weak handle afterwards and the heap.  (The call of the
non-const `lock()` on a const object is taken as written.) -/
def WeakPtr.operator_bool (self : WeakPtr) (h : Heap) : Option (Bool × WeakPtr × Heap) :=
  match self.lock h with
  | none => none
  | some (s, w1, h1) =>
    match s.dtor h1 with
    | none => none
    | some h2 => some (s.operator_bool, w1, h2)

/-- The allocator never handed out an address above `next_block`: no block is live
there. -/
def Heap.unused_above (h : Heap) : Prop :=
  ∀ c, h.next_block < c → h.blocks c = none

/-! ## Counting the handles that reference a control block -/

/-- A strong handle object that was not destroyed and holds the pointer to block `c`. -/
def refs_strong (c : Ptr) : Option SharedPtr → Bool
  | some a => decide (a.m_ref_data = c)
  | none => false

/-- A weak handle object that was not destroyed and holds the pointer to block `c`. -/
def refs_weak (c : Ptr) : Option WeakPtr → Bool
  | some a => decide (a.m_ref_data = c)
  | none => false

/-- The number of live strong handles referencing block `c`. -/
def World.strong_refs (w : World) (c : Ptr) : Nat :=
  w.strong.countP (refs_strong c)

/-- The number of live weak handles referencing block `c`. -/
def World.weak_refs (w : World) (c : Ptr) : Nat :=
  w.weak.countP (refs_weak c)

/-- The two counters of block `c`, and `(0, 0)` when no block is live at `c`. -/
def Heap.counts (h : Heap) (c : Ptr) : Int × Int :=
  match h.blocks c with
  | some rd => (rd.m_ref_count.value, rd.m_weak_ref_count.value)
  | none => (0, 0)

/-- The statements of a program that releases every handle exactly once: construction,
copy, assignment, derivation of weak handles, `lock()` and destruction, but no explicit
`reset()`. -/
def Op.disciplined : Op → Bool
  | .reset _ => false
  | .weak_reset _ => false
  | _ => true

/-- The handle objects a statement names exist and were not destroyed. -/
def Op.valid (w : World) : Op → Prop
  | .ctor_ptr _ => True
  | .copy i => (w.get_strong i).isSome
  | .assign i j => (w.get_strong i).isSome ∧ (w.get_strong j).isSome
  | .reset i => (w.get_strong i).isSome
  | .dtor i => (w.get_strong i).isSome
  | .weak_ctor_shared i => (w.get_strong i).isSome
  | .weak_ctor_copy i => (w.get_weak i).isSome
  | .weak_assign_shared i j => (w.get_weak i).isSome ∧ (w.get_strong j).isSome
  | .weak_assign i j => (w.get_weak i).isSome ∧ (w.get_weak j).isSome
  | .weak_lock i => (w.get_weak i).isSome
  | .weak_reset i => (w.get_weak i).isSome
  | .weak_dtor i => (w.get_weak i).isSome

/-- Invariant of the programs without explicit `reset()`: every live strong handle has
both pointers or none; for every non-null address the counters there (or `(0, 0)` when no
block is live) are the number of live strong handles referencing it and that number plus
the number of live weak handles referencing it, and a block is live there exactly when
some handle references it; nothing is live at the null address or above the allocator
position. -/
def World.counted (w : World) : Prop :=
  (∀ a : SharedPtr, some a ∈ w.strong → (a.m_dest_ptr = NULL ↔ a.m_ref_data = NULL)) ∧
  (∀ c : Ptr, c ≠ NULL →
    w.heap.counts c = ((w.strong_refs c : Int), (w.strong_refs c : Int) + (w.weak_refs c : Int)) ∧
    ((w.heap.blocks c).isSome = true ↔ 1 ≤ w.strong_refs c + w.weak_refs c)) ∧
  w.heap.blocks NULL = none ∧ w.heap.unused_above

/-- A heap with two control blocks: block 1 with counts `(s1, k1)` and block 2 with counts
`(s2, k2)`. -/
def Heap.pair (s1 k1 s2 k2 : Int) : Heap :=
  { blocks := fun a =>
      if a = 1 then some { m_ref_count := { m_ref_num := s1 },
                           m_weak_ref_count := { m_ref_num := k1 } }
      else if a = 2 then some { m_ref_count := { m_ref_num := s2 },
                                m_weak_ref_count := { m_ref_num := k2 } }
      else none,
    next_block := 2, deleted_objs := [], deleted_blocks := [] }

/-- A heap whose only control block is at address `c`, with the given two counters. -/
def Heap.single (c : Ptr) (strong weak : Int) : Heap :=
  { blocks := fun a =>
      if a = c then some { m_ref_count := { m_ref_num := strong },
                           m_weak_ref_count := { m_ref_num := weak } } else none,
    next_block := c, deleted_objs := [], deleted_blocks := [] }

/-- The scenario "construct a strong handle from `p`, derive a weak handle, drop the strong
handle": the weak handle that is left, and the heap. -/
def dangling_weak (p : Ptr) : Option (WeakPtr × Heap) :=
  match SharedPtr.ctor_ptr p Heap.empty with
  | none => none
  | some (s, h1) =>
    match WeakPtr.ctor_shared s h1 with
    | none => none
    | some (w, h2) =>
      match s.dtor h2 with
      | none => none
      | some h3 => some (w, h3)

/-! ## Heap lemmas -/

theorem Heap.store_store (h : Heap) (c : Ptr) (a b : RefData) :
    (h.store c a).store c b = h.store c b := by
  simp only [Heap.store]
  congr 1
  funext x
  by_cases hx : x = c <;> simp [hx]

theorem Heap.store_self (h : Heap) (c : Ptr) (a : RefData) (hb : h.blocks c = some a) :
    h.store c a = h := by
  cases h with
  | mk blocks nb dobj dblk =>
    simp only [Heap.store]
    congr 1
    funext x
    by_cases hx : x = c
    · subst hx
      simpa using hb.symm
    · simp [hx]

theorem Heap.deref_store_same (h : Heap) (c : Ptr) (a : RefData) (hc : c ≠ NULL) :
    (h.store c a).deref c = some a := by
  simp [Heap.deref, Heap.store, hc]

theorem Heap.deref_store_other (h : Heap) (c d : Ptr) (a : RefData) (hd : d ≠ c) :
    (h.store c a).deref d = h.deref d := by
  simp [Heap.deref, Heap.store, hd]

theorem Heap.deref_of_blocks (h : Heap) (c : Ptr) (rd : RefData) (hc : c ≠ NULL)
    (hb : h.blocks c = some rd) : h.deref c = some rd := by
  simp [Heap.deref, hc, hb]

/-! ## `SharedPtr::reset` on a handle that has a pointee and a live control block -/

theorem SharedPtr.reset_keep (h : Heap) (p c : Ptr) (s k : Int) (hp : p ≠ NULL)
    (hc : c ≠ NULL) (hb : h.blocks c = some ⟨⟨s⟩, ⟨k⟩⟩) (hs : s ≠ 1) (hk : k ≠ 1) :
    (SharedPtr.mk p c).reset h = some (⟨p, c⟩, h.store c ⟨⟨s - 1⟩, ⟨k - 1⟩⟩) := by
  have hs0 : ¬ (s - 1 = 0) := by omega
  have hk0 : ¬ (k - 1 = 0) := by omega
  simp [SharedPtr.reset, hp, Heap.ref_count_dec_and_check_zero,
    Heap.weak_ref_count_dec_and_check_zero, Heap.deref_of_blocks h c _ hc hb,
    RefCount.dec_and_check_zero, hs0, hk0, Heap.deref_store_same, hc, Heap.store_store]

theorem SharedPtr.reset_last_strong (h : Heap) (p c : Ptr) (k : Int) (hp : p ≠ NULL)
    (hc : c ≠ NULL) (hb : h.blocks c = some ⟨⟨1⟩, ⟨k⟩⟩) (hk : k ≠ 1) :
    (SharedPtr.mk p c).reset h
      = some (⟨NULL, c⟩, (h.store c ⟨⟨0⟩, ⟨k - 1⟩⟩).delete_obj p) := by
  have hk0 : ¬ (k - 1 = 0) := by omega
  simp [SharedPtr.reset, hp, Heap.ref_count_dec_and_check_zero,
    Heap.weak_ref_count_dec_and_check_zero, Heap.deref_of_blocks h c _ hc hb,
    RefCount.dec_and_check_zero, hk0, Heap.deref, Heap.store, Heap.delete_obj, hc, hb]
  funext a
  by_cases ha : a = c <;> simp [ha]

theorem SharedPtr.reset_last_both (h : Heap) (p c : Ptr) (hp : p ≠ NULL)
    (hc : c ≠ NULL) (hb : h.blocks c = some ⟨⟨1⟩, ⟨1⟩⟩) :
    (SharedPtr.mk p c).reset h
      = some (⟨NULL, NULL⟩, (h.delete_obj p).without c ⟨⟨0⟩, ⟨0⟩⟩) := by
  simp [SharedPtr.reset, hp, Heap.ref_count_dec_and_check_zero,
    Heap.weak_ref_count_dec_and_check_zero, Heap.deref_of_blocks h c _ hc hb,
    RefCount.dec_and_check_zero, Heap.deref, Heap.store, Heap.delete_obj, hc,
    Heap.delete_block, Heap.without, hb]
  funext a
  by_cases ha : a = c <;> simp [ha]

theorem SharedPtr.reset_last_weak (h : Heap) (p c : Ptr) (s : Int) (hp : p ≠ NULL)
    (hc : c ≠ NULL) (hb : h.blocks c = some ⟨⟨s⟩, ⟨1⟩⟩) (hs : s ≠ 1) :
    (SharedPtr.mk p c).reset h = some (⟨p, NULL⟩, h.without c ⟨⟨s - 1⟩, ⟨0⟩⟩) := by
  have hs0 : ¬ (s - 1 = 0) := by omega
  simp [SharedPtr.reset, hp, Heap.ref_count_dec_and_check_zero,
    Heap.weak_ref_count_dec_and_check_zero, Heap.deref_of_blocks h c _ hc hb,
    RefCount.dec_and_check_zero, Heap.deref, Heap.store, Heap.delete_obj, hc,
    Heap.delete_block, Heap.without, hs0, hb]
  funext a
  by_cases ha : a = c <;> simp [ha]

theorem SharedPtr.reset_null (h : Heap) (c : Ptr) :
    (SharedPtr.mk NULL c).reset h = some (⟨NULL, c⟩, h) := by
  simp [SharedPtr.reset]

theorem SharedPtr.reset_freed (h : Heap) (p c : Ptr) (hp : p ≠ NULL)
    (hb : h.blocks c = none) : (SharedPtr.mk p c).reset h = none := by
  have hd : h.deref c = none := by simp [Heap.deref, hb]
  simp [SharedPtr.reset, hp, Heap.ref_count_dec_and_check_zero, hd]

/-! ## The copy constructor and the assignment of `SharedPtr` -/

theorem SharedPtr.ctor_copy_live (h : Heap) (p c : Ptr) (s k : Int) (hp : p ≠ NULL)
    (hc : c ≠ NULL) (hb : h.blocks c = some ⟨⟨s⟩, ⟨k⟩⟩) :
    SharedPtr.ctor_copy ⟨p, c⟩ h = some (⟨p, c⟩, h.store c ⟨⟨s + 1⟩, ⟨k + 1⟩⟩) := by
  simp [SharedPtr.ctor_copy, SharedPtr.get, SharedPtr.ger_ref_count, hp, Heap.ref_count_inc,
    Heap.weak_ref_count_inc, Heap.deref_of_blocks h c _ hc hb, Heap.deref_store_same, hc,
    Heap.store_store, RefCount.inc]

theorem SharedPtr.ctor_copy_null (h : Heap) (c : Ptr) :
    SharedPtr.ctor_copy ⟨NULL, c⟩ h = some (⟨NULL, c⟩, h) := by
  simp [SharedPtr.ctor_copy, SharedPtr.get, SharedPtr.ger_ref_count]

theorem SharedPtr.ctor_copy_freed (h : Heap) (p c : Ptr) (hp : p ≠ NULL)
    (hb : h.blocks c = none) : SharedPtr.ctor_copy ⟨p, c⟩ h = none := by
  have hd : h.deref c = none := by simp [Heap.deref, hb]
  simp [SharedPtr.ctor_copy, SharedPtr.get, SharedPtr.ger_ref_count, hp, Heap.ref_count_inc,
    hd]

theorem SharedPtr.assign_same (self src_ : SharedPtr) (h : Heap) :
    self.assign src_ true h = some (self, h) := by
  simp [SharedPtr.assign]

theorem SharedPtr.assign_other (self src_ : SharedPtr) (h : Heap) :
    self.assign src_ false h
      = (self.reset h).bind fun r => SharedPtr.ctor_copy src_ r.2 := by
  unfold SharedPtr.assign SharedPtr.ctor_copy
  cases hr : self.reset h with
  | none => simp
  | some r =>
    obtain ⟨a, h1⟩ := r
    simp only [Option.some_bind]
    by_cases hg : src_.get = NULL
    · simp [hg]
    · simp [hg]

/-! ## Handle objects of a world -/

theorem World.get_strong_some (w : World) (i : Nat) (a : SharedPtr)
    (h : w.get_strong i = some a) : w.strong[i]? = some (some a) := by
  unfold World.get_strong at h
  split at h
  · simp_all
  · simp at h

theorem World.get_strong_mem (w : World) (i : Nat) (a : SharedPtr)
    (h : w.get_strong i = some a) : some a ∈ w.strong :=
  List.getElem?_mem (w.get_strong_some i a h)

theorem Heap.strong_count_live (h : Heap) (c : Ptr) (rd : RefData) (hc : c ≠ NULL)
    (hb : h.blocks c = some rd) : h.strong_count c = some rd.m_ref_count.value := by
  simp [Heap.strong_count, Heap.last_counts, Heap.deref, hc, hb]

theorem Heap.strong_count_deleted (h : Heap) (c : Ptr) (rd : RefData)
    (hb : h.blocks c = none) (hl : h.deleted_blocks = [(c, rd)]) :
    h.strong_count c = some rd.m_ref_count.value := by
  simp [Heap.strong_count, Heap.last_counts, Heap.deref, hb, hl, List.lookup]

/-! ## Programs on strong handles of one pointee -/

theorem World.alive_strong_count (p c : Ptr) (k : Nat) (w : World) (hc : c ≠ NULL)
    (ha : w.alive p c k) :
    ∃ n : Int, 1 ≤ n ∧ w.heap.strong_count c = some n ∧ w.heap.deleted_objs = [] := by
  obtain ⟨n, hn1, hb, hdo, _, _, _⟩ := ha
  exact ⟨n, hn1, by simp [Heap.strong_count_live _ _ _ hc hb, RefCount.value], hdo⟩

theorem World.dead_strong_count (p c : Ptr) (w : World) (hd : w.dead p c) :
    w.heap.strong_count c = some 0 ∧ w.heap.deleted_objs = [p] := by
  obtain ⟨hb, hdo, hdb, _⟩ := hd
  exact ⟨by simp [Heap.strong_count_deleted _ _ _ hb hdb, RefCount.value], hdo⟩

theorem World.step_alive_copy (p c : Ptr) (k : Nat) (w w1 : World) (i : Nat)
    (hp : p ≠ NULL) (hc : c ≠ NULL) (ha : w.alive p c k)
    (hst : w.step (.copy i) = some w1) : w1.alive p c k := by
  obtain ⟨n, hn1, hb, hdo, hdb, hmem, hlen⟩ := ha
  simp only [World.step] at hst
  cases hg : w.get_strong i with
  | none => simp [hg] at hst
  | some a =>
    have hm := hmem _ (w.get_strong_mem i a hg)
    simp at hm
    subst hm
    rw [hg] at hst
    simp only [SharedPtr.ctor_copy_live _ _ _ _ _ hp hc hb] at hst
    simp at hst
    subst hst
    refine ⟨n + 1, by omega, by simp [Heap.store], hdo, hdb, ?_, ?_⟩
    · intro x hx
      simp at hx
      rcases hx with hx | hx
      · exact hmem x hx
      · exact Or.inr hx
    · simp
      omega

theorem World.step_alive_reset (p c : Ptr) (k : Nat) (w w1 : World) (i : Nat)
    (hp : p ≠ NULL) (hc : c ≠ NULL) (ha : w.alive p c k)
    (hst : w.step (.reset i) = some w1) :
    w1.alive p c (k + 1) ∨ (w1.dead p c ∧ w.heap.strong_count c = some 1) := by
  obtain ⟨n, hn1, hb, hdo, hdb, hmem, hlen⟩ := ha
  simp only [World.step] at hst
  cases hg : w.get_strong i with
  | none => simp [hg] at hst
  | some a =>
    have hm := hmem _ (w.get_strong_mem i a hg)
    simp at hm
    subst hm
    rw [hg] at hst
    by_cases h1 : n = 1
    · subst h1
      simp only [SharedPtr.reset_last_both _ _ _ hp hc hb] at hst
      simp at hst
      subst hst
      refine Or.inr ⟨⟨by simp [Heap.without], by simp [Heap.without, Heap.delete_obj, hdo],
        by simp [Heap.without, Heap.delete_obj, hdb], ?_⟩,
        by simp [Heap.strong_count_live _ _ _ hc hb, RefCount.value]⟩
      intro x hx
      rcases List.mem_or_eq_of_mem_set hx with hx | hx
      · rcases hmem x hx with h0 | h0
        · exact Or.inl h0
        · exact Or.inr (Or.inl h0)
      · exact Or.inr (Or.inr ⟨NULL, hx⟩)
    · simp only [SharedPtr.reset_keep _ _ _ _ _ hp hc hb h1 h1] at hst
      simp at hst
      subst hst
      refine Or.inl ⟨n - 1, by omega, by simp [Heap.store], hdo, hdb, ?_, ?_⟩
      · intro x hx
        rcases List.mem_or_eq_of_mem_set hx with hx | hx
        · exact hmem x hx
        · exact Or.inr hx
      · simp
        omega

theorem World.step_alive_dtor (p c : Ptr) (k : Nat) (w w1 : World) (i : Nat)
    (hp : p ≠ NULL) (hc : c ≠ NULL) (ha : w.alive p c k)
    (hst : w.step (.dtor i) = some w1) :
    w1.alive p c (k + 1) ∨ (w1.dead p c ∧ w.heap.strong_count c = some 1) := by
  obtain ⟨n, hn1, hb, hdo, hdb, hmem, hlen⟩ := ha
  simp only [World.step, SharedPtr.dtor] at hst
  cases hg : w.get_strong i with
  | none => simp [hg] at hst
  | some a =>
    have hm := hmem _ (w.get_strong_mem i a hg)
    simp at hm
    subst hm
    rw [hg] at hst
    by_cases h1 : n = 1
    · subst h1
      simp only [SharedPtr.reset_last_both _ _ _ hp hc hb] at hst
      simp at hst
      subst hst
      refine Or.inr ⟨⟨by simp [Heap.without], by simp [Heap.without, Heap.delete_obj, hdo],
        by simp [Heap.without, Heap.delete_obj, hdb], ?_⟩,
        by simp [Heap.strong_count_live _ _ _ hc hb, RefCount.value]⟩
      intro x hx
      rcases List.mem_or_eq_of_mem_set hx with hx | hx
      · rcases hmem x hx with h0 | h0
        · exact Or.inl h0
        · exact Or.inr (Or.inl h0)
      · exact Or.inl hx
    · simp only [SharedPtr.reset_keep _ _ _ _ _ hp hc hb h1 h1] at hst
      simp at hst
      subst hst
      refine Or.inl ⟨n - 1, by omega, by simp [Heap.store], hdo, hdb, ?_, ?_⟩
      · intro x hx
        rcases List.mem_or_eq_of_mem_set hx with hx | hx
        · exact hmem x hx
        · exact Or.inl hx
      · simp
        omega

theorem World.step_alive_assign (p c : Ptr) (k : Nat) (w w1 : World) (i j : Nat)
    (hp : p ≠ NULL) (hc : c ≠ NULL) (ha : w.alive p c k)
    (hst : w.step (.assign i j) = some w1) : w1.alive p c k := by
  obtain ⟨n, hn1, hb, hdo, hdb, hmem, hlen⟩ := ha
  simp only [World.step] at hst
  cases hgi : w.get_strong i with
  | none => simp [hgi] at hst
  | some a =>
    cases hgj : w.get_strong j with
    | none => simp [hgi, hgj] at hst
    | some b =>
      have hma := hmem _ (w.get_strong_mem i a hgi)
      have hmb := hmem _ (w.get_strong_mem j b hgj)
      simp at hma hmb
      subst hma
      subst hmb
      rw [hgi, hgj] at hst
      by_cases hij : i = j
      · simp only [hij, decide_True, SharedPtr.assign_same] at hst
        simp at hst
        subst hst
        refine ⟨n, hn1, hb, hdo, hdb, ?_, by simpa using hlen⟩
        intro x hx
        rcases List.mem_or_eq_of_mem_set hx with hx | hx
        · exact hmem x hx
        · exact Or.inr hx
      · simp only [hij, decide_False, SharedPtr.assign_other] at hst
        by_cases h1 : n = 1
        · subst h1
          simp only [SharedPtr.reset_last_both _ _ _ hp hc hb, Option.some_bind] at hst
          rw [SharedPtr.ctor_copy_freed _ _ _ hp (by simp [Heap.without])] at hst
          simp at hst
        · simp only [SharedPtr.reset_keep _ _ _ _ _ hp hc hb h1 h1, Option.some_bind] at hst
          rw [SharedPtr.ctor_copy_live _ p c (n - 1) (n - 1) hp hc (by simp [Heap.store])]
            at hst
          simp at hst
          subst hst
          refine ⟨n, hn1, by simp [Heap.store], hdo, hdb, ?_, by simpa using hlen⟩
          intro x hx
          rcases List.mem_or_eq_of_mem_set hx with hx | hx
          · exact hmem x hx
          · exact Or.inr hx

theorem World.step_dead (p c : Ptr) (w w1 : World) (op : Op)
    (hp : p ≠ NULL) (hd : w.dead p c) (hso : op.strong_only = true)
    (hst : w.step op = some w1) : w1.dead p c := by
  obtain ⟨hb, hdo, hdb, hmem⟩ := hd
  cases op with
  | copy i =>
    simp only [World.step] at hst
    cases hg : w.get_strong i with
    | none => simp [hg] at hst
    | some a =>
      rw [hg] at hst
      have hm := hmem _ (w.get_strong_mem i a hg)
      simp at hm
      rcases hm with hm | ⟨r, hm⟩
      · subst hm
        simp [SharedPtr.ctor_copy_freed _ _ _ hp hb] at hst
      · subst hm
        simp only [SharedPtr.ctor_copy_null] at hst
        simp at hst
        subst hst
        refine ⟨hb, hdo, hdb, ?_⟩
        intro x hx
        simp at hx
        rcases hx with hx | hx
        · exact hmem x hx
        · exact Or.inr (Or.inr ⟨r, hx⟩)
  | assign i j =>
    simp only [World.step] at hst
    cases hgi : w.get_strong i with
    | none => simp [hgi] at hst
    | some a =>
      cases hgj : w.get_strong j with
      | none => simp [hgi, hgj] at hst
      | some b =>
        rw [hgi, hgj] at hst
        have hma := hmem _ (w.get_strong_mem i a hgi)
        have hmb := hmem _ (w.get_strong_mem j b hgj)
        by_cases hij : i = j
        · simp only [hij, decide_True, SharedPtr.assign_same] at hst
          simp at hst
          subst hst
          refine ⟨hb, hdo, hdb, ?_⟩
          intro x hx
          rcases List.mem_or_eq_of_mem_set hx with hx | hx
          · exact hmem x hx
          · subst hx
            exact hma
        · simp only [hij, decide_False, SharedPtr.assign_other] at hst
          simp at hma hmb
          rcases hma with hma | ⟨r, hma⟩
          · subst hma
            simp [SharedPtr.reset_freed _ _ _ hp hb] at hst
          · subst hma
            simp only [SharedPtr.reset_null, Option.some_bind] at hst
            rcases hmb with hmb | ⟨r2, hmb⟩
            · subst hmb
              simp [SharedPtr.ctor_copy_freed _ _ _ hp hb] at hst
            · subst hmb
              simp only [SharedPtr.ctor_copy_null] at hst
              simp at hst
              subst hst
              refine ⟨hb, hdo, hdb, ?_⟩
              intro x hx
              rcases List.mem_or_eq_of_mem_set hx with hx | hx
              · exact hmem x hx
              · exact Or.inr (Or.inr ⟨r2, hx⟩)
  | reset i =>
    simp only [World.step] at hst
    cases hg : w.get_strong i with
    | none => simp [hg] at hst
    | some a =>
      rw [hg] at hst
      have hm := hmem _ (w.get_strong_mem i a hg)
      simp at hm
      rcases hm with hm | ⟨r, hm⟩
      · subst hm
        simp [SharedPtr.reset_freed _ _ _ hp hb] at hst
      · subst hm
        simp only [SharedPtr.reset_null] at hst
        simp at hst
        subst hst
        refine ⟨hb, hdo, hdb, ?_⟩
        intro x hx
        rcases List.mem_or_eq_of_mem_set hx with hx | hx
        · exact hmem x hx
        · exact Or.inr (Or.inr ⟨r, hx⟩)
  | dtor i =>
    simp only [World.step, SharedPtr.dtor] at hst
    cases hg : w.get_strong i with
    | none => simp [hg] at hst
    | some a =>
      rw [hg] at hst
      have hm := hmem _ (w.get_strong_mem i a hg)
      simp at hm
      rcases hm with hm | ⟨r, hm⟩
      · subst hm
        simp [SharedPtr.reset_freed _ _ _ hp hb] at hst
      · subst hm
        simp only [SharedPtr.reset_null] at hst
        simp at hst
        subst hst
        refine ⟨hb, hdo, hdb, ?_⟩
        intro x hx
        rcases List.mem_or_eq_of_mem_set hx with hx | hx
        · exact hmem x hx
        · exact Or.inl hx
  | ctor_ptr _ => simp [Op.strong_only] at hso
  | weak_ctor_shared _ => simp [Op.strong_only] at hso
  | weak_ctor_copy _ => simp [Op.strong_only] at hso
  | weak_assign_shared _ _ => simp [Op.strong_only] at hso
  | weak_assign _ _ => simp [Op.strong_only] at hso
  | weak_lock _ => simp [Op.strong_only] at hso
  | weak_reset _ => simp [Op.strong_only] at hso
  | weak_dtor _ => simp [Op.strong_only] at hso

/-- One statement on strong handles keeps the invariant: the pointee stays alive, with
the release counted, or this statement is a release that found the strong count at 1. -/
theorem World.step_alive (p c : Ptr) (k : Nat) (w w1 : World) (op : Op)
    (hp : p ≠ NULL) (hc : c ≠ NULL) (ha : w.alive p c k) (hso : op.strong_only = true)
    (hst : w.step op = some w1) :
    w1.alive p c (k + (op.released.toList).length) ∨
      (w1.dead p c ∧ w.heap.strong_count c = some 1) := by
  cases op with
  | copy i => exact Or.inl (World.step_alive_copy p c k w w1 i hp hc ha hst)
  | assign i j => exact Or.inl (World.step_alive_assign p c k w w1 i j hp hc ha hst)
  | reset i => exact World.step_alive_reset p c k w w1 i hp hc ha hst
  | dtor i => exact World.step_alive_dtor p c k w w1 i hp hc ha hst
  | ctor_ptr _ => simp [Op.strong_only] at hso
  | weak_ctor_shared _ => simp [Op.strong_only] at hso
  | weak_ctor_copy _ => simp [Op.strong_only] at hso
  | weak_assign_shared _ _ => simp [Op.strong_only] at hso
  | weak_assign _ _ => simp [Op.strong_only] at hso
  | weak_lock _ => simp [Op.strong_only] at hso
  | weak_reset _ => simp [Op.strong_only] at hso
  | weak_dtor _ => simp [Op.strong_only] at hso

theorem World.run_dead (p c : Ptr) (ops : List Op) (hp : p ≠ NULL) :
    ∀ w w1 : World, w.dead p c → (∀ op ∈ ops, op.strong_only = true) →
      w.run ops = some w1 → w1.dead p c := by
  induction ops with
  | nil =>
    intro w w1 hd _ hr
    simp [World.run] at hr
    subst hr
    exact hd
  | cons op ops ih =>
    intro w w1 hd hso hr
    simp only [World.run] at hr
    cases hs : w.step op with
    | none => simp [hs] at hr
    | some w2 =>
      rw [hs] at hr
      exact ih w2 w1 (World.step_dead p c w w2 op hp hd (hso op (by simp)) hs)
        (fun o ho => hso o (by simp [ho])) hr

theorem World.run_alive (p c : Ptr) (ops : List Op) (hp : p ≠ NULL) (hc : c ≠ NULL) :
    ∀ (k : Nat) (w w1 : World), w.alive p c k → (∀ op ∈ ops, op.strong_only = true) →
      w.run ops = some w1 →
      w1.alive p c (k + (ops.filterMap Op.released).length) ∨ w1.dead p c := by
  induction ops with
  | nil =>
    intro k w w1 ha _ hr
    simp [World.run] at hr
    subst hr
    exact Or.inl (by simpa using ha)
  | cons op ops ih =>
    intro k w w1 ha hso hr
    simp only [World.run] at hr
    cases hs : w.step op with
    | none => simp [hs] at hr
    | some w2 =>
      rw [hs] at hr
      have hso2 : ∀ o ∈ ops, o.strong_only = true := fun o ho => hso o (by simp [ho])
      rcases World.step_alive p c k w w2 op hp hc ha (hso op (by simp)) hs with h2 | h2
      · rcases ih _ w2 w1 h2 hso2 hr with h3 | h3
        · left
          have he : k + (op.released.toList).length + (ops.filterMap Op.released).length
              = k + ((op :: ops).filterMap Op.released).length := by
            cases hrel : op.released with
            | none => simp [List.filterMap_cons, hrel]
            | some i =>
              simp [List.filterMap_cons, hrel]
              omega
          rw [← he]
          exact h3
        · exact Or.inr h3
      · exact Or.inr (World.run_dead p c ops hp w2 w1 h2.1 hso2 hr)

theorem SharedPtr.ctor_ptr_nonnull (h : Heap) (p : Ptr) (hp : p ≠ NULL) :
    SharedPtr.ctor_ptr p h
      = some (⟨p, h.new_RefData.1⟩, h.new_RefData.2.store h.new_RefData.1 ⟨⟨1⟩, ⟨1⟩⟩) := by
  have hc : h.new_RefData.1 ≠ NULL := by simp [Heap.new_RefData, NULL]
  have hd : h.new_RefData.2.deref h.new_RefData.1 = some {} := by
    simp [Heap.deref, hc]
    simp [Heap.new_RefData]
  simp [SharedPtr.ctor_ptr, hp, Heap.ref_count_inc, Heap.weak_ref_count_inc, hd,
    Heap.deref_store_same, hc, Heap.store_store, RefCount.inc]

theorem World.ctor_ptr_alive (p : Ptr) (hp : p ≠ NULL) (w : World)
    (hst : World.empty.step (.ctor_ptr p) = some w) :
    w.alive p Heap.empty.new_RefData.1 0 := by
  simp only [World.step, SharedPtr.ctor_ptr_nonnull _ p hp] at hst
  simp at hst
  subst hst
  exact ⟨1, by omega, by simp [Heap.store, World.empty], rfl, rfl, by simp [World.empty],
    by simp [World.empty]⟩

theorem range_subset_length_le (L : Nat) (l : List Nat) (h : ∀ i < L, i ∈ l) :
    L ≤ l.length := by
  have h1 : List.range L ⊆ l := fun i hi => h i (List.mem_range.mp hi)
  simpa using ((List.nodup_range L).subperm h1).length_le

/-- Programs in which every statement is defined, that is, no statement goes through a
handle whose control block was already deleted: if such a program constructs one strong
handle from a non-null pointer `p` and then only copies, assigns, resets and destroys
strong handles, and it runs to a state `w`, then the deletion log is empty or `[p]`; a
further defined statement deletes the pointee if and only if it takes the strong count of
the control block from 1 to 0; and when every handle object has been released (by
`reset()` or by its destruction) the pointee has been deleted once.  The hypothesis that
the program runs leaves out the programs that reset a handle a second time and then use
another handle of the same block, such as `a(7); b(a); b.reset(); b.reset(); c(a)`; for
these see `double_reset_then_copy_deletes_pointee_twice`. -/
theorem defined_run_destroys_pointee_once (p : Ptr) (hp : p ≠ NULL) (ops : List Op)
    (hso : ∀ op ∈ ops, op.strong_only = true) :
    ∀ w : World, World.empty.run (.ctor_ptr p :: ops) = some w →
      (w.heap.deleted_objs = [] ∨ w.heap.deleted_objs = [p]) ∧
      (∀ (op : Op) (w1 : World), op.strong_only = true → w.step op = some w1 →
        ((w1.heap.deleted_objs ≠ w.heap.deleted_objs ↔
            (w.heap.strong_count Heap.empty.new_RefData.1 = some 1 ∧
              w1.heap.strong_count Heap.empty.new_RefData.1 = some 0)) ∧
          (w1.heap.deleted_objs = w.heap.deleted_objs ∨
            w1.heap.deleted_objs = p :: w.heap.deleted_objs))) ∧
      ((∀ i < w.strong.length, ∃ op ∈ ops, op.released = some i) →
        w.heap.deleted_objs = [p]) := by
  intro w hr
  have hc : Heap.empty.new_RefData.1 ≠ NULL := by simp [Heap.new_RefData, NULL]
  generalize hcdef : Heap.empty.new_RefData.1 = c at hc ⊢
  simp only [World.run] at hr
  cases hs : World.empty.step (.ctor_ptr p) with
  | none => simp [hs] at hr
  | some w0 =>
    rw [hs] at hr
    have h0 := World.ctor_ptr_alive p hp w0 hs
    rw [hcdef] at h0
    have hinv := World.run_alive p c ops hp hc 0 w0 w h0 hso hr
    have hstep : ∀ (op : Op) (w1 : World), op.strong_only = true → w.step op = some w1 →
        ((w1.heap.deleted_objs ≠ w.heap.deleted_objs ↔
            (w.heap.strong_count c = some 1 ∧ w1.heap.strong_count c = some 0)) ∧
          (w1.heap.deleted_objs = w.heap.deleted_objs ∨
            w1.heap.deleted_objs = p :: w.heap.deleted_objs)) := by
      intro op w1 hop hst
      rcases hinv with ha | hd
      · obtain ⟨n, hn1, hsc, hdo⟩ := World.alive_strong_count p c _ w hc ha
        rcases World.step_alive p c _ w w1 op hp hc ha hop hst with ha1 | ⟨hd1, hone⟩
        · obtain ⟨n1, hn11, hsc1, hdo1⟩ := World.alive_strong_count p c _ w1 hc ha1
          refine ⟨?_, Or.inl (by rw [hdo, hdo1])⟩
          constructor
          · intro hne
            exact absurd (by rw [hdo, hdo1]) hne
          · rintro ⟨_, h2⟩
            rw [hsc1] at h2
            simp at h2
            omega
        · obtain ⟨hsc1, hdo1⟩ := World.dead_strong_count p c w1 hd1
          refine ⟨?_, Or.inr (by rw [hdo, hdo1])⟩
          constructor
          · intro _
            exact ⟨hone, hsc1⟩
          · intro _
            rw [hdo, hdo1]
            simp
      · have hd1 := World.step_dead p c w w1 op hp hd hop hst
        obtain ⟨hsc, hdo⟩ := World.dead_strong_count p c w hd
        obtain ⟨_, hdo1⟩ := World.dead_strong_count p c w1 hd1
        refine ⟨?_, Or.inl (by rw [hdo, hdo1])⟩
        constructor
        · intro hne
          exact absurd (by rw [hdo, hdo1]) hne
        · rintro ⟨h1, _⟩
          rw [hsc] at h1
          simp at h1
    refine ⟨?_, hstep, ?_⟩
    · rcases hinv with ha | hd
      · exact Or.inl (World.alive_strong_count p c _ w hc ha).choose_spec.2.2
      · exact Or.inr hd.2.1
    · intro hall
      rcases hinv with ha | hd
      · exfalso
        obtain ⟨n, hn1, _, _, _, _, hlen⟩ := ha
        have hge := range_subset_length_le w.strong.length
          (ops.filterMap Op.released) (fun i hi => by
            obtain ⟨op, hop, hrel⟩ := hall i hi
            exact List.mem_filterMap.mpr ⟨op, hop, hrel⟩)
        omega
      · exact hd.2.1

/-! ## Promotion: `WeakPtr::lock` -/

/-- C1: `lock()` on a weak handle with a non-null pointee whose control block has strong
count `n ≥ 1` returns a non-empty strong handle with the same pointee and the same control
block; the weak handle is unchanged, and in the heap afterwards the strong count is `n + 1`
(also through `ref_count()`), the weak count is one higher, and nothing else changed. -/
theorem lock_alive_returns_strong (w : WeakPtr) (h : Heap) (rd : RefData) (n : Nat)
    (hp : w.m_dest_ptr ≠ NULL) (hc : w.m_ref_data ≠ NULL)
    (hb : h.blocks w.m_ref_data = some rd)
    (hn : rd.m_ref_count.value = (n : Int)) (h1 : 1 ≤ n) :
    ∃ s h', w.lock h = some (s, w, h') ∧
      s.get ≠ NULL ∧ s.operator_bool = true ∧ s.get = w.get ∧
      s.ger_ref_count = w.ger_ref_count ∧
      h' = h.store w.m_ref_data
            { m_ref_count := { m_ref_num := (n : Int) + 1 },
              m_weak_ref_count := { m_ref_num := rd.m_weak_ref_count.value + 1 } } ∧
      h'.deref w.m_ref_data = some
            { m_ref_count := { m_ref_num := (n : Int) + 1 },
              m_weak_ref_count := { m_ref_num := rd.m_weak_ref_count.value + 1 } } ∧
      s.ref_count h' = some (n + 1) := by
  have hv : rd.m_ref_count.m_ref_num = (n : Int) := hn
  have hne : ¬ (1 = (n : Int) + 1) := by omega
  have hd := Heap.deref_of_blocks h _ rd hc hb
  refine ⟨{ m_dest_ptr := w.m_dest_ptr, m_ref_data := w.m_ref_data },
    h.store w.m_ref_data
            { m_ref_count := { m_ref_num := (n : Int) + 1 },
              m_weak_ref_count := { m_ref_num := rd.m_weak_ref_count.value + 1 } }, ?_, ?_⟩
  · simp [WeakPtr.lock, hp, hc, Heap.ref_count_inc_and_fetch, hd,
      RefCount.inc_and_fetch, hv, hne, SharedPtr.ctor_ptr_data, Heap.weak_ref_count_inc,
      Heap.deref_store_same, Heap.store_store, RefCount.inc, RefCount.value]
  · simp [SharedPtr.get, SharedPtr.operator_bool, WeakPtr.get, SharedPtr.ger_ref_count,
      WeakPtr.ger_ref_count, hp, Ne.symm hp, Heap.deref_store_same, RefCount.value, hc,
      SharedPtr.ref_count]

/-- C1 at a concrete state: pointee 7, control block 1 with strong count 2 and weak
count 3. -/
theorem lock_alive_returns_strong_witness :
    ∃ s h', (WeakPtr.mk 7 1).lock (Heap.single 1 2 3) = some (s, WeakPtr.mk 7 1, h') ∧
      s.get ≠ NULL ∧ s.operator_bool = true ∧ s.get = (WeakPtr.mk 7 1).get ∧
      s.ger_ref_count = (WeakPtr.mk 7 1).ger_ref_count ∧
      h' = (Heap.single 1 2 3).store 1
            { m_ref_count := { m_ref_num := 3 }, m_weak_ref_count := { m_ref_num := 4 } } ∧
      h'.deref 1 = some
            { m_ref_count := { m_ref_num := 3 }, m_weak_ref_count := { m_ref_num := 4 } } ∧
      s.ref_count h' = some 3 :=
  lock_alive_returns_strong (WeakPtr.mk 7 1) (Heap.single 1 2 3)
    { m_ref_count := { m_ref_num := 2 }, m_weak_ref_count := { m_ref_num := 3 } } 2
    (by decide) (by decide) rfl rfl (by decide)

/-- C2: `lock()` on a weak handle with a non-null cached pointee whose control block has
strong count 0 succeeds (no fault, no error), returns the empty strong handle, leaves the
whole heap as it was (strong count 0, weak count unchanged, nothing deleted), clears the
cached pointee of the weak handle, and a second `lock()` again returns the empty handle. -/
theorem lock_dead_returns_empty (w : WeakPtr) (h : Heap) (rd : RefData)
    (hp : w.m_dest_ptr ≠ NULL) (hc : w.m_ref_data ≠ NULL)
    (hb : h.blocks w.m_ref_data = some rd) (h0 : rd.m_ref_count.value = 0) :
    w.lock h = some (SharedPtr.ctor, { w with m_dest_ptr := NULL }, h) ∧
      SharedPtr.ctor.get = NULL ∧ SharedPtr.ctor.operator_bool = false ∧
      (h.deref w.m_ref_data).map (fun r => r.m_ref_count.value) = some 0 ∧
      ({ w with m_dest_ptr := NULL } : WeakPtr).get = NULL ∧
      ({ w with m_dest_ptr := NULL } : WeakPtr).lock h
        = some (SharedPtr.ctor, { w with m_dest_ptr := NULL }, h) := by
  have hv : rd.m_ref_count.m_ref_num = 0 := h0
  have hd := Heap.deref_of_blocks h _ rd hc hb
  have hrd : ({ m_ref_count := { m_ref_num := 0 }, m_weak_ref_count := rd.m_weak_ref_count }
      : RefData) = rd := by
    cases rd with
    | mk a b =>
      cases a with
      | mk v => simp at hv; simp [hv]
  refine ⟨?_, rfl, rfl, ?_, rfl, ?_⟩
  · simp [WeakPtr.lock, hp, hc, Heap.ref_count_inc_and_fetch, hd, RefCount.inc_and_fetch, hv,
      Heap.ref_count_dec_and_check_zero, Heap.deref_store_same, RefCount.dec_and_check_zero,
      Heap.store_store, hrd, Heap.store_self _ _ _ hb]
  · simp [hd, h0]
  · simp [WeakPtr.lock]

/-- C2 on the scenario of the spec: construct a strong handle on pointee 7, derive a weak
handle, drop the strong handle; `lock()` then returns the empty handle. -/
theorem lock_dead_returns_empty_witness :
    ∃ w h, dangling_weak 7 = some (w, h) ∧ h.deleted_objs = [7] ∧
      (w.lock h = some (SharedPtr.ctor, { w with m_dest_ptr := NULL }, h) ∧
      SharedPtr.ctor.get = NULL ∧ SharedPtr.ctor.operator_bool = false ∧
      (h.deref w.m_ref_data).map (fun r => r.m_ref_count.value) = some 0 ∧
      ({ w with m_dest_ptr := NULL } : WeakPtr).get = NULL ∧
      ({ w with m_dest_ptr := NULL } : WeakPtr).lock h
        = some (SharedPtr.ctor, { w with m_dest_ptr := NULL }, h)) := by
  refine ⟨WeakPtr.mk 7 1, _, rfl, rfl, ?_⟩
  exact lock_dead_returns_empty (WeakPtr.mk 7 1) _
    { m_ref_count := { m_ref_num := 0 }, m_weak_ref_count := { m_ref_num := 1 } }
    (by decide) (by decide) rfl rfl

/-- The program `a(7); b(a); b.reset(); ~a` is defined throughout, and the three
statements about defined programs hold in its final state. -/
theorem defined_run_destroys_pointee_once_witness :
    (World.empty.run (.ctor_ptr 7 :: [.copy 0, .reset 1, .dtor 0])).isSome = true ∧
    ∀ w : World, World.empty.run (.ctor_ptr 7 :: [.copy 0, .reset 1, .dtor 0]) = some w →
      (w.heap.deleted_objs = [] ∨ w.heap.deleted_objs = [7]) ∧
      (∀ (op : Op) (w1 : World), op.strong_only = true → w.step op = some w1 →
        ((w1.heap.deleted_objs ≠ w.heap.deleted_objs ↔
            (w.heap.strong_count Heap.empty.new_RefData.1 = some 1 ∧
              w1.heap.strong_count Heap.empty.new_RefData.1 = some 0)) ∧
          (w1.heap.deleted_objs = w.heap.deleted_objs ∨
            w1.heap.deleted_objs = 7 :: w.heap.deleted_objs))) ∧
      ((∀ i < w.strong.length, ∃ op ∈ [Op.copy 0, Op.reset 1, Op.dtor 0],
          op.released = some i) → w.heap.deleted_objs = [7]) :=
  ⟨rfl, defined_run_destroys_pointee_once 7 (by decide) [.copy 0, .reset 1, .dtor 0]
    (by decide)⟩

/-! ## The race of `reset()` against `lock()` -/

theorem Heap.ref_count_dec_and_check_zero_eq (h : Heap) (c : Ptr) (s k : Int)
    (hc : c ≠ NULL) (hb : h.blocks c = some ⟨⟨s⟩, ⟨k⟩⟩) :
    h.ref_count_dec_and_check_zero c
      = some (decide (s - 1 = 0), h.store c ⟨⟨s - 1⟩, ⟨k⟩⟩) := by
  simp [Heap.ref_count_dec_and_check_zero, Heap.deref_of_blocks h c _ hc hb,
    RefCount.dec_and_check_zero]

theorem Heap.weak_ref_count_dec_and_check_zero_eq (h : Heap) (c : Ptr) (s k : Int)
    (hc : c ≠ NULL) (hb : h.blocks c = some ⟨⟨s⟩, ⟨k⟩⟩) :
    h.weak_ref_count_dec_and_check_zero c
      = some (decide (k - 1 = 0), h.store c ⟨⟨s⟩, ⟨k - 1⟩⟩) := by
  simp [Heap.weak_ref_count_dec_and_check_zero, Heap.deref_of_blocks h c _ hc hb,
    RefCount.dec_and_check_zero]

theorem Heap.ref_count_inc_and_fetch_eq (h : Heap) (c : Ptr) (s k n : Int)
    (hc : c ≠ NULL) (hb : h.blocks c = some ⟨⟨s⟩, ⟨k⟩⟩) :
    h.ref_count_inc_and_fetch c n = some (s + n, h.store c ⟨⟨s + n⟩, ⟨k⟩⟩) := by
  simp [Heap.ref_count_inc_and_fetch, Heap.deref_of_blocks h c _ hc hb,
    RefCount.inc_and_fetch]

theorem Heap.weak_ref_count_inc_eq (h : Heap) (c : Ptr) (s k : Int)
    (hc : c ≠ NULL) (hb : h.blocks c = some ⟨⟨s⟩, ⟨k⟩⟩) :
    h.weak_ref_count_inc c = some (h.store c ⟨⟨s⟩, ⟨k + 1⟩⟩) := by
  simp [Heap.weak_ref_count_inc, Heap.deref_of_blocks h c _ hc hb, RefCount.inc]

theorem Heap.ref_count_inc_eq (h : Heap) (c : Ptr) (s k : Int)
    (hc : c ≠ NULL) (hb : h.blocks c = some ⟨⟨s⟩, ⟨k⟩⟩) :
    h.ref_count_inc c = some (h.store c ⟨⟨s + 1⟩, ⟨k⟩⟩) := by
  simp [Heap.ref_count_inc, Heap.deref_of_blocks h c _ hc hb, RefCount.inc]

theorem Race.inv_step_a (p c : Ptr) (k : Int) (D : List Ptr) (r : Race)
    (hp : p ≠ NULL) (hc : c ≠ NULL) (hk : 2 ≤ k) (hinv : r.inv p c k D) :
    r.step_a.inv p c k D := by
  obtain ⟨heap, mutex, ⟨ap, ac⟩, a_pc, a_z, a_zw, ⟨bp, bc⟩, b_pc, b_v, b_ret, fault, a_saw,
    bfst⟩ := r
  obtain ⟨h1, h2, h3, h4, h5, h6, h7, h8, h9, h10, h11, h12, h13, h14, h15, h16⟩ := hinv
  simp only at h1 h2 h3 h4 h5 h6 h7 h8 h9 h10 h11 h12 h13 h14 h15 h16
  subst h1 h2 h3
  cases a_pc <;> cases b_pc <;> cases bfst <;> cases a_z <;> cases a_zw <;>
    simp [Race.strong_expected, Race.weak_expected, APc.decremented, APc.past_delete,
      APc.weak_decremented, BPc.incremented, BPc.past_undo, BPc.holds_mutex]
      at h4 h5 h6 h7 h8 h9 h10 h11 h12 h13 h14 h15 h16 <;>
    subst_vars <;>
    (try simp at h4) <;>
    simp only [Race.step_a] <;>
    (try simp [hp, Heap.ref_count_dec_and_check_zero_eq _ _ _ _ hc h4,
      Heap.weak_ref_count_dec_and_check_zero_eq _ _ _ _ hc h4]) <;>
    (try simp [*, Race.inv, Race.strong_expected, Race.weak_expected, APc.decremented,
      APc.past_delete, APc.weak_decremented, BPc.incremented, BPc.past_undo, BPc.holds_mutex,
      Heap.store, Heap.delete_obj, Heap.strong_count_live _ _ _ hc h4, RefCount.value])
  all_goals omega

theorem Race.inv_step_b (p c : Ptr) (k : Int) (D : List Ptr) (r : Race)
    (hp : p ≠ NULL) (hc : c ≠ NULL) (hinv : r.inv p c k D) :
    r.step_b.inv p c k D := by
  obtain ⟨heap, mutex, ⟨ap, ac⟩, a_pc, a_z, a_zw, ⟨bp, bc⟩, b_pc, b_v, b_ret, fault, a_saw,
    bfst⟩ := r
  obtain ⟨h1, h2, h3, h4, h5, h6, h7, h8, h9, h10, h11, h12, h13, h14, h15, h16⟩ := hinv
  simp only at h1 h2 h3 h4 h5 h6 h7 h8 h9 h10 h11 h12 h13 h14 h15 h16
  subst h1 h2 h3
  cases a_pc <;> cases b_pc <;> cases bfst <;> cases a_z <;> cases a_zw <;>
    simp [Race.strong_expected, Race.weak_expected, APc.decremented, APc.past_delete,
      APc.weak_decremented, BPc.incremented, BPc.past_undo, BPc.holds_mutex]
      at h4 h5 h6 h7 h8 h9 h10 h11 h12 h13 h14 h15 h16 <;>
    subst_vars <;>
    (try simp at h4) <;>
    simp only [Race.step_b] <;>
    (try simp [hp, hc, Heap.ref_count_dec_and_check_zero_eq _ _ _ _ hc h4,
      Heap.ref_count_inc_and_fetch_eq _ _ _ _ _ hc h4, SharedPtr.ctor_ptr_data,
      Heap.weak_ref_count_inc_eq _ _ _ _ hc h4]) <;>
    (try simp [*, Race.inv, Race.strong_expected, Race.weak_expected, APc.decremented,
      APc.past_delete, APc.weak_decremented, BPc.incremented, BPc.past_undo, BPc.holds_mutex,
      Heap.store, Heap.delete_obj, RefCount.value])
  all_goals omega

theorem Race.inv_init (p c : Ptr) (k : Int) (h0 : Heap)
    (hb : h0.blocks c = some ⟨⟨1⟩, ⟨k⟩⟩) :
    (Race.init ⟨p, c⟩ ⟨p, c⟩ h0).inv p c k h0.deleted_objs := by
  simp [Race.init, Race.inv, Race.strong_expected, Race.weak_expected, APc.decremented,
    APc.past_delete, APc.weak_decremented, BPc.incremented, BPc.past_undo, BPc.holds_mutex, hb]

theorem Race.inv_run (p c : Ptr) (k : Int) (D : List Ptr) (hp : p ≠ NULL) (hc : c ≠ NULL)
    (hk : 2 ≤ k) (sched : List Tid) :
    ∀ r : Race, r.inv p c k D → (r.run sched).inv p c k D := by
  induction sched with
  | nil => exact fun r h => h
  | cons t ts ih =>
    intro r h
    cases t with
    | A => exact ih _ (Race.inv_step_a p c k D r hp hc hk h)
    | B => exact ih _ (Race.inv_step_b p c k D r hp hc h)

theorem Race.rank_step_a (r : Race) :
    min 4 (r.a_pc.rank + 1) ≤ r.step_a.a_pc.rank ∧ r.step_a.b_pc = r.b_pc := by
  unfold Race.step_a
  cases h : r.a_pc <;> simp only [] <;> (try split) <;> (try split) <;> simp [APc.rank, h]

theorem Race.rank_step_b (p c : Ptr) (k : Int) (D : List Ptr) (r : Race)
    (hinv : r.inv p c k D) :
    min 4 (r.b_pc.rank + 1) ≤ r.step_b.b_pc.rank ∧ r.step_b.a_pc = r.a_pc := by
  obtain ⟨_, _, _, _, _, _, h7, h8, _⟩ := hinv
  unfold Race.step_b
  cases h : r.b_pc <;> simp only [] <;> (try split) <;> (try split) <;>
    simp_all [BPc.rank, BPc.holds_mutex]

theorem Race.rank_run (p c : Ptr) (k : Int) (D : List Ptr) (hp : p ≠ NULL) (hc : c ≠ NULL)
    (hk : 2 ≤ k) (sched : List Tid) :
    ∀ r : Race, r.inv p c k D →
      min 4 (r.a_pc.rank + sched.count .A) ≤ (r.run sched).a_pc.rank ∧
      min 4 (r.b_pc.rank + sched.count .B) ≤ (r.run sched).b_pc.rank := by
  induction sched with
  | nil =>
    intro r _
    simp [Race.run]
  | cons t ts ih =>
    intro r h
    cases t with
    | A =>
      obtain ⟨h1, h2⟩ := ih _ (Race.inv_step_a p c k D r hp hc hk h)
      obtain ⟨h3, h4⟩ := Race.rank_step_a r
      simp only [Race.run, Race.step, List.count_cons_self]
      rw [h4] at h2
      have : List.count Tid.B (Tid.A :: ts) = List.count Tid.B ts := by
        simp [List.count_cons]
      rw [this]
      omega
    | B =>
      obtain ⟨h1, h2⟩ := ih _ (Race.inv_step_b p c k D r hp hc h)
      obtain ⟨h3, h4⟩ := Race.rank_step_b p c k D r h
      simp only [Race.run, Race.step, List.count_cons_self]
      rw [h4] at h1
      have : List.count Tid.A (Tid.B :: ts) = List.count Tid.A ts := by
        simp [List.count_cons]
      rw [this]
      omega

/-- C6: thread A holds the last strong handle `(p, c)` (strong count 1, weak count
`k ≥ 2`) and runs `reset()`, thread B runs `lock()` on a weak handle `(p, c)`.  After every
schedule of their steps: no deleted control block was touched; the pointee was deleted at
most once; a non-empty handle returned by `lock()` is `(p, c)` and the pointee was not
deleted; a thread that was scheduled four times has returned; and when both threads have
returned exactly one of two outcomes holds: `lock()` returned the empty handle, A's
decrement came first, started from strong count 1 and the pointee was deleted once, or
`lock()` returned `(p, c)`, B's increment preceded A's decrement, which started from strong
count 2, and the pointee was not deleted. -/
theorem reset_lock_race (p c : Ptr) (k : Int) (h0 : Heap) (hp : p ≠ NULL) (hc : c ≠ NULL)
    (hk : 2 ≤ k) (hb : h0.blocks c = some ⟨⟨1⟩, ⟨k⟩⟩) (sched : List Tid) :
    ((Race.init ⟨p, c⟩ ⟨p, c⟩ h0).run sched).fault = false ∧
    (((Race.init ⟨p, c⟩ ⟨p, c⟩ h0).run sched).heap.deleted_objs = h0.deleted_objs ∨
      ((Race.init ⟨p, c⟩ ⟨p, c⟩ h0).run sched).heap.deleted_objs = p :: h0.deleted_objs) ∧
    (∀ s : SharedPtr, ((Race.init ⟨p, c⟩ ⟨p, c⟩ h0).run sched).b_ret = some s →
      s.get ≠ NULL →
      s = ⟨p, c⟩ ∧
        ((Race.init ⟨p, c⟩ ⟨p, c⟩ h0).run sched).heap.deleted_objs = h0.deleted_objs) ∧
    (4 ≤ sched.count .A → ((Race.init ⟨p, c⟩ ⟨p, c⟩ h0).run sched).a_pc = .done) ∧
    (4 ≤ sched.count .B → ((Race.init ⟨p, c⟩ ⟨p, c⟩ h0).run sched).b_pc = .done) ∧
    (((Race.init ⟨p, c⟩ ⟨p, c⟩ h0).run sched).a_pc = .done →
      ((Race.init ⟨p, c⟩ ⟨p, c⟩ h0).run sched).b_pc = .done →
      (((Race.init ⟨p, c⟩ ⟨p, c⟩ h0).run sched).b_ret = some SharedPtr.ctor ∧
        ((Race.init ⟨p, c⟩ ⟨p, c⟩ h0).run sched).b_inc_first = false ∧
        ((Race.init ⟨p, c⟩ ⟨p, c⟩ h0).run sched).a_saw = some 1 ∧
        ((Race.init ⟨p, c⟩ ⟨p, c⟩ h0).run sched).heap.deleted_objs = p :: h0.deleted_objs)
      ∨
      (((Race.init ⟨p, c⟩ ⟨p, c⟩ h0).run sched).b_ret = some ⟨p, c⟩ ∧
        ((Race.init ⟨p, c⟩ ⟨p, c⟩ h0).run sched).b_inc_first = true ∧
        ((Race.init ⟨p, c⟩ ⟨p, c⟩ h0).run sched).a_saw = some 2 ∧
        ((Race.init ⟨p, c⟩ ⟨p, c⟩ h0).run sched).heap.deleted_objs = h0.deleted_objs)) := by
  have hinv := Race.inv_run p c k h0.deleted_objs hp hc hk sched _ (Race.inv_init p c k h0 hb)
  have hrank := Race.rank_run p c k h0.deleted_objs hp hc hk sched _
    (Race.inv_init p c k h0 hb)
  generalize (Race.init ⟨p, c⟩ ⟨p, c⟩ h0).run sched = r at hinv hrank
  obtain ⟨h1, h2, h3, h4, h5, h6, h7, h8, h9, h10, h11, h12, h13, h14, h15, h16⟩ := hinv
  obtain ⟨hra, hrb⟩ := hrank
  have hra4 : min 4 (sched.count .A) ≤ r.a_pc.rank := by simpa [Race.init, APc.rank] using hra
  have hrb4 : min 4 (sched.count .B) ≤ r.b_pc.rank := by simpa [Race.init, BPc.rank] using hrb
  refine ⟨h1, ?_, ?_, ?_, ?_, ?_⟩
  · rw [h5]
    split
    · exact Or.inr rfl
    · exact Or.inl rfl
  · intro s hs hne
    rw [h9] at hs
    by_cases hd : r.b_pc = .done
    · have hi : r.b_pc.incremented = true := by simp [hd, BPc.incremented]
      have hv := h10 hi
      by_cases h1v : r.b_v = 1
      · simp [hd, h1v] at hs
        subst hs
        simp [SharedPtr.ctor, SharedPtr.get] at hne
      · simp [hd, h1v] at hs
        refine ⟨hs.symm, ?_⟩
        rw [h5]
        by_cases hpd : r.a_pc.past_delete = true
        · have hdec : r.a_pc.decremented = true := by
            cases hpc : r.a_pc <;> simp [hpc, APc.past_delete, APc.decremented] at hpd ⊢
          have hz := (h11 hdec).1
          cases hf : r.b_inc_first
          · simp [hdec, hf] at hv
            exact absurd hv h1v
          · simp [hz, hf]
        · simp [hpd]
    · simp [hd] at hs
  · intro h
    have h4 : 4 ≤ r.a_pc.rank := by omega
    cases hpc : r.a_pc <;> simp [hpc, APc.rank] at h4 ⊢
  · intro h
    have h4 : 4 ≤ r.b_pc.rank := by omega
    cases hpc : r.b_pc <;> simp [hpc, BPc.rank] at h4 ⊢
  · intro hda hdb
    have hdec : r.a_pc.decremented = true := by simp [hda, APc.decremented]
    have hpd : r.a_pc.past_delete = true := by simp [hda, APc.past_delete]
    have hi : r.b_pc.incremented = true := by simp [hdb, BPc.incremented]
    have hv := h10 hi
    obtain ⟨hz, hsaw⟩ := h11 hdec
    rw [h9, h5, hsaw]
    cases hf : r.b_inc_first
    · left
      simp [hdec, hf] at hv
      simp [hdb, hv, hz, hf, hpd]
    · right
      simp [hdec, hf] at hv
      simp [hdb, hv, hz, hf, hpd]

/-- C6 on the schedule B, A, B, B, A, B, A, A from strong count 1 and weak count 2: A's
decrement falls between B's mutex acquisition and B's increment. -/
theorem reset_lock_race_witness :
    ((Race.init ⟨7, 1⟩ ⟨7, 1⟩ (Heap.single 1 1 2)).run [.B, .A, .B, .B, .A, .B, .A, .A]).fault = false ∧
    (((Race.init ⟨7, 1⟩ ⟨7, 1⟩ (Heap.single 1 1 2)).run [.B, .A, .B, .B, .A, .B, .A, .A]).heap.deleted_objs = (Heap.single 1 1 2).deleted_objs ∨
      ((Race.init ⟨7, 1⟩ ⟨7, 1⟩ (Heap.single 1 1 2)).run [.B, .A, .B, .B, .A, .B, .A, .A]).heap.deleted_objs = 7 :: (Heap.single 1 1 2).deleted_objs) ∧
    (∀ s : SharedPtr, ((Race.init ⟨7, 1⟩ ⟨7, 1⟩ (Heap.single 1 1 2)).run [.B, .A, .B, .B, .A, .B, .A, .A]).b_ret = some s →
      s.get ≠ NULL →
      s = ⟨7, 1⟩ ∧
        ((Race.init ⟨7, 1⟩ ⟨7, 1⟩ (Heap.single 1 1 2)).run [.B, .A, .B, .B, .A, .B, .A, .A]).heap.deleted_objs = (Heap.single 1 1 2).deleted_objs) ∧
    (4 ≤ [Tid.B, .A, .B, .B, .A, .B, .A, .A].count .A → ((Race.init ⟨7, 1⟩ ⟨7, 1⟩ (Heap.single 1 1 2)).run [.B, .A, .B, .B, .A, .B, .A, .A]).a_pc = .done) ∧
    (4 ≤ [Tid.B, .A, .B, .B, .A, .B, .A, .A].count .B → ((Race.init ⟨7, 1⟩ ⟨7, 1⟩ (Heap.single 1 1 2)).run [.B, .A, .B, .B, .A, .B, .A, .A]).b_pc = .done) ∧
    (((Race.init ⟨7, 1⟩ ⟨7, 1⟩ (Heap.single 1 1 2)).run [.B, .A, .B, .B, .A, .B, .A, .A]).a_pc = .done →
      ((Race.init ⟨7, 1⟩ ⟨7, 1⟩ (Heap.single 1 1 2)).run [.B, .A, .B, .B, .A, .B, .A, .A]).b_pc = .done →
      (((Race.init ⟨7, 1⟩ ⟨7, 1⟩ (Heap.single 1 1 2)).run [.B, .A, .B, .B, .A, .B, .A, .A]).b_ret = some SharedPtr.ctor ∧
        ((Race.init ⟨7, 1⟩ ⟨7, 1⟩ (Heap.single 1 1 2)).run [.B, .A, .B, .B, .A, .B, .A, .A]).b_inc_first = false ∧
        ((Race.init ⟨7, 1⟩ ⟨7, 1⟩ (Heap.single 1 1 2)).run [.B, .A, .B, .B, .A, .B, .A, .A]).a_saw = some 1 ∧
        ((Race.init ⟨7, 1⟩ ⟨7, 1⟩ (Heap.single 1 1 2)).run [.B, .A, .B, .B, .A, .B, .A, .A]).heap.deleted_objs = 7 :: (Heap.single 1 1 2).deleted_objs)
      ∨
      (((Race.init ⟨7, 1⟩ ⟨7, 1⟩ (Heap.single 1 1 2)).run [.B, .A, .B, .B, .A, .B, .A, .A]).b_ret = some ⟨7, 1⟩ ∧
        ((Race.init ⟨7, 1⟩ ⟨7, 1⟩ (Heap.single 1 1 2)).run [.B, .A, .B, .B, .A, .B, .A, .A]).b_inc_first = true ∧
        ((Race.init ⟨7, 1⟩ ⟨7, 1⟩ (Heap.single 1 1 2)).run [.B, .A, .B, .B, .A, .B, .A, .A]).a_saw = some 2 ∧
        ((Race.init ⟨7, 1⟩ ⟨7, 1⟩ (Heap.single 1 1 2)).run [.B, .A, .B, .B, .A, .B, .A, .A]).heap.deleted_objs = (Heap.single 1 1 2).deleted_objs)) :=
  reset_lock_race 7 1 2 (Heap.single 1 1 2) (by decide) (by decide) (by decide) rfl
    [.B, .A, .B, .B, .A, .B, .A, .A]

/-- The two outcomes of the race are both reached: A first (and A's decrement between
B's acquisition of the mutex and B's increment), and B first. -/
theorem reset_lock_race_outcomes :
    ((Race.init ⟨7, 1⟩ ⟨7, 1⟩ (Heap.single 1 1 2)).run
        [.A, .A, .A, .A, .B, .B, .B, .B]).view 1
      = (.done, .done, some ⟨0, 0⟩, [7], some 0, false, some 1, false) ∧
    ((Race.init ⟨7, 1⟩ ⟨7, 1⟩ (Heap.single 1 1 2)).run
        [.B, .A, .B, .B, .A, .B, .A, .A]).view 1
      = (.done, .done, some ⟨0, 0⟩, [7], some 0, false, some 1, false) ∧
    ((Race.init ⟨7, 1⟩ ⟨7, 1⟩ (Heap.single 1 1 2)).run
        [.B, .B, .A, .A, .A, .A, .B]).view 1
      = (.done, .done, some ⟨7, 1⟩, [], some 1, false, some 2, true) := by
  refine ⟨?_, ?_, ?_⟩ <;> rfl

/-! ## Copy, drop, assignment and the weak handle -/

theorem Heap.strong_count_without (h : Heap) (c : Ptr) (rd : RefData) :
    (h.without c rd).strong_count c = some rd.m_ref_count.value := by
  simp [Heap.strong_count, Heap.last_counts, Heap.deref, Heap.without, List.lookup]

theorem Heap.weak_count_without (h : Heap) (c : Ptr) (rd : RefData) :
    (h.without c rd).weak_count c = some rd.m_weak_ref_count.value := by
  simp [Heap.weak_count, Heap.last_counts, Heap.deref, Heap.without, List.lookup]

theorem Heap.strong_count_store (h : Heap) (c : Ptr) (rd : RefData) (hc : c ≠ NULL) :
    (h.store c rd).strong_count c = some rd.m_ref_count.value := by
  simp [Heap.strong_count, Heap.last_counts, Heap.deref, Heap.store, hc]

theorem Heap.weak_count_store (h : Heap) (c : Ptr) (rd : RefData) (hc : c ≠ NULL) :
    (h.store c rd).weak_count c = some rd.m_weak_ref_count.value := by
  simp [Heap.weak_count, Heap.last_counts, Heap.deref, Heap.store, hc]

theorem Heap.delete_block_eq (h : Heap) (c : Ptr) (rd : RefData)
    (hd : h.deref c = some rd) : h.delete_block c = some (h.without c rd) := by
  simp [Heap.delete_block, hd, Heap.without]

theorem Heap.without_store (h : Heap) (c : Ptr) (a rd : RefData) :
    (h.store c a).without c rd = h.without c rd := by
  simp only [Heap.without, Heap.store]
  congr 1
  funext x
  by_cases hx : x = c <;> simp [hx]

theorem WeakPtr.weak_reset_keep (h : Heap) (p c : Ptr) (s k : Int) (hc : c ≠ NULL)
    (hb : h.blocks c = some ⟨⟨s⟩, ⟨k⟩⟩) (hk : k ≠ 1) :
    (WeakPtr.mk p c).reset h = some (⟨NULL, c⟩, h.store c ⟨⟨s⟩, ⟨k - 1⟩⟩) := by
  have hk0 : ¬ (k - 1 = 0) := by omega
  simp [WeakPtr.reset, hc, Heap.weak_ref_count_dec_and_check_zero_eq h c s k hc hb, hk0]

theorem WeakPtr.weak_reset_last (h : Heap) (p c : Ptr) (s : Int) (hc : c ≠ NULL)
    (hb : h.blocks c = some ⟨⟨s⟩, ⟨1⟩⟩) :
    (WeakPtr.mk p c).reset h = some (⟨NULL, NULL⟩, h.without c ⟨⟨s⟩, ⟨0⟩⟩) := by
  simp [WeakPtr.reset, hc, Heap.weak_ref_count_dec_and_check_zero_eq h c s 1 hc hb,
    Heap.delete_block_eq _ c _ (Heap.deref_store_same h c _ hc), Heap.without_store]

/-- C10: `reset()` on a weak handle whose control block `c` has the counts `(s, k)` leaves
the strong count at `s`, deletes no pointee, lowers the weak count to `k - 1`, deletes the
control block if and only if `k = 1` (once, with the counters `(s, 0)`), and touches no
other block. -/
theorem weak_reset_effect (w : WeakPtr) (h : Heap) (s k : Int)
    (hc : w.m_ref_data ≠ NULL) (hb : h.blocks w.m_ref_data = some ⟨⟨s⟩, ⟨k⟩⟩) :
    ∃ w1 h1, w.reset h = some (w1, h1) ∧
      h1.strong_count w.m_ref_data = some s ∧
      h1.deleted_objs = h.deleted_objs ∧
      h1.weak_count w.m_ref_data = some (k - 1) ∧
      (h1.blocks w.m_ref_data = none ↔ k = 1) ∧
      h1.deleted_blocks = (if k = 1 then (w.m_ref_data, ⟨⟨s⟩, ⟨0⟩⟩) :: h.deleted_blocks
        else h.deleted_blocks) ∧
      (∀ d, d ≠ w.m_ref_data → h1.blocks d = h.blocks d) ∧
      w1.get = NULL := by
  obtain ⟨p, c⟩ := w
  simp only at hc hb
  by_cases hk : k = 1
  · subst hk
    refine ⟨_, _, WeakPtr.weak_reset_last h p c s hc hb, ?_⟩
    simp [Heap.strong_count_without, Heap.weak_count_without, RefCount.value]
    simp [Heap.without, WeakPtr.get]
    intro d hd
    simp [hd]
  · refine ⟨_, _, WeakPtr.weak_reset_keep h p c s k hc hb hk, ?_⟩
    simp [Heap.strong_count_store, Heap.weak_count_store, RefCount.value, hc, hk]
    simp [Heap.store, WeakPtr.get]
    intro d hd
    simp [hd]

/-- C10 at two concrete states: weak count 2 (the block stays) and weak count 1 (the block
is deleted). -/
theorem weak_reset_effect_witness :
    (∃ w1 h1, (WeakPtr.mk 7 1).reset (Heap.single 1 1 2) = some (w1, h1) ∧
      h1.strong_count 1 = some 1 ∧
      h1.deleted_objs = (Heap.single 1 1 2).deleted_objs ∧
      h1.weak_count 1 = some (2 - 1) ∧
      (h1.blocks 1 = none ↔ (2 : Int) = 1) ∧
      h1.deleted_blocks = (if (2 : Int) = 1 then
          (1, ⟨⟨1⟩, ⟨0⟩⟩) :: (Heap.single 1 1 2).deleted_blocks
        else (Heap.single 1 1 2).deleted_blocks) ∧
      (∀ d, d ≠ 1 → h1.blocks d = (Heap.single 1 1 2).blocks d) ∧
      w1.get = NULL) ∧
    (∃ w1 h1, (WeakPtr.mk 7 1).reset (Heap.single 1 0 1) = some (w1, h1) ∧
      h1.strong_count 1 = some 0 ∧
      h1.deleted_objs = (Heap.single 1 0 1).deleted_objs ∧
      h1.weak_count 1 = some (1 - 1) ∧
      (h1.blocks 1 = none ↔ (1 : Int) = 1) ∧
      h1.deleted_blocks = (if (1 : Int) = 1 then
          (1, ⟨⟨0⟩, ⟨0⟩⟩) :: (Heap.single 1 0 1).deleted_blocks
        else (Heap.single 1 0 1).deleted_blocks) ∧
      (∀ d, d ≠ 1 → h1.blocks d = (Heap.single 1 0 1).blocks d) ∧
      w1.get = NULL) :=
  ⟨weak_reset_effect (WeakPtr.mk 7 1) (Heap.single 1 1 2) 1 2 (by decide) rfl,
   weak_reset_effect (WeakPtr.mk 7 1) (Heap.single 1 0 1) 0 1 (by decide) rfl⟩

/-- C9: a weak handle constructed from a strong handle `s` that has a control block (live,
with counters `rd`) has the pointee and the control block of `s`; the heap afterwards is
the old one with the weak count of that block one higher, so the strong count and
`s.ref_count()` are unchanged.  Constructed from the empty strong handle it is the empty
weak handle and the heap is unchanged. -/
theorem weak_from_strong_effect (s : SharedPtr) (h : Heap) :
    (∀ rd : RefData, s.m_ref_data ≠ NULL → h.blocks s.m_ref_data = some rd →
      ∃ w h1, WeakPtr.ctor_shared s h = some (w, h1) ∧
        w.get = s.get ∧ w.ger_ref_count = s.ger_ref_count ∧
        h1 = h.store s.m_ref_data
          { rd with m_weak_ref_count := { m_ref_num := rd.m_weak_ref_count.value + 1 } } ∧
        h1.weak_count s.m_ref_data = some (rd.m_weak_ref_count.value + 1) ∧
        h1.strong_count s.m_ref_data = h.strong_count s.m_ref_data ∧
        s.ref_count h1 = s.ref_count h) ∧
    (s.m_dest_ptr = NULL → s.m_ref_data = NULL →
      WeakPtr.ctor_shared s h = some (WeakPtr.ctor, h)) := by
  obtain ⟨p, c⟩ := s
  constructor
  · intro rd hc hb
    simp only at hc hb
    refine ⟨⟨p, c⟩, _, ?_, rfl, rfl, rfl, ?_, ?_, ?_⟩
    · simp [WeakPtr.ctor_shared, SharedPtr.ger_ref_count, SharedPtr.get, hc,
        Heap.weak_ref_count_inc, Heap.deref_of_blocks h c rd hc hb, RefCount.inc,
        RefCount.value]
    · simp [Heap.weak_count_store, hc, RefCount.value]
    · simp [Heap.strong_count_store, hc, Heap.strong_count_live h c rd hc hb]
    · simp [SharedPtr.ref_count, hc, Heap.deref_store_same, Heap.deref_of_blocks h c rd hc hb]
  · intro hp hc
    simp only at hp hc
    subst hp hc
    simp [WeakPtr.ctor_shared, SharedPtr.ger_ref_count, SharedPtr.get, WeakPtr.ctor]

/-- C9 at a concrete strong handle (pointee 7, block 1 with counts (1, 1)) and at the
empty strong handle. -/
theorem weak_from_strong_effect_witness :
    (∃ w h1, WeakPtr.ctor_shared ⟨7, 1⟩ (Heap.single 1 1 1) = some (w, h1) ∧
        w.get = 7 ∧ w.ger_ref_count = 1 ∧
        h1.weak_count 1 = some 2 ∧ h1.strong_count 1 = some 1 ∧
        (SharedPtr.mk 7 1).ref_count h1 = some 1) ∧
    WeakPtr.ctor_shared SharedPtr.ctor (Heap.single 1 1 1)
      = some (WeakPtr.ctor, Heap.single 1 1 1) := by
  obtain ⟨w, h1, e1, e2, e3, _, e5, e6, e7⟩ :=
    (weak_from_strong_effect ⟨7, 1⟩ (Heap.single 1 1 1)).1 ⟨⟨1⟩, ⟨1⟩⟩ (by decide) rfl
  refine ⟨⟨w, h1, e1, e2, e3, ?_, ?_, ?_⟩,
    (weak_from_strong_effect SharedPtr.ctor (Heap.single 1 1 1)).2 rfl rfl⟩
  · simpa [RefCount.value] using e5
  · rw [e6]
    rfl
  · rw [e7]
    rfl

theorem SharedPtr.ref_count_live (a : SharedPtr) (h : Heap) (rd : RefData)
    (hc : a.m_ref_data ≠ NULL) (hb : h.blocks a.m_ref_data = some rd) :
    a.ref_count h = some rd.m_ref_count.value.toNat := by
  simp [SharedPtr.ref_count, hc, Heap.deref_of_blocks h _ rd hc hb]

theorem SharedPtr.ref_count_one (x : SharedPtr) (g : Heap) (h1 : x.ref_count g = some 1) :
    x.m_ref_data ≠ NULL ∧ ∃ k : Int, g.blocks x.m_ref_data = some ⟨⟨1⟩, ⟨k⟩⟩ := by
  unfold SharedPtr.ref_count at h1
  by_cases hc : x.m_ref_data = NULL
  · simp [hc] at h1
  · refine ⟨hc, ?_⟩
    simp only [ne_eq, hc, not_false_eq_true, if_true] at h1
    cases hd : g.deref x.m_ref_data with
    | none => simp [hd] at h1
    | some rd =>
      simp [hd, RefCount.value] at h1
      obtain ⟨⟨s⟩, ⟨k⟩⟩ := rd
      simp only at h1
      have hs : s = 1 := by omega
      subst hs
      refine ⟨k, ?_⟩
      simpa [Heap.deref, hc] using hd

/-- C7: let `a` be a non-empty strong handle whose live control block has strong count
`n ≥ 1` and weak count `k ≥ 1`, so that `a.ref_count() == n`.  Copy-constructing `b` from
`a` gives `a.ref_count() == b.ref_count() == n + 1` and `b.get() == a.get()`; destroying
`b` then gives back the heap from before the copy (`a.ref_count() == n`, nothing deleted).
And destroying any non-empty handle whose `ref_count()` is 1 deletes its pointee. -/
theorem copy_then_drop_counts (a : SharedPtr) (h : Heap) (n : Nat) (k : Int)
    (hp : a.m_dest_ptr ≠ NULL) (hc : a.m_ref_data ≠ NULL)
    (hb : h.blocks a.m_ref_data = some ⟨⟨(n : Int)⟩, ⟨k⟩⟩) (hn : 1 ≤ n) (hk : 1 ≤ k) :
    a.ref_count h = some n ∧
    (∃ b h1, SharedPtr.ctor_copy a h = some (b, h1) ∧
      a.ref_count h1 = some (n + 1) ∧ b.ref_count h1 = some (n + 1) ∧ b.get = a.get ∧
      h1.deleted_objs = h.deleted_objs ∧
      b.dtor h1 = some h ∧ b.operator_bool = true) ∧
    (∀ (x : SharedPtr) (g : Heap), x.m_dest_ptr ≠ NULL → x.ref_count g = some 1 →
      ∃ g1, x.dtor g = some g1 ∧ g1.deleted_objs = x.m_dest_ptr :: g.deleted_objs) := by
  obtain ⟨p, c⟩ := a
  simp only at hp hc hb
  refine ⟨?_, ?_, ?_⟩
  · simp [SharedPtr.ref_count_live ⟨p, c⟩ h _ hc hb, RefCount.value]
  · have hb1 : (h.store c ⟨⟨(n : Int) + 1⟩, ⟨k + 1⟩⟩).blocks c
        = some ⟨⟨(n : Int) + 1⟩, ⟨k + 1⟩⟩ := by simp [Heap.store]
    refine ⟨⟨p, c⟩, _, SharedPtr.ctor_copy_live h p c n k hp hc hb, ?_, ?_, rfl, rfl, ?_, ?_⟩
    · rw [SharedPtr.ref_count_live ⟨p, c⟩ _ _ hc hb1]
      simp [RefCount.value]
    · rw [SharedPtr.ref_count_live ⟨p, c⟩ _ _ hc hb1]
      simp [RefCount.value]
    · rw [SharedPtr.dtor, SharedPtr.reset_keep _ p c _ _ hp hc hb1 (by omega) (by omega)]
      simp [Heap.store_store, Heap.store_self h c _ hb]
    · simp [SharedPtr.operator_bool, Ne.symm hp]
  · intro x g hx h1
    obtain ⟨hxc, kx, hxb⟩ := SharedPtr.ref_count_one x g h1
    obtain ⟨px, cx⟩ := x
    simp only at hx hxc hxb
    by_cases hk1 : kx = 1
    · subst hk1
      refine ⟨_, by rw [SharedPtr.dtor, SharedPtr.reset_last_both g px cx hx hxc hxb]; rfl, ?_⟩
      simp [Heap.without, Heap.delete_obj]
    · refine ⟨_, by
        rw [SharedPtr.dtor, SharedPtr.reset_last_strong g px cx kx hx hxc hxb hk1]; rfl, ?_⟩
      simp [Heap.store, Heap.delete_obj]

/-- C7 on the scenario of the spec: construct (`ref_count() == 1`), copy (2), drop the copy
(1), drop the original (pointee 7 deleted). -/
theorem copy_then_drop_counts_witness :
    ((World.empty.run [.ctor_ptr 7]).bind fun w =>
        (w.get_strong 0).bind fun a => a.ref_count w.heap) = some 1 ∧
    ((World.empty.run [.ctor_ptr 7, .copy 0]).bind fun w =>
        (w.get_strong 0).bind fun a => a.ref_count w.heap) = some 2 ∧
    ((World.empty.run [.ctor_ptr 7, .copy 0, .dtor 1]).bind fun w =>
        (w.get_strong 0).bind fun a => a.ref_count w.heap) = some 1 ∧
    ((World.empty.run [.ctor_ptr 7, .copy 0, .dtor 1]).map fun w =>
        w.heap.deleted_objs) = some [] ∧
    ((World.empty.run [.ctor_ptr 7, .copy 0, .dtor 1, .dtor 0]).map fun w =>
        w.heap.deleted_objs) = some [7] ∧
    ((SharedPtr.mk 7 1).ref_count (Heap.single 1 1 1) = some 1 ∧
    (∃ b h1, SharedPtr.ctor_copy ⟨7, 1⟩ (Heap.single 1 1 1) = some (b, h1) ∧
      (SharedPtr.mk 7 1).ref_count h1 = some (1 + 1) ∧ b.ref_count h1 = some (1 + 1) ∧
      b.get = (SharedPtr.mk 7 1).get ∧
      h1.deleted_objs = (Heap.single 1 1 1).deleted_objs ∧
      b.dtor h1 = some (Heap.single 1 1 1) ∧ b.operator_bool = true) ∧
    (∀ (x : SharedPtr) (g : Heap), x.m_dest_ptr ≠ NULL → x.ref_count g = some 1 →
      ∃ g1, x.dtor g = some g1 ∧ g1.deleted_objs = x.m_dest_ptr :: g.deleted_objs)) :=
  ⟨rfl, rfl, rfl, rfl, rfl,
    copy_then_drop_counts ⟨7, 1⟩ (Heap.single 1 1 1) 1 1 (by decide) (by decide) rfl
      (by decide) (by decide)⟩

theorem Heap.last_counts_congr (g h : Heap) (c : Ptr) (hb : g.blocks c = h.blocks c)
    (hd : g.deleted_blocks = h.deleted_blocks) : g.last_counts c = h.last_counts c := by
  simp [Heap.last_counts, Heap.deref, hb, hd]

/-- What `reset()` does on a non-empty strong handle `(p, c)` whose live block has the
counts `(s, k)`. -/
theorem SharedPtr.reset_effect (h : Heap) (p c : Ptr) (s k : Int) (hp : p ≠ NULL)
    (hc : c ≠ NULL) (hb : h.blocks c = some ⟨⟨s⟩, ⟨k⟩⟩) :
    ∃ a1 h1, (SharedPtr.mk p c).reset h = some (a1, h1) ∧
      h1.strong_count c = some (s - 1) ∧ h1.weak_count c = some (k - 1) ∧
      h1.deleted_objs = (if s = 1 then p :: h.deleted_objs else h.deleted_objs) ∧
      h1.deleted_blocks
        = (if k = 1 then (c, ⟨⟨s - 1⟩, ⟨0⟩⟩) :: h.deleted_blocks else h.deleted_blocks) ∧
      (h1.blocks c = none ↔ k = 1) ∧ (∀ d, d ≠ c → h1.blocks d = h.blocks d) := by
  by_cases hs : s = 1
  · by_cases hk : k = 1
    · subst hs hk
      refine ⟨_, _, SharedPtr.reset_last_both h p c hp hc hb, ?_⟩
      simp [Heap.strong_count_without, Heap.weak_count_without, RefCount.value]
      simp [Heap.without, Heap.delete_obj]
      intro d hd
      simp [hd]
    · subst hs
      refine ⟨_, _, SharedPtr.reset_last_strong h p c k hp hc hb hk, ?_⟩
      simp [Heap.strong_count, Heap.weak_count, Heap.last_counts, Heap.deref, Heap.store,
        Heap.delete_obj, hc, hk, RefCount.value]
      intro d hd
      simp [hd]
  · by_cases hk : k = 1
    · subst hk
      refine ⟨_, _, SharedPtr.reset_last_weak h p c s hp hc hb hs, ?_⟩
      simp [Heap.strong_count_without, Heap.weak_count_without, RefCount.value, hs]
      simp [Heap.without]
      intro d hd
      simp [hd]
    · refine ⟨_, _, SharedPtr.reset_keep h p c s k hp hc hb hs hk, ?_⟩
      simp [Heap.strong_count_store, Heap.weak_count_store, RefCount.value, hc, hs, hk]
      simp [Heap.store]
      intro d hd
      simp [hd]

/-- What the copy constructor does from a handle `(p, c)` that is empty or has a live
block. -/
theorem SharedPtr.ctor_copy_effect (g : Heap) (p c : Ptr)
    (hB : p = NULL ∨ (c ≠ NULL ∧ ∃ sb kb : Int, g.blocks c = some ⟨⟨sb⟩, ⟨kb⟩⟩)) :
    ∃ g1, SharedPtr.ctor_copy ⟨p, c⟩ g = some (⟨p, c⟩, g1) ∧
      g1.deleted_objs = g.deleted_objs ∧ g1.deleted_blocks = g.deleted_blocks ∧
      (∀ d, d ≠ c → g1.blocks d = g.blocks d) ∧
      (p ≠ NULL → ∀ sb kb : Int, g.blocks c = some ⟨⟨sb⟩, ⟨kb⟩⟩ →
        g1.blocks c = some ⟨⟨sb + 1⟩, ⟨kb + 1⟩⟩) ∧
      (p = NULL → g1 = g) := by
  by_cases hp : p = NULL
  · subst hp
    exact ⟨g, SharedPtr.ctor_copy_null g c, rfl, rfl, fun _ _ => rfl, fun h => absurd rfl h,
      fun _ => rfl⟩
  · rcases hB with hB | ⟨hc, sb, kb, hb⟩
    · exact absurd hB hp
    · refine ⟨_, SharedPtr.ctor_copy_live g p c sb kb hp hc hb, rfl, rfl, ?_, ?_, ?_⟩
      · intro d hd
        simp [Heap.store, hd]
      · intro _ sb1 kb1 hb1
        rw [hb] at hb1
        simp at hb1
        simp [Heap.store, hb1.1, hb1.2]
      · intro h0
        exact absurd h0 hp

/-- C8: the assignment `a = b` of strong handles.  Self-assignment returns `a` and the heap
unchanged.  Otherwise `a` ends with the pointee and the control block pointer of `b`, and:
when `a` was empty only the block of a non-empty `b` changes, both its counts rising by
one; when `a` was non-empty on a different live block with counts `(sa, ka)`, that block
ends with counts `(sa - 1, ka - 1)`, the pointee of `a` is deleted exactly when `sa = 1`,
the block is deleted exactly when `ka = 1`, and the block of a non-empty `b` has both
counts one higher (that of an empty `b` is untouched); when the two non-empty handles
shared a live block (counts at least 2) the heap is unchanged. -/
theorem assign_effect (a b : SharedPtr) (h : Heap) :
    a.assign a true h = some (a, h) ∧
    (a.m_dest_ptr = NULL →
      (b.m_dest_ptr = NULL →
        a.assign b false h = some (⟨b.m_dest_ptr, b.m_ref_data⟩, h)) ∧
      (∀ sb kb : Int, b.m_dest_ptr ≠ NULL → b.m_ref_data ≠ NULL →
        h.blocks b.m_ref_data = some ⟨⟨sb⟩, ⟨kb⟩⟩ →
        a.assign b false h = some (⟨b.m_dest_ptr, b.m_ref_data⟩,
          h.store b.m_ref_data ⟨⟨sb + 1⟩, ⟨kb + 1⟩⟩))) ∧
    (∀ sa ka : Int, a.m_dest_ptr ≠ NULL → a.m_ref_data ≠ NULL →
      h.blocks a.m_ref_data = some ⟨⟨sa⟩, ⟨ka⟩⟩ → b.m_ref_data ≠ a.m_ref_data →
      (b.m_dest_ptr = NULL ∨
        (b.m_ref_data ≠ NULL ∧ ∃ sb kb : Int, h.blocks b.m_ref_data = some ⟨⟨sb⟩, ⟨kb⟩⟩)) →
      ∃ h1, a.assign b false h = some (⟨b.m_dest_ptr, b.m_ref_data⟩, h1) ∧
        h1.strong_count a.m_ref_data = some (sa - 1) ∧
        h1.weak_count a.m_ref_data = some (ka - 1) ∧
        h1.deleted_objs
          = (if sa = 1 then a.m_dest_ptr :: h.deleted_objs else h.deleted_objs) ∧
        h1.deleted_blocks
          = (if ka = 1 then (a.m_ref_data, ⟨⟨sa - 1⟩, ⟨0⟩⟩) :: h.deleted_blocks
              else h.deleted_blocks) ∧
        (h1.blocks a.m_ref_data = none ↔ ka = 1) ∧
        (b.m_dest_ptr ≠ NULL → ∀ sb kb : Int,
          h.blocks b.m_ref_data = some ⟨⟨sb⟩, ⟨kb⟩⟩ →
          h1.blocks b.m_ref_data = some ⟨⟨sb + 1⟩, ⟨kb + 1⟩⟩) ∧
        (b.m_dest_ptr = NULL → h1.blocks b.m_ref_data = h.blocks b.m_ref_data)) ∧
    (∀ s k : Int, a.m_dest_ptr ≠ NULL → b.m_dest_ptr ≠ NULL → a.m_ref_data ≠ NULL →
      b.m_ref_data = a.m_ref_data → h.blocks a.m_ref_data = some ⟨⟨s⟩, ⟨k⟩⟩ →
      2 ≤ s → 2 ≤ k →
      a.assign b false h = some (⟨b.m_dest_ptr, b.m_ref_data⟩, h)) := by
  obtain ⟨pa, ca⟩ := a
  obtain ⟨pb, cb⟩ := b
  refine ⟨SharedPtr.assign_same _ _ h, ?_, ?_, ?_⟩
  · intro hpa
    simp only at hpa
    subst hpa
    simp only [SharedPtr.assign_other, SharedPtr.reset_null, Option.some_bind]
    constructor
    · intro hpb
      subst hpb
      exact SharedPtr.ctor_copy_null h cb
    · intro sb kb hpb hcb hbb
      exact SharedPtr.ctor_copy_live h pb cb sb kb hpb hcb hbb
  · intro sa ka hpa hca hba hne hB
    simp only at hpa hca hba hne hB
    simp only [SharedPtr.assign_other]
    obtain ⟨a1, h1, hr, e1, e2, e3, e4, e5, e6⟩ := SharedPtr.reset_effect h pa ca sa ka hpa hca hba
    have hB1 : pb = NULL ∨ (cb ≠ NULL ∧ ∃ sb kb : Int, h1.blocks cb = some ⟨⟨sb⟩, ⟨kb⟩⟩) := by
      rcases hB with hB | ⟨hcb, sb, kb, hbb⟩
      · exact Or.inl hB
      · exact Or.inr ⟨hcb, sb, kb, by rw [e6 cb hne]; exact hbb⟩
    obtain ⟨g1, hcopy, f1, f2, f3, f4, f5⟩ := SharedPtr.ctor_copy_effect h1 pb cb hB1
    have hca1 : g1.blocks ca = h1.blocks ca := f3 ca (Ne.symm hne)
    have hlc : g1.last_counts ca = h1.last_counts ca :=
      Heap.last_counts_congr g1 h1 ca hca1 f2
    refine ⟨g1, by simp [hr, hcopy], ?_, ?_, ?_, ?_, ?_, ?_, ?_⟩
    · simpa [Heap.strong_count, hlc] using e1
    · simpa [Heap.weak_count, hlc] using e2
    · rw [f1, e3]
    · rw [f2, e4]
    · rw [hca1]
      exact e5
    · intro hpb sb kb hbb
      exact f4 hpb sb kb (by rw [e6 cb hne]; exact hbb)
    · intro hpb
      rw [f5 hpb]
      exact e6 cb hne
  · intro s k hpa hpb hca hcb hb hs hk
    simp only at hpa hpb hca hcb hb
    subst hcb
    simp only [SharedPtr.assign_other,
      SharedPtr.reset_keep h pa cb s k hpa hca hb (by omega) (by omega), Option.some_bind]
    rw [SharedPtr.ctor_copy_live _ pb cb (s - 1) (k - 1) hpb hca (by simp [Heap.store])]
    simp [Heap.store_store, Heap.store_self h cb _ hb]

/-- C8 at concrete states: self-assignment; an empty `a`; `a` the only handle of block 1
assigned from `b` on block 2 (pointee 7 and block 1 are deleted, block 2 goes from (1, 1)
to (2, 2)); and two handles sharing block 1 with counts (2, 2). -/
theorem assign_effect_witness :
    (SharedPtr.mk 7 1).assign ⟨7, 1⟩ true (Heap.pair 1 1 1 1)
      = some (⟨7, 1⟩, Heap.pair 1 1 1 1) ∧
    SharedPtr.ctor.assign ⟨8, 2⟩ false (Heap.pair 1 1 1 1)
      = some (⟨8, 2⟩, (Heap.pair 1 1 1 1).store 2 ⟨⟨1 + 1⟩, ⟨1 + 1⟩⟩) ∧
    (∃ h1, (SharedPtr.mk 7 1).assign ⟨8, 2⟩ false (Heap.pair 1 1 1 1) = some (⟨8, 2⟩, h1) ∧
        h1.strong_count 1 = some 0 ∧ h1.weak_count 1 = some 0 ∧
        h1.deleted_objs = [7] ∧ h1.deleted_blocks = [(1, ⟨⟨0⟩, ⟨0⟩⟩)] ∧
        h1.blocks 1 = none ∧ h1.blocks 2 = some ⟨⟨2⟩, ⟨2⟩⟩) ∧
    (SharedPtr.mk 7 1).assign ⟨7, 1⟩ false (Heap.single 1 2 2)
      = some (⟨7, 1⟩, Heap.single 1 2 2) := by
  refine ⟨(assign_effect ⟨7, 1⟩ ⟨7, 1⟩ (Heap.pair 1 1 1 1)).1,
    ((assign_effect SharedPtr.ctor ⟨8, 2⟩ (Heap.pair 1 1 1 1)).2.1 rfl).2 1 1
      (by decide) (by decide) rfl, ?_,
    (assign_effect ⟨7, 1⟩ ⟨7, 1⟩ (Heap.single 1 2 2)).2.2.2 2 2 (by decide) (by decide)
      (by decide) rfl rfl (by decide) (by decide)⟩
  obtain ⟨h1, e0, e1, e2, e3, e4, e5, e6, _⟩ :=
    (assign_effect ⟨7, 1⟩ ⟨8, 2⟩ (Heap.pair 1 1 1 1)).2.2.1 1 1 (by decide) (by decide) rfl
      (by decide) (Or.inr ⟨by decide, 1, 1, rfl⟩)
  refine ⟨h1, e0, by simpa using e1, by simpa using e2, by simpa [Heap.pair] using e3,
    by simpa [Heap.pair] using e4, e5.mpr rfl, ?_⟩
  simpa using e6 (by decide) 1 1 rfl

/-! ## Construction, dereference and comparison -/

/-- C14: `SharedPtr(p)` with a null `p` is the empty handle (`get()` null, boolean
conversion false, `ref_count() == 0`, no control block, heap unchanged).  With a non-null
`p` it has `get() == p` and the control block the allocator returned, which is non-null and
holds strong count 1 and weak count 1; every other block and both deletion logs are
unchanged, and when the allocator never handed out a higher address the block was not live
before. -/
theorem ctor_ptr_effect (p : Ptr) (h : Heap) :
    (p = NULL →
      SharedPtr.ctor_ptr p h = some (SharedPtr.ctor, h) ∧ SharedPtr.ctor.get = NULL ∧
      SharedPtr.ctor.operator_bool = false ∧ SharedPtr.ctor.ref_count h = some 0 ∧
      SharedPtr.ctor.ger_ref_count = NULL) ∧
    (p ≠ NULL →
      ∃ s h1, SharedPtr.ctor_ptr p h = some (s, h1) ∧ s.get = p ∧
        s.operator_bool = true ∧
        s.ger_ref_count = h.new_RefData.1 ∧ s.ger_ref_count ≠ NULL ∧
        h1.blocks s.ger_ref_count = some ⟨⟨1⟩, ⟨1⟩⟩ ∧ s.ref_count h1 = some 1 ∧
        (∀ d, d ≠ s.ger_ref_count → h1.blocks d = h.blocks d) ∧
        h1.deleted_objs = h.deleted_objs ∧ h1.deleted_blocks = h.deleted_blocks ∧
        (h.unused_above → h.blocks s.ger_ref_count = none ∧ h1.unused_above)) := by
  constructor
  · intro hp
    subst hp
    simp [SharedPtr.ctor_ptr, SharedPtr.ctor, SharedPtr.get, SharedPtr.operator_bool,
      SharedPtr.ref_count, SharedPtr.ger_ref_count]
  · intro hp
    have hc : h.new_RefData.1 ≠ NULL := by simp [Heap.new_RefData, NULL]
    refine ⟨_, _, SharedPtr.ctor_ptr_nonnull h p hp, rfl, ?_, rfl, hc, ?_, ?_, ?_, rfl, rfl, ?_⟩
    · simp [SharedPtr.operator_bool, Ne.symm hp]
    · simp [SharedPtr.ger_ref_count, Heap.store]
    · simp [SharedPtr.ref_count, hc, Heap.deref_store_same, RefCount.value]
    · intro d hd
      simp only [SharedPtr.ger_ref_count] at hd
      have hd2 : d ≠ h.next_block + 1 := by simpa [Heap.new_RefData] using hd
      simp [Heap.store, Heap.new_RefData, hd, hd2]
    · intro hu
      refine ⟨hu _ (by simp [SharedPtr.ger_ref_count, Heap.new_RefData]), ?_⟩
      intro c hlt
      have hlt2 : h.next_block + 1 < c := by
        simpa [Heap.store, Heap.new_RefData] using hlt
      have hne : c ≠ h.next_block + 1 := Nat.ne_of_gt hlt2
      simp [Heap.store, Heap.new_RefData, hne]
      exact hu c (Nat.lt_of_succ_lt hlt2)

/-- C14 at the null pointer and at pointer 7, on the empty heap. -/
theorem ctor_ptr_effect_witness :
    (SharedPtr.ctor_ptr NULL Heap.empty = some (SharedPtr.ctor, Heap.empty) ∧
      SharedPtr.ctor.get = NULL ∧ SharedPtr.ctor.operator_bool = false ∧
      SharedPtr.ctor.ref_count Heap.empty = some 0 ∧ SharedPtr.ctor.ger_ref_count = NULL) ∧
    (∃ s h1, SharedPtr.ctor_ptr 7 Heap.empty = some (s, h1) ∧ s.get = 7 ∧
        s.operator_bool = true ∧
        s.ger_ref_count = Heap.empty.new_RefData.1 ∧ s.ger_ref_count ≠ NULL ∧
        h1.blocks s.ger_ref_count = some ⟨⟨1⟩, ⟨1⟩⟩ ∧ s.ref_count h1 = some 1 ∧
        (∀ d, d ≠ s.ger_ref_count → h1.blocks d = Heap.empty.blocks d) ∧
        h1.deleted_objs = Heap.empty.deleted_objs ∧
        h1.deleted_blocks = Heap.empty.deleted_blocks ∧
        (Heap.empty.unused_above →
          Heap.empty.blocks s.ger_ref_count = none ∧ h1.unused_above)) :=
  ⟨(ctor_ptr_effect NULL Heap.empty).1 rfl, (ctor_ptr_effect 7 Heap.empty).2 (by decide)⟩

/-- C11: `operator*` and `operator->` raise the error `SharedPtr NULL DATA` if and only if
`get()` is null; on a non-empty handle they give the pointee at `get()` and leave the handle
and the heap (so every counter) as they were.  On a handle whose `get()` is null the
comparisons and the boolean conversion give a value, `reset()` returns with handle and heap
unchanged, and `ref_count()` gives 0 when the handle has no control block and the strong
count when its control block is live. -/
theorem deref_raises_iff_empty (a : SharedPtr) (h : Heap) :
    ((∃ e, a.operator_star h = Except.error e) ↔ a.get = NULL) ∧
    ((∃ e, a.operator_arrow h = Except.error e) ↔ a.get = NULL) ∧
    (a.get = NULL → a.operator_star h = Except.error "SharedPtr NULL DATA" ∧
      a.operator_arrow h = Except.error "SharedPtr NULL DATA") ∧
    (a.get ≠ NULL → a.operator_star h = Except.ok (a.get, a, h) ∧
      a.operator_arrow h = Except.ok (a.get, a, h)) ∧
    (a.get = NULL →
      (∀ b : SharedPtr, a.operator_eq b = decide (NULL = b.get)) ∧
      (∀ q : Ptr, a.operator_eq_ptr q = decide (NULL = q)) ∧
      a.operator_bool = false ∧ a.reset h = some (a, h) ∧
      (a.ger_ref_count = NULL → a.ref_count h = some 0) ∧
      (∀ rd : RefData, a.ger_ref_count ≠ NULL → h.blocks a.ger_ref_count = some rd →
        a.ref_count h = some rd.m_ref_count.value.toNat)) := by
  obtain ⟨p, c⟩ := a
  by_cases hp : p = NULL
  · subst hp
    simp [SharedPtr.operator_star, SharedPtr.operator_arrow, FF_ASSERT, SharedPtr.get,
      SharedPtr.operator_eq, SharedPtr.operator_eq_ptr, SharedPtr.operator_bool,
      SharedPtr.reset, SharedPtr.ger_ref_count]
    constructor
    · intro hc
      simp [SharedPtr.ref_count, hc]
    · intro rd hc hb
      exact SharedPtr.ref_count_live ⟨NULL, c⟩ h rd hc hb
  · have hp2 : ¬ NULL = p := fun e => hp e.symm
    simp [SharedPtr.operator_star, SharedPtr.operator_arrow, FF_ASSERT, SharedPtr.get, hp, hp2]

/-- C11 at the empty handle and at the handle `(7, 1)`. -/
theorem deref_raises_iff_empty_witness :
    SharedPtr.ctor.operator_star Heap.empty = Except.error "SharedPtr NULL DATA" ∧
    SharedPtr.ctor.operator_arrow Heap.empty = Except.error "SharedPtr NULL DATA" ∧
    SharedPtr.ctor.reset Heap.empty = some (SharedPtr.ctor, Heap.empty) ∧
    SharedPtr.ctor.ref_count Heap.empty = some 0 ∧
    (SharedPtr.mk 7 1).operator_star (Heap.single 1 1 1)
      = Except.ok (7, ⟨7, 1⟩, Heap.single 1 1 1) ∧
    (SharedPtr.mk 7 1).operator_arrow (Heap.single 1 1 1)
      = Except.ok (7, ⟨7, 1⟩, Heap.single 1 1 1) :=
  ⟨((deref_raises_iff_empty SharedPtr.ctor Heap.empty).2.2.1 rfl).1,
   ((deref_raises_iff_empty SharedPtr.ctor Heap.empty).2.2.1 rfl).2,
   ((deref_raises_iff_empty SharedPtr.ctor Heap.empty).2.2.2.2 rfl).2.2.2.1,
   ((deref_raises_iff_empty SharedPtr.ctor Heap.empty).2.2.2.2 rfl).2.2.2.2.1 rfl,
   ((deref_raises_iff_empty ⟨7, 1⟩ (Heap.single 1 1 1)).2.2.2.1 (by decide)).1,
   ((deref_raises_iff_empty ⟨7, 1⟩ (Heap.single 1 1 1)).2.2.2.1 (by decide)).2⟩

/-- C12: `a == b` holds exactly when `a.get() == b.get()`, and `a == p` exactly when
`a.get() == p`.  So a copy of a handle compares equal to the original (both ways), and two
handles constructed from two distinct non-null pointers compare unequal. -/
theorem equality_by_address (a b : SharedPtr) (p : Ptr) :
    (a.operator_eq b = true ↔ a.get = b.get) ∧
    (a.operator_eq_ptr p = true ↔ a.get = p) ∧
    (∀ (h h1 : Heap) (c : SharedPtr), SharedPtr.ctor_copy a h = some (c, h1) →
      c.operator_eq a = true ∧ a.operator_eq c = true) ∧
    (∀ (q r : Ptr) (h h1 g g1 : Heap) (x y : SharedPtr), q ≠ NULL → r ≠ NULL → q ≠ r →
      SharedPtr.ctor_ptr q h = some (x, h1) → SharedPtr.ctor_ptr r g = some (y, g1) →
      x.operator_eq y = false ∧ x.operator_eq_ptr r = false) := by
  refine ⟨by simp [SharedPtr.operator_eq, SharedPtr.get],
    by simp [SharedPtr.operator_eq_ptr, SharedPtr.get], ?_, ?_⟩
  · intro h h1 c hcopy
    have hc : c = ⟨a.get, a.ger_ref_count⟩ := by
      unfold SharedPtr.ctor_copy at hcopy
      split at hcopy
      · split at hcopy
        · simp at hcopy
        · split at hcopy
          · simp at hcopy
          · simp at hcopy
            exact hcopy.1.symm
      · simp at hcopy
        exact hcopy.1.symm
    subst hc
    simp [SharedPtr.operator_eq, SharedPtr.get]
  · intro q r h h1 g g1 x y hq hr hqr hx hy
    rw [SharedPtr.ctor_ptr_nonnull h q hq] at hx
    rw [SharedPtr.ctor_ptr_nonnull g r hr] at hy
    simp at hx hy
    rw [← hx.1, ← hy.1]
    simp [SharedPtr.operator_eq, SharedPtr.operator_eq_ptr, SharedPtr.get, hqr]

/-- C12 on the handles of pointees 7 and 8 and on a copy. -/
theorem equality_by_address_witness :
    (∀ (h h1 : Heap) (c : SharedPtr),
      SharedPtr.ctor_copy ⟨7, 1⟩ h = some (c, h1) →
      c.operator_eq ⟨7, 1⟩ = true ∧ (SharedPtr.mk 7 1).operator_eq c = true) ∧
    (∀ (x y : SharedPtr) (h1 g1 : Heap),
      SharedPtr.ctor_ptr 7 Heap.empty = some (x, h1) →
      SharedPtr.ctor_ptr 8 h1 = some (y, g1) →
      x.operator_eq y = false ∧ x.operator_eq_ptr 8 = false) ∧
    ((World.empty.run [.ctor_ptr 7, .copy 0, .ctor_ptr 8]).bind fun w =>
      (w.get_strong 0).bind fun a => (w.get_strong 1).bind fun b =>
        (w.get_strong 2).map fun c => (a.operator_eq b, a.operator_eq c, b.operator_eq_ptr 7))
      = some (true, false, true) :=
  ⟨(equality_by_address ⟨7, 1⟩ ⟨7, 1⟩ 7).2.2.1,
   fun x y h1 g1 hx hy =>
     (equality_by_address ⟨7, 1⟩ ⟨7, 1⟩ 7).2.2.2 7 8 Heap.empty h1 h1 g1 x y
       (by decide) (by decide) (by decide) hx hy,
   rfl⟩

/-- C17 as stated fails at the null pointer: `SharedPtr(NULL, c)` on the block 1 with counts
(1, 1) leaves the weak count at 1. -/
theorem two_arg_ctor_null_keeps_weak_count :
    ∃ s h1, SharedPtr.ctor_ptr_data NULL 1 (Heap.single 1 1 1) = some (s, h1) ∧
      (Heap.single 1 1 1).weak_count 1 = some 1 ∧ h1.weak_count 1 = some 1 ∧
      h1.weak_count 1 ≠ some (1 + 1) :=
  ⟨⟨NULL, 1⟩, Heap.single 1 1 1, rfl, rfl, rfl, by decide⟩

/-- C17, amended: for a non-null `p` and a live control block `c` with counts `(s, k)`,
`SharedPtr(p, c)` gives the handle `(p, c)` and the heap with the counts `(s, k + 1)`: the
weak count rises by one, the strong count is unchanged.  For a null `p` the handle is
`(NULL, c)` and the heap is unchanged. -/
theorem two_arg_ctor_effect (p c : Ptr) (h : Heap) (s k : Int) (hc : c ≠ NULL)
    (hb : h.blocks c = some ⟨⟨s⟩, ⟨k⟩⟩) :
    (p ≠ NULL →
      SharedPtr.ctor_ptr_data p c h = some (⟨p, c⟩, h.store c ⟨⟨s⟩, ⟨k + 1⟩⟩) ∧
      (h.store c ⟨⟨s⟩, ⟨k + 1⟩⟩).weak_count c = some (k + 1) ∧
      (h.store c ⟨⟨s⟩, ⟨k + 1⟩⟩).strong_count c = some s ∧ h.strong_count c = some s ∧
      h.weak_count c = some k) ∧
    (p = NULL → SharedPtr.ctor_ptr_data p c h = some (⟨p, c⟩, h)) := by
  constructor
  · intro hp
    refine ⟨?_, ?_, ?_, ?_, ?_⟩
    · simp [SharedPtr.ctor_ptr_data, hp, Heap.weak_ref_count_inc_eq h c s k hc hb]
    · simp [Heap.weak_count_store, hc, RefCount.value]
    · simp [Heap.strong_count_store, hc, RefCount.value]
    · simp [Heap.strong_count_live h c _ hc hb, RefCount.value]
    · simp [Heap.weak_count, Heap.last_counts, Heap.deref, hc, hb, RefCount.value]
  · intro hp
    simp [SharedPtr.ctor_ptr_data, hp]

/-- C17, amended, at pointer 7 and block 1 with counts (1, 2): the weak count becomes 3. -/
theorem two_arg_ctor_effect_witness :
    (SharedPtr.ctor_ptr_data 7 1 (Heap.single 1 1 2)
        = some (⟨7, 1⟩, (Heap.single 1 1 2).store 1 ⟨⟨1⟩, ⟨2 + 1⟩⟩) ∧
      ((Heap.single 1 1 2).store 1 ⟨⟨1⟩, ⟨2 + 1⟩⟩).weak_count 1 = some (2 + 1) ∧
      ((Heap.single 1 1 2).store 1 ⟨⟨1⟩, ⟨2 + 1⟩⟩).strong_count 1 = some 1 ∧
      (Heap.single 1 1 2).strong_count 1 = some 1 ∧
      (Heap.single 1 1 2).weak_count 1 = some 2) ∧
    SharedPtr.ctor_ptr_data NULL 1 (Heap.single 1 1 2) = some (⟨NULL, 1⟩, Heap.single 1 1 2) :=
  ⟨(two_arg_ctor_effect 7 1 (Heap.single 1 1 2) 1 2 (by decide) rfl).1 (by decide),
   (two_arg_ctor_effect NULL 1 (Heap.single 1 1 2) 1 2 (by decide) rfl).2 rfl⟩

theorem WeakPtr.lock_alive_eq (h : Heap) (p c : Ptr) (n k : Int) (hp : p ≠ NULL)
    (hc : c ≠ NULL) (hb : h.blocks c = some ⟨⟨n⟩, ⟨k⟩⟩) (hn : n ≠ 0) :
    (WeakPtr.mk p c).lock h = some (⟨p, c⟩, ⟨p, c⟩, h.store c ⟨⟨n + 1⟩, ⟨k + 1⟩⟩) := by
  have hne : ¬ (1 = n + 1) := by omega
  have hb1 : (h.store c ⟨⟨n + 1⟩, ⟨k⟩⟩).blocks c = some ⟨⟨n + 1⟩, ⟨k⟩⟩ := by
    simp [Heap.store]
  simp [WeakPtr.lock, hp, hc, Heap.ref_count_inc_and_fetch_eq h c n k 1 hc hb, hne,
    SharedPtr.ctor_ptr_data, Heap.weak_ref_count_inc_eq _ c (n + 1) k hc hb1,
    Heap.store_store]

theorem WeakPtr.lock_dead_eq (h : Heap) (p c : Ptr) (k : Int) (hp : p ≠ NULL)
    (hc : c ≠ NULL) (hb : h.blocks c = some ⟨⟨0⟩, ⟨k⟩⟩) :
    (WeakPtr.mk p c).lock h = some (SharedPtr.ctor, ⟨NULL, c⟩, h) := by
  have hb1 : (h.store c ⟨⟨1⟩, ⟨k⟩⟩).blocks c = some ⟨⟨1⟩, ⟨k⟩⟩ := by
    simp [Heap.store]
  simp [WeakPtr.lock, hp, hc, Heap.ref_count_inc_and_fetch_eq h c 0 k 1 hc hb,
    Heap.ref_count_dec_and_check_zero_eq _ c 1 k hc hb1,
    Heap.store_store, Heap.store_self h c _ hb]

theorem WeakPtr.lock_null (h : Heap) (p c : Ptr) (hnull : p = NULL ∨ c = NULL) :
    (WeakPtr.mk p c).lock h = some (SharedPtr.ctor, ⟨p, c⟩, h) := by
  simp only [WeakPtr.lock]
  simp [hnull]

/-- C13: the boolean conversion of a weak handle.  On a weak handle with a null pointee or
no control block it is false, as `lock()` returns the empty handle, and nothing changes.
On a weak handle with a non-null pointee whose live control block has strong count `n`
(a natural number) and weak count `k ≥ 1`, it is true exactly when `lock()` in the same
state returns a non-empty handle, which is exactly when `n ≥ 1`; the heap after the
conversion is the heap before it, so both counts are as before; and it leaves the weak
handle as `lock()` leaves it. -/
theorem weak_bool_matches_lock (w : WeakPtr) (h : Heap) :
    ((w.m_dest_ptr = NULL ∨ w.m_ref_data = NULL) →
      w.operator_bool h = some (false, w, h) ∧ w.lock h = some (SharedPtr.ctor, w, h)) ∧
    (∀ (n : Nat) (k : Int), w.m_dest_ptr ≠ NULL → w.m_ref_data ≠ NULL →
      h.blocks w.m_ref_data = some ⟨⟨(n : Int)⟩, ⟨k⟩⟩ → 1 ≤ k →
      ∃ b s w1 h2, w.operator_bool h = some (b, w1, h) ∧ w.lock h = some (s, w1, h2) ∧
        (b = true ↔ s.get ≠ NULL) ∧ (b = true ↔ 1 ≤ n)) := by
  obtain ⟨p, c⟩ := w
  constructor
  · intro hnull
    have hl := WeakPtr.lock_null h p c hnull
    refine ⟨?_, hl⟩
    simp [WeakPtr.operator_bool, hl, SharedPtr.dtor, SharedPtr.ctor, SharedPtr.reset,
      SharedPtr.operator_bool]
  · intro n k hp hc hb hk
    simp only at hp hc hb
    by_cases hn : 1 ≤ n
    · have hl := WeakPtr.lock_alive_eq h p c n k hp hc hb (by omega)
      refine ⟨true, ⟨p, c⟩, ⟨p, c⟩, _, ?_, hl, by simp [SharedPtr.get, hp], by simp [hn]⟩
      have hb1 : (h.store c ⟨⟨(n : Int) + 1⟩, ⟨k + 1⟩⟩).blocks c
          = some ⟨⟨(n : Int) + 1⟩, ⟨k + 1⟩⟩ := by simp [Heap.store]
      have hr := SharedPtr.reset_keep (h.store c ⟨⟨(n : Int) + 1⟩, ⟨k + 1⟩⟩) p c _ _ hp hc
        hb1 (by omega) (by omega)
      have hfin : (h.store c ⟨⟨(n : Int) + 1⟩, ⟨k + 1⟩⟩).store c
          ⟨⟨(n : Int) + 1 - 1⟩, ⟨k + 1 - 1⟩⟩ = h := by
        simp [Heap.store_store, Heap.store_self h c _ hb]
      rw [hfin] at hr
      simp [WeakPtr.operator_bool, hl, SharedPtr.dtor, hr, SharedPtr.operator_bool,
        Ne.symm hp]
    · have hn0 : n = 0 := by omega
      subst hn0
      have hl := WeakPtr.lock_dead_eq h p c k hp hc (by simpa using hb)
      refine ⟨false, SharedPtr.ctor, ⟨NULL, c⟩, h, ?_, hl, by simp [SharedPtr.ctor,
        SharedPtr.get], by simp⟩
      simp [WeakPtr.operator_bool, hl, SharedPtr.dtor, SharedPtr.ctor, SharedPtr.reset,
        SharedPtr.operator_bool]

/-- C13 on block 1 with counts (1, 2) (pointee alive) and with counts (0, 1) (pointee
destroyed), and on the empty weak handle. -/
theorem weak_bool_matches_lock_witness :
    (WeakPtr.ctor.operator_bool Heap.empty = some (false, WeakPtr.ctor, Heap.empty) ∧
      WeakPtr.ctor.lock Heap.empty = some (SharedPtr.ctor, WeakPtr.ctor, Heap.empty)) ∧
    (∃ b s w1 h2, (WeakPtr.mk 7 1).operator_bool (Heap.single 1 1 2)
          = some (b, w1, Heap.single 1 1 2) ∧
        (WeakPtr.mk 7 1).lock (Heap.single 1 1 2) = some (s, w1, h2) ∧
        (b = true ↔ s.get ≠ NULL) ∧ (b = true ↔ 1 ≤ 1)) ∧
    (∃ b s w1 h2, (WeakPtr.mk 7 1).operator_bool (Heap.single 1 0 1)
          = some (b, w1, Heap.single 1 0 1) ∧
        (WeakPtr.mk 7 1).lock (Heap.single 1 0 1) = some (s, w1, h2) ∧
        (b = true ↔ s.get ≠ NULL) ∧ (b = true ↔ 1 ≤ 0)) :=
  ⟨(weak_bool_matches_lock WeakPtr.ctor Heap.empty).1 (Or.inl rfl),
   (weak_bool_matches_lock ⟨7, 1⟩ (Heap.single 1 1 2)).2 1 2 (by decide) (by decide) rfl
     (by decide),
   (weak_bool_matches_lock ⟨7, 1⟩ (Heap.single 1 0 1)).2 0 1 (by decide) (by decide) rfl
     (by decide)⟩

/-! ## Releasing a handle twice -/

/-- C3, where the code departs from the claim: in the program
`b(7); a(b); a.reset(); ~a` the call `a.reset()` lowers the strong count from 2 to 1 but
leaves `a` non-empty (`a.get() == 7`, `ref_count() == 1`), so the destruction of `a`
releases a second time and deletes the pointee 7 while the live handle `b` still has
`b.get() == 7`. -/
theorem reset_then_dtor_deletes_shared_pointee :
    (World.empty.run [.ctor_ptr 7, .copy 0, .reset 1]).map
        (fun w => (w.strong, w.heap.deleted_objs, w.heap.strong_count 1))
      = some ([some ⟨7, 1⟩, some ⟨7, 1⟩], [], some 1) ∧
    (World.empty.run [.ctor_ptr 7, .copy 0, .reset 1, .dtor 1]).map
        (fun w => (w.heap.deleted_objs, (w.get_strong 0).map SharedPtr.get,
          (w.get_strong 0).map SharedPtr.operator_bool, w.get_strong 1))
      = some ([7], some 7, some true, none) := by
  constructor <;> rfl

/-- C4, where the code departs from the claim: in the program
`s(7); w(s); s.reset(); ~w` every handle is released once, the destruction of `w` takes the
weak count from 1 to 0 and deletes control block 1, and at that moment the strong handle
object `s` still holds the pointer to that block (`m_ref_data == 1`), so that a later
`s.ref_count()` reads the deleted block.  Likewise `s(7); w(s); w.reset(); ~w` deletes the
block while the non-empty `s` still uses it: `w.reset()` leaves `m_ref_data` set and the
destructor releases a second time; a later `s.reset()` then touches the deleted block. -/
theorem block_deleted_while_still_referenced :
    (World.empty.run [.ctor_ptr 7, .weak_ctor_shared 0, .reset 0, .weak_dtor 0]).map
        (fun w => (w.strong, w.heap.deleted_blocks, w.heap.blocks 1,
          (w.get_strong 0).bind (fun s => s.ref_count w.heap)))
      = some ([some ⟨0, 1⟩], [(1, ⟨⟨0⟩, ⟨0⟩⟩)], none, none) ∧
    (World.empty.run [.ctor_ptr 7, .weak_ctor_shared 0, .weak_reset 0]).map
        (fun w => (w.strong, w.weak, w.heap.deleted_blocks, w.heap.weak_count 1))
      = some ([some ⟨7, 1⟩], [some ⟨0, 1⟩], [], some 1) ∧
    (World.empty.run [.ctor_ptr 7, .weak_ctor_shared 0, .weak_reset 0, .weak_dtor 0]).map
        (fun w => (w.strong, w.heap.deleted_blocks, w.heap.blocks 1,
          (w.step (.reset 0)).isSome))
      = some ([some ⟨7, 1⟩], [(1, ⟨⟨1⟩, ⟨0⟩⟩)], none, false) := by
  refine ⟨?_, ?_, ?_⟩ <;> rfl

/-- C15, where the code departs from the claim: in the program `s(7); w(s); s.reset()`
the strong count goes from 1 to 0 and the weak count from 2 to 1, so `reset()` deletes the
pointee and sets `m_dest_ptr` to null but leaves `m_ref_data` pointing to the live block 1:
the strong handle has a null pointee and a non-null control block pointer.  The
two-argument constructor gives the same shape for a null pointer and an existing block. -/
theorem strong_handle_null_pointee_with_block :
    (World.empty.run [.ctor_ptr 7, .weak_ctor_shared 0, .reset 0]).map
        (fun w => (w.strong, (w.get_strong 0).map SharedPtr.operator_bool,
          (w.get_strong 0).map (fun a => decide (a.get = NULL)),
          (w.get_strong 0).map (fun a => decide (a.ger_ref_count = NULL)),
          w.heap.strong_count 1, w.heap.weak_count 1, w.heap.deleted_blocks))
      = some ([some ⟨0, 1⟩], some false, some true, some false, some 0, some 1, []) ∧
    (SharedPtr.ctor_ptr_data NULL 1 (Heap.single 1 1 1)).map Prod.fst
      = some ⟨NULL, 1⟩ := by
  constructor <;> rfl

/-- C18, where the code departs from the claim: in the program `a(7); b(a); b.reset()` the
handle `b` is still non-empty after its `reset()` (`get() == 7`, boolean conversion true)
with the counts at (1, 1), and a second `b.reset()` lowers them to (0, 0) and deletes the
pointee and the control block, which the live handle `a` still uses. -/
theorem strong_reset_twice_releases_twice :
    (World.empty.run [.ctor_ptr 7, .copy 0, .reset 1]).map
        (fun w => ((w.get_strong 1).map SharedPtr.get,
          (w.get_strong 1).map SharedPtr.operator_bool,
          w.heap.strong_count 1, w.heap.weak_count 1, w.heap.deleted_objs,
          w.heap.deleted_blocks))
      = some (some 7, some true, some 1, some 1, [], []) ∧
    (World.empty.run [.ctor_ptr 7, .copy 0, .reset 1, .reset 1]).map
        (fun w => (w.strong, w.heap.strong_count 1, w.heap.weak_count 1, w.heap.deleted_objs,
          w.heap.deleted_blocks))
      = some ([some ⟨7, 1⟩, some ⟨0, 0⟩], some 0, some 0, [7], [(1, ⟨⟨0⟩, ⟨0⟩⟩)]) := by
  constructor <;> rfl

/-- C19, where the code departs from the claim: in the program `s(7); w(s); w.reset()` the
weak handle keeps `m_ref_data` after its `reset()` (weak count 2 to 1), so a second
`w.reset()`, and likewise the destruction of `w`, takes the weak count from 1 to 0 and
deletes the control block, which the non-empty strong handle `s` still uses. -/
theorem weak_reset_twice_releases_twice :
    (World.empty.run [.ctor_ptr 7, .weak_ctor_shared 0, .weak_reset 0]).map
        (fun w => (w.weak, w.heap.strong_count 1, w.heap.weak_count 1,
          w.heap.deleted_blocks, (w.heap.blocks 1).isSome))
      = some ([some ⟨0, 1⟩], some 1, some 1, [], true) ∧
    (World.empty.run [.ctor_ptr 7, .weak_ctor_shared 0, .weak_reset 0, .weak_reset 0]).map
        (fun w => (w.strong, w.weak, w.heap.strong_count 1, w.heap.weak_count 1,
          w.heap.deleted_blocks, (w.heap.blocks 1).isSome))
      = some ([some ⟨7, 1⟩], [some ⟨0, 0⟩], some 1, some 0, [(1, ⟨⟨1⟩, ⟨0⟩⟩)], false) ∧
    (World.empty.run [.ctor_ptr 7, .weak_ctor_shared 0, .weak_reset 0, .weak_dtor 0]).map
        (fun w => (w.strong, w.heap.weak_count 1, w.heap.deleted_blocks,
          (w.heap.blocks 1).isSome))
      = some ([some ⟨7, 1⟩], some 0, [(1, ⟨⟨1⟩, ⟨0⟩⟩)], false) := by
  refine ⟨?_, ?_, ?_⟩ <;> rfl

/-- C5, where the code departs from the claim: the sequence of copy and reset operations
`a(7); b(a); b.reset(); b.reset(); c(a); a.reset()` on strong handles of one control block.
The first `b.reset()` leaves `b` non-empty, so the second one takes the strong count from
1 to 0 and deletes the pointee 7 and control block 1 (logged with the counters (0, 0))
while the handle `a`, which was never released, still is `(7, 1)`.  Every later copy,
assignment, reset or destruction through `a` goes through the pointer to the deleted
block, and the program as a whole has no defined result.  Where the memory of the deleted
block still holds the counters it was deleted with, `c(a)` raises them from (0, 0) to
(1, 1) and `a.reset()` takes the strong count from 1 to 0 once more and runs
`delete m_dest_ptr` a second time: the pointee 7 is destroyed twice, and the block is
deleted twice. -/
theorem double_reset_then_copy_deletes_pointee_twice :
    (World.empty.run [.ctor_ptr 7, .copy 0, .reset 1, .reset 1]).map
        (fun w => (w.strong, w.heap.deleted_objs, w.heap.deleted_blocks,
          (w.heap.blocks 1).isSome, (w.step (.copy 0)).isSome, (w.step (.assign 1 0)).isSome,
          (w.step (.reset 0)).isSome, (w.step (.dtor 0)).isSome))
      = some ([some ⟨7, 1⟩, some ⟨0, 0⟩], [7], [(1, ⟨⟨0⟩, ⟨0⟩⟩)],
          false, false, false, false, false) ∧
    (World.empty.run [.ctor_ptr 7, .copy 0, .reset 1, .reset 1, .copy 0, .reset 0]).isSome
      = false ∧
    ((World.empty.run [.ctor_ptr 7, .copy 0, .reset 1, .reset 1]).bind
        (fun w => ({ w with heap := w.heap.store 1 ⟨⟨0⟩, ⟨0⟩⟩ } : World).run [.copy 0])).map
        (fun w => (w.strong, w.heap.strong_count 1, w.heap.weak_count 1,
          w.heap.deleted_objs))
      = some ([some ⟨7, 1⟩, some ⟨0, 0⟩, some ⟨7, 1⟩], some 1, some 1, [7]) ∧
    ((World.empty.run [.ctor_ptr 7, .copy 0, .reset 1, .reset 1]).bind
        (fun w => ({ w with heap := w.heap.store 1 ⟨⟨0⟩, ⟨0⟩⟩ } : World).run
          [.copy 0, .reset 0])).map
        (fun w => (w.strong, w.heap.strong_count 1, w.heap.deleted_objs,
          w.heap.deleted_blocks))
      = some ([some ⟨0, 0⟩, some ⟨0, 0⟩, some ⟨7, 1⟩], some 0, [7, 7],
          [(1, ⟨⟨0⟩, ⟨0⟩⟩), (1, ⟨⟨0⟩, ⟨0⟩⟩)]) := by
  refine ⟨?_, ?_, ?_, ?_⟩ <;> rfl

/-! ## Programs that release every handle once: the counters count the handles -/

theorem countP_set_add {α : Type} (p : α → Bool) (l : List α) :
    ∀ (i : Nat) (x y : α), l[i]? = some x →
      (l.set i y).countP p + (if p x then 1 else 0)
        = l.countP p + (if p y then 1 else 0) := by
  induction l with
  | nil =>
    intro i x y hi
    simp at hi
  | cons z l ih =>
    intro i x y hi
    cases i with
    | zero =>
      simp at hi
      subst hi
      simp [List.countP_cons]
      omega
    | succ i =>
      simp at hi
      have := ih i x y hi
      simp [List.countP_cons]
      omega

theorem World.get_weak_some (w : World) (i : Nat) (a : WeakPtr)
    (h : w.get_weak i = some a) : w.weak[i]? = some (some a) := by
  unfold World.get_weak at h
  split at h
  · simp_all
  · simp at h

/-- The counting invariant passes to a world whose heap differs from the old one at one
block `c` only, by `ds` on the strong counter and `dk` on the weak counter (the block is
gone when the weak counter reaches 0), when the reference counts of the handle lists
changed by the same amounts. -/
theorem World.counted_delta (w w1 : World) (c : Ptr) (ds dk : Int) (hc : c ≠ NULL)
    (hw : w.counted)
    (hshape : ∀ a : SharedPtr, some a ∈ w1.strong →
      (a.m_dest_ptr = NULL ↔ a.m_ref_data = NULL))
    (hnb : w.heap.next_block ≤ w1.heap.next_block) (hcn : c ≤ w1.heap.next_block)
    (hother : ∀ d, d ≠ c → w1.heap.blocks d = w.heap.blocks d)
    (hblock : w1.heap.blocks c = if (w.heap.counts c).2 + dk = 0 then none
      else some ⟨⟨(w.heap.counts c).1 + ds⟩, ⟨(w.heap.counts c).2 + dk⟩⟩)
    (hsr : ∀ d, d ≠ c → w1.strong_refs d = w.strong_refs d)
    (hwr : ∀ d, d ≠ c → w1.weak_refs d = w.weak_refs d)
    (hsrc : (w1.strong_refs c : Int) = (w.strong_refs c : Int) + ds)
    (hwrc : (w1.strong_refs c : Int) + (w1.weak_refs c : Int)
      = (w.strong_refs c : Int) + (w.weak_refs c : Int) + dk) :
    w1.counted := by
  obtain ⟨_, h2, h3, h4⟩ := hw
  refine ⟨hshape, ?_, ?_, ?_⟩
  · intro d hd
    by_cases hdc : d = c
    · subst hdc
      obtain ⟨e1, _⟩ := h2 d hd
      rw [e1] at hblock
      simp only at hblock
      by_cases hz : (w.strong_refs d : Int) + (w.weak_refs d : Int) + dk = 0
      · rw [if_pos hz] at hblock
        have hs0 : w1.strong_refs d = 0 := by omega
        have hw0 : w1.weak_refs d = 0 := by omega
        simp [Heap.counts, hblock, hs0, hw0]
      · rw [if_neg hz] at hblock
        simp only [Heap.counts, hblock, RefCount.value, Option.isSome_some, true_iff]
        refine ⟨?_, by omega⟩
        rw [Prod.mk.injEq]
        constructor <;> omega
    · obtain ⟨e1, e2⟩ := h2 d hd
      simp only [Heap.counts, hother d hdc, hsr d hdc, hwr d hdc]
      exact ⟨e1, e2⟩
  · rw [hother NULL (Ne.symm hc)]
    exact h3
  · intro d hd
    have hdc : d ≠ c := Nat.ne_of_gt (Nat.lt_of_le_of_lt hcn hd)
    rw [hother d hdc]
    exact h4 d (Nat.lt_of_le_of_lt hnb hd)

/-- The counting invariant passes to a world with the same blocks whose handle lists have
the same reference counts at every non-null address. -/
theorem World.counted_same (w w1 : World) (hw : w.counted)
    (hshape : ∀ a : SharedPtr, some a ∈ w1.strong →
      (a.m_dest_ptr = NULL ↔ a.m_ref_data = NULL))
    (hheap : w1.heap = w.heap)
    (hsr : ∀ d, d ≠ NULL → w1.strong_refs d = w.strong_refs d)
    (hwr : ∀ d, d ≠ NULL → w1.weak_refs d = w.weak_refs d) :
    w1.counted := by
  obtain ⟨_, h2, h3, h4⟩ := hw
  refine ⟨hshape, ?_, by rw [hheap]; exact h3, by rw [hheap]; exact h4⟩
  intro d hd
  rw [hheap, hsr d hd, hwr d hd]
  exact h2 d hd

/-- The destructor of a non-empty strong handle `(p, c)` whose live block has the counts
`(s, k)`: the block ends with `(s - 1, k - 1)`, or is gone when `k = 1`; nothing else
changes among the blocks. -/
theorem SharedPtr.dtor_blocks (h : Heap) (p c : Ptr) (s k : Int) (hp : p ≠ NULL)
    (hc : c ≠ NULL) (hb : h.blocks c = some ⟨⟨s⟩, ⟨k⟩⟩) :
    ∃ h1, (SharedPtr.mk p c).dtor h = some h1 ∧ h1.next_block = h.next_block ∧
      (∀ d, d ≠ c → h1.blocks d = h.blocks d) ∧
      h1.blocks c = (if k + -1 = 0 then none else some ⟨⟨s + -1⟩, ⟨k + -1⟩⟩) := by
  have e1 : s + -1 = s - 1 := by omega
  have e2 : k + -1 = k - 1 := by omega
  rw [e1, e2]
  by_cases hs : s = 1
  · by_cases hk : k = 1
    · subst hs hk
      refine ⟨_, by rw [SharedPtr.dtor, SharedPtr.reset_last_both h p c hp hc hb]; rfl, ?_,
        ?_, ?_⟩
      · rfl
      · intro d hd
        simp [Heap.without, Heap.delete_obj, hd]
      · simp [Heap.without]
    · subst hs
      have hk0 : ¬ (k - 1 = 0) := by omega
      refine ⟨_, by rw [SharedPtr.dtor, SharedPtr.reset_last_strong h p c k hp hc hb hk]; rfl,
        ?_, ?_, ?_⟩
      · rfl
      · intro d hd
        simp [Heap.store, Heap.delete_obj, hd]
      · simp [Heap.store, Heap.delete_obj, hk0]
  · by_cases hk : k = 1
    · subst hk
      refine ⟨_, by rw [SharedPtr.dtor, SharedPtr.reset_last_weak h p c s hp hc hb hs]; rfl,
        ?_, ?_, ?_⟩
      · rfl
      · intro d hd
        simp [Heap.without, hd]
      · simp [Heap.without]
    · have hk0 : ¬ (k - 1 = 0) := by omega
      refine ⟨_, by rw [SharedPtr.dtor, SharedPtr.reset_keep h p c s k hp hc hb hs hk]; rfl,
        ?_, ?_, ?_⟩
      · rfl
      · intro d hd
        simp [Heap.store, hd]
      · simp [Heap.store, hk0]

/-- The destructor of a weak handle with control block `c` whose live block has the counts
`(s, k)`: the block ends with `(s, k - 1)`, or is gone when `k = 1`. -/
theorem WeakPtr.weak_dtor_blocks (h : Heap) (p c : Ptr) (s k : Int)
    (hc : c ≠ NULL) (hb : h.blocks c = some ⟨⟨s⟩, ⟨k⟩⟩) :
    ∃ h1, (WeakPtr.mk p c).dtor h = some h1 ∧ h1.next_block = h.next_block ∧
      (∀ d, d ≠ c → h1.blocks d = h.blocks d) ∧
      h1.blocks c = (if k + -1 = 0 then none else some ⟨⟨s + 0⟩, ⟨k + -1⟩⟩) := by
  have e2 : k + -1 = k - 1 := by omega
  rw [e2, Int.add_zero]
  by_cases hk : k = 1
  · subst hk
    refine ⟨_, by rw [WeakPtr.dtor, WeakPtr.weak_reset_last h p c s hc hb]; rfl, ?_, ?_, ?_⟩
    · rfl
    · intro d hd
      simp [Heap.without, hd]
    · simp [Heap.without]
  · have hk0 : ¬ (k - 1 = 0) := by omega
    refine ⟨_, by rw [WeakPtr.dtor, WeakPtr.weak_reset_keep h p c s k hc hb hk]; rfl, ?_, ?_,
      ?_⟩
    · rfl
    · intro d hd
      simp [Heap.store, hd]
    · simp [Heap.store, hk0]

/-- In a counted world, every non-null control block pointer held by a live strong handle
points to a live block that lies at or below the allocator position. -/
theorem World.counted_strong_live (w : World) (hw : w.counted) (a : SharedPtr)
    (ha : some a ∈ w.strong) (hc : a.m_ref_data ≠ NULL) :
    ∃ s k : Int, w.heap.blocks a.m_ref_data = some ⟨⟨s⟩, ⟨k⟩⟩ ∧
      w.heap.counts a.m_ref_data = (s, k) ∧ 0 ≤ k ∧ a.m_ref_data ≤ w.heap.next_block := by
  obtain ⟨_, h2, _, h4⟩ := hw
  obtain ⟨e1, e2⟩ := h2 _ hc
  have hpos : 0 < w.strong.countP (refs_strong a.m_ref_data) :=
    List.countP_pos_iff.mpr ⟨some a, ha, by simp [refs_strong]⟩
  have hlive : (w.heap.blocks a.m_ref_data).isSome = true := by
    rw [e2]
    simp only [World.strong_refs]
    omega
  cases hb : w.heap.blocks a.m_ref_data with
  | none => simp [hb] at hlive
  | some rd =>
    obtain ⟨⟨s⟩, ⟨k⟩⟩ := rd
    have hcnt : w.heap.counts a.m_ref_data = (s, k) := by
      simp [Heap.counts, hb, RefCount.value]
    refine ⟨s, k, rfl, hcnt, ?_, ?_⟩
    · rw [hcnt] at e1
      simp only [Prod.mk.injEq] at e1
      omega
    · apply Nat.le_of_not_lt
      intro hlt
      rw [h4 _ hlt] at hb
      simp at hb

/-- The same for a live weak handle. -/
theorem World.counted_weak_live (w : World) (hw : w.counted) (a : WeakPtr)
    (ha : some a ∈ w.weak) (hc : a.m_ref_data ≠ NULL) :
    ∃ s k : Int, w.heap.blocks a.m_ref_data = some ⟨⟨s⟩, ⟨k⟩⟩ ∧
      w.heap.counts a.m_ref_data = (s, k) ∧ 0 ≤ s ∧ 0 ≤ k ∧
      a.m_ref_data ≤ w.heap.next_block := by
  obtain ⟨_, h2, _, h4⟩ := hw
  obtain ⟨e1, e2⟩ := h2 _ hc
  have hpos : 0 < w.weak.countP (refs_weak a.m_ref_data) :=
    List.countP_pos_iff.mpr ⟨some a, ha, by simp [refs_weak]⟩
  have hlive : (w.heap.blocks a.m_ref_data).isSome = true := by
    rw [e2]
    simp only [World.weak_refs]
    omega
  cases hb : w.heap.blocks a.m_ref_data with
  | none => simp [hb] at hlive
  | some rd =>
    obtain ⟨⟨s⟩, ⟨k⟩⟩ := rd
    have hcnt : w.heap.counts a.m_ref_data = (s, k) := by
      simp [Heap.counts, hb, RefCount.value]
    rw [hcnt] at e1
    simp only [Prod.mk.injEq] at e1
    refine ⟨s, k, rfl, hcnt, by omega, by omega, ?_⟩
    apply Nat.le_of_not_lt
    intro hlt
    rw [h4 _ hlt] at hb
    simp at hb

/-- Copy-constructing from a live strong handle `b` of a counted world into a list `l` that
holds one more object equal to the copy keeps the world counted. -/
theorem World.counted_add_strong (w : World) (b : SharedPtr) (l : List (Option SharedPtr))
    (hw : w.counted) (hb : some b ∈ w.strong)
    (hmem : ∀ x ∈ l, x ∈ w.strong ∨ x = some b)
    (hcnt : ∀ d, l.countP (refs_strong d)
      = w.strong.countP (refs_strong d) + (if refs_strong d (some b) then 1 else 0)) :
    ∃ h1, SharedPtr.ctor_copy b w.heap = some (b, h1) ∧
      World.counted { strong := l, weak := w.weak, heap := h1 } := by
  have hshape : ∀ a : SharedPtr, some a ∈ l → (a.m_dest_ptr = NULL ↔ a.m_ref_data = NULL) := by
    intro a ha
    rcases hmem _ ha with h1 | h1
    · exact hw.1 a h1
    · simp at h1
      subst h1
      exact hw.1 a hb
  have hb1 := hw.1 b hb
  obtain ⟨p, c⟩ := b
  simp only at hb1
  by_cases hp : p = NULL
  · have hc : c = NULL := hb1.mp hp
    subst hp hc
    refine ⟨w.heap, SharedPtr.ctor_copy_null w.heap NULL, ?_⟩
    refine World.counted_same w _ hw hshape rfl ?_ (fun _ _ => rfl)
    intro d hd
    have hd2 : ¬ (NULL = d) := fun e => hd e.symm
    simp [World.strong_refs, hcnt d, refs_strong, hd2]
  · have hc : c ≠ NULL := fun e => hp (hb1.mpr e)
    obtain ⟨s, k, hblk, hcts, hk0, hle⟩ := World.counted_strong_live w hw ⟨p, c⟩ hb hc
    simp only at hblk hcts hle
    refine ⟨_, SharedPtr.ctor_copy_live w.heap p c s k hp hc hblk, ?_⟩
    refine World.counted_delta w _ c 1 1 hc hw hshape (Nat.le_refl _) hle ?_ ?_ ?_
      (fun _ _ => rfl) ?_ ?_
    · intro d hd
      simp [Heap.store, hd]
    · have hk1 : ¬ (k + 1 = 0) := by omega
      simp [hcts, Heap.store, hk1]
    · intro d hd
      have hd2 : ¬ (c = d) := fun e => hd e.symm
      simp [World.strong_refs, hcnt d, refs_strong, hd2]
    · simp [World.strong_refs, hcnt c, refs_strong]
    · simp [World.strong_refs, World.weak_refs, hcnt c, refs_strong]
      omega

/-- Destroying the live strong handle object number `i` of a counted world keeps the world
counted. -/
theorem World.counted_remove_strong (w : World) (i : Nat) (a : SharedPtr) (hw : w.counted)
    (hi : w.strong[i]? = some (some a)) :
    ∃ h1, a.dtor w.heap = some h1 ∧
      World.counted { strong := w.strong.set i none, weak := w.weak, heap := h1 } := by
  have ha : some a ∈ w.strong := List.getElem?_mem hi
  have hshape : ∀ x : SharedPtr, some x ∈ w.strong.set i none →
      (x.m_dest_ptr = NULL ↔ x.m_ref_data = NULL) := by
    intro x hx
    rcases List.mem_or_eq_of_mem_set hx with h1 | h1
    · exact hw.1 x h1
    · simp at h1
  have hcnt : ∀ d, (w.strong.set i none).countP (refs_strong d)
      + (if refs_strong d (some a) then 1 else 0) = w.strong.countP (refs_strong d) := by
    intro d
    have := countP_set_add (refs_strong d) w.strong i (some a) none hi
    simpa [refs_strong] using this
  have ha1 := hw.1 a ha
  obtain ⟨p, c⟩ := a
  simp only at ha1
  by_cases hp : p = NULL
  · have hc : c = NULL := ha1.mp hp
    subst hp hc
    refine ⟨w.heap, by simp [SharedPtr.dtor, SharedPtr.reset_null], ?_⟩
    refine World.counted_same w _ hw hshape rfl ?_ (fun _ _ => rfl)
    intro d hd
    have hd2 : ¬ (NULL = d) := fun e => hd e.symm
    have := hcnt d
    simpa [World.strong_refs, refs_strong, hd2] using this
  · have hc : c ≠ NULL := fun e => hp (ha1.mpr e)
    obtain ⟨s, k, hblk, hcts, hk0, hle⟩ := World.counted_strong_live w hw ⟨p, c⟩ ha hc
    simp only at hblk hcts hle
    obtain ⟨h1, hd1, hnb, hoth, hbc⟩ := SharedPtr.dtor_blocks w.heap p c s k hp hc hblk
    refine ⟨h1, hd1, ?_⟩
    refine World.counted_delta w _ c (-1) (-1) hc hw hshape (by simp [hnb])
      (by simpa [hnb] using hle) hoth (by simpa [hcts] using hbc) ?_ (fun _ _ => rfl) ?_ ?_
    · intro d hd
      have hd2 : ¬ (c = d) := fun e => hd e.symm
      have := hcnt d
      simpa [World.strong_refs, refs_strong, hd2] using this
    · have := hcnt c
      simp [refs_strong] at this
      simp only [World.strong_refs]
      omega
    · have := hcnt c
      simp [refs_strong] at this
      simp only [World.strong_refs, World.weak_refs]
      omega

/-- Constructing a weak handle `(q, c)`, from a strong or from a weak handle with these
fields, where `c` is null or referenced by a live handle, into a list `l` that holds one more
object equal to the new handle keeps the world counted. -/
theorem World.counted_add_weak (w : World) (q c : Ptr) (l : List (Option WeakPtr))
    (hw : w.counted)
    (href : c ≠ NULL → 1 ≤ w.strong_refs c + w.weak_refs c)
    (hcnt : ∀ d, l.countP (refs_weak d)
      = w.weak.countP (refs_weak d) + (if refs_weak d (some ⟨q, c⟩) then 1 else 0)) :
    ∃ h1, WeakPtr.ctor_shared ⟨q, c⟩ w.heap = some (⟨q, c⟩, h1) ∧
      WeakPtr.ctor_copy ⟨q, c⟩ w.heap = some (⟨q, c⟩, h1) ∧
      World.counted { strong := w.strong, weak := l, heap := h1 } := by
  by_cases hc : c = NULL
  · subst hc
    refine ⟨w.heap, by simp [WeakPtr.ctor_shared, SharedPtr.ger_ref_count, SharedPtr.get],
      by simp [WeakPtr.ctor_copy, WeakPtr.ger_ref_count, WeakPtr.get], ?_⟩
    refine World.counted_same w _ hw hw.1 rfl (fun _ _ => rfl) ?_
    intro d hd
    have hd2 : ¬ (NULL = d) := fun e => hd e.symm
    simp [World.weak_refs, hcnt d, refs_weak, hd2]
  · obtain ⟨e1, e2⟩ := hw.2.1 c hc
    have hlive := e2.mpr (href hc)
    cases hblk : w.heap.blocks c with
    | none => simp [hblk] at hlive
    | some rd =>
      obtain ⟨⟨s⟩, ⟨k⟩⟩ := rd
      have hcts : w.heap.counts c = (s, k) := by simp [Heap.counts, hblk, RefCount.value]
      rw [hcts] at e1
      simp only [Prod.mk.injEq] at e1
      have hle : c ≤ w.heap.next_block := by
        apply Nat.le_of_not_lt
        intro hlt
        rw [hw.2.2.2 _ hlt] at hblk
        simp at hblk
      have hinc := Heap.weak_ref_count_inc_eq w.heap c s k hc hblk
      refine ⟨w.heap.store c ⟨⟨s⟩, ⟨k + 1⟩⟩,
        by simp [WeakPtr.ctor_shared, SharedPtr.ger_ref_count, SharedPtr.get, hc, hinc],
        by simp [WeakPtr.ctor_copy, WeakPtr.ger_ref_count, WeakPtr.get, hc, hinc], ?_⟩
      refine World.counted_delta w _ c 0 1 hc hw hw.1 (Nat.le_refl _) hle ?_ ?_
        (fun _ _ => rfl) ?_ ?_ ?_
      · intro d hd
        simp [Heap.store, hd]
      · have hk1 : ¬ (k + 1 = 0) := by omega
        simp [hcts, Heap.store, hk1]
      · intro d hd
        have hd2 : ¬ (c = d) := fun e => hd e.symm
        simp [World.weak_refs, hcnt d, refs_weak, hd2]
      · simp [World.strong_refs]
      · simp [World.strong_refs, World.weak_refs, hcnt c, refs_weak]
        omega

/-- Destroying the live weak handle object number `i` of a counted world keeps the world
counted. -/
theorem World.counted_remove_weak (w : World) (i : Nat) (a : WeakPtr) (hw : w.counted)
    (hi : w.weak[i]? = some (some a)) :
    ∃ h1, a.dtor w.heap = some h1 ∧
      World.counted { strong := w.strong, weak := w.weak.set i none, heap := h1 } := by
  have ha : some a ∈ w.weak := List.getElem?_mem hi
  have hcnt : ∀ d, (w.weak.set i none).countP (refs_weak d)
      + (if refs_weak d (some a) then 1 else 0) = w.weak.countP (refs_weak d) := by
    intro d
    have := countP_set_add (refs_weak d) w.weak i (some a) none hi
    simpa [refs_weak] using this
  obtain ⟨p, c⟩ := a
  by_cases hc : c = NULL
  · subst hc
    refine ⟨w.heap, by simp [WeakPtr.dtor, WeakPtr.reset], ?_⟩
    refine World.counted_same w _ hw hw.1 rfl (fun _ _ => rfl) ?_
    intro d hd
    have hd2 : ¬ (NULL = d) := fun e => hd e.symm
    have := hcnt d
    simpa [World.weak_refs, refs_weak, hd2] using this
  · obtain ⟨s, k, hblk, hcts, hs0, hk0, hle⟩ := World.counted_weak_live w hw ⟨p, c⟩ ha hc
    simp only at hblk hcts hle
    obtain ⟨h1, hd1, hnb, hoth, hbc⟩ := WeakPtr.weak_dtor_blocks w.heap p c s k hc hblk
    refine ⟨h1, hd1, ?_⟩
    refine World.counted_delta w _ c 0 (-1) hc hw hw.1 (by simp [hnb])
      (by simpa [hnb] using hle) hoth (by simpa [hcts] using hbc) (fun _ _ => rfl) ?_ ?_ ?_
    · intro d hd
      have hd2 : ¬ (c = d) := fun e => hd e.symm
      have := hcnt d
      simpa [World.weak_refs, refs_weak, hd2] using this
    · simp [World.strong_refs]
    · have := hcnt c
      simp [refs_weak] at this
      simp only [World.strong_refs, World.weak_refs]
      omega

/-- The call `lock()` on the live weak handle object number `i` of a counted world succeeds
and keeps the world counted. -/
theorem World.counted_lock (w : World) (i : Nat) (v : WeakPtr) (hw : w.counted)
    (hi : w.weak[i]? = some (some v)) :
    ∃ s v1 h1, v.lock w.heap = some (s, v1, h1) ∧
      World.counted
        { strong := w.strong ++ [some s], weak := w.weak.set i (some v1), heap := h1 } := by
  have hv : some v ∈ w.weak := List.getElem?_mem hi
  have hshape : ∀ (s : SharedPtr), (s.m_dest_ptr = NULL ↔ s.m_ref_data = NULL) →
      ∀ a : SharedPtr, some a ∈ w.strong ++ [some s] →
        (a.m_dest_ptr = NULL ↔ a.m_ref_data = NULL) := by
    intro s hs a ha
    simp at ha
    rcases ha with h1 | h1
    · exact hw.1 a h1
    · subst h1
      exact hs
  have hwcnt : ∀ (v1 : WeakPtr), v1.m_ref_data = v.m_ref_data →
      ∀ d, (w.weak.set i (some v1)).countP (refs_weak d) = w.weak.countP (refs_weak d) := by
    intro v1 hv1 d
    have := countP_set_add (refs_weak d) w.weak i (some v) (some v1) hi
    simp only [refs_weak, hv1] at this
    omega
  obtain ⟨p, c⟩ := v
  by_cases hnull : p = NULL ∨ c = NULL
  · refine ⟨SharedPtr.ctor, ⟨p, c⟩, w.heap, WeakPtr.lock_null w.heap p c hnull, ?_⟩
    refine World.counted_same w _ hw (hshape _ (by simp [SharedPtr.ctor])) rfl ?_ ?_
    · intro d hd
      have hd2 : ¬ (NULL = d) := fun e => hd e.symm
      simp [World.strong_refs, refs_strong, SharedPtr.ctor, hd2]
    · intro d _
      exact hwcnt ⟨p, c⟩ rfl d
  · have hp : p ≠ NULL := fun e => hnull (Or.inl e)
    have hc : c ≠ NULL := fun e => hnull (Or.inr e)
    obtain ⟨s, k, hblk, hcts, hs0, hk0, hle⟩ := World.counted_weak_live w hw ⟨p, c⟩ hv hc
    simp only at hblk hcts hle
    by_cases hs : s = 0
    · subst hs
      refine ⟨SharedPtr.ctor, ⟨NULL, c⟩, w.heap, WeakPtr.lock_dead_eq w.heap p c k hp hc hblk,
        ?_⟩
      refine World.counted_same w _ hw (hshape _ (by simp [SharedPtr.ctor])) rfl ?_ ?_
      · intro d hd
        have hd2 : ¬ (NULL = d) := fun e => hd e.symm
        simp [World.strong_refs, refs_strong, SharedPtr.ctor, hd2]
      · intro d _
        exact hwcnt ⟨NULL, c⟩ rfl d
    · refine ⟨⟨p, c⟩, ⟨p, c⟩, _, WeakPtr.lock_alive_eq w.heap p c s k hp hc hblk hs, ?_⟩
      refine World.counted_delta w _ c 1 1 hc hw (hshape _ (by simp [hp, hc]))
        (Nat.le_refl _) hle ?_ ?_ ?_ ?_ ?_ ?_
      · intro d hd
        simp [Heap.store, hd]
      · have hk1 : ¬ (k + 1 = 0) := by omega
        simp [hcts, Heap.store, hk1]
      · intro d hd
        have hd2 : ¬ (c = d) := fun e => hd e.symm
        simp [World.strong_refs, refs_strong, hd2]
      · intro d _
        exact hwcnt ⟨p, c⟩ rfl d
      · simp [World.strong_refs, refs_strong]
      · have := hwcnt ⟨p, c⟩ rfl c
        simp [World.strong_refs, World.weak_refs, refs_strong, this]
        omega

/-- The constructor `SharedPtr(p)` keeps a counted world counted. -/
theorem World.counted_ctor_ptr (w : World) (p : Ptr) (hw : w.counted) :
    ∃ s h1, SharedPtr.ctor_ptr p w.heap = some (s, h1) ∧
      World.counted { strong := w.strong ++ [some s], weak := w.weak, heap := h1 } := by
  have hshape : ∀ (s : SharedPtr), (s.m_dest_ptr = NULL ↔ s.m_ref_data = NULL) →
      ∀ a : SharedPtr, some a ∈ w.strong ++ [some s] →
        (a.m_dest_ptr = NULL ↔ a.m_ref_data = NULL) := by
    intro s hs a ha
    simp at ha
    rcases ha with h1 | h1
    · exact hw.1 a h1
    · subst h1
      exact hs
  by_cases hp : p = NULL
  · subst hp
    refine ⟨⟨NULL, NULL⟩, w.heap, by simp [SharedPtr.ctor_ptr], ?_⟩
    refine World.counted_same w _ hw (hshape _ (by simp)) rfl ?_ (fun _ _ => rfl)
    intro d hd
    have hd2 : ¬ (NULL = d) := fun e => hd e.symm
    simp [World.strong_refs, refs_strong, hd2]
  · have hc : w.heap.new_RefData.1 ≠ NULL := by simp [Heap.new_RefData, NULL]
    have hnone : w.heap.blocks w.heap.new_RefData.1 = none :=
      hw.2.2.2 _ (by simp [Heap.new_RefData])
    have hcts : w.heap.counts w.heap.new_RefData.1 = (0, 0) := by
      simp [Heap.counts, hnone]
    refine ⟨_, _, SharedPtr.ctor_ptr_nonnull w.heap p hp, ?_⟩
    refine World.counted_delta w _ w.heap.new_RefData.1 1 1 hc hw
      (hshape _ (by simp [hp, hc])) ?_ ?_ ?_ ?_ ?_ (fun _ _ => rfl) ?_ ?_
    · simp [Heap.store, Heap.new_RefData]
    · simp [Heap.store, Heap.new_RefData]
    · intro d hd
      have hd2 : d ≠ w.heap.next_block + 1 := by simpa [Heap.new_RefData] using hd
      simp [Heap.store, Heap.new_RefData, hd2]
    · simp [hcts, Heap.store]
    · intro d hd
      have hd2 : ¬ (w.heap.new_RefData.1 = d) := fun e => hd e.symm
      simp [World.strong_refs, refs_strong, hd2]
    · simp [World.strong_refs, refs_strong]
    · simp [World.strong_refs, World.weak_refs, refs_strong]
      omega

theorem WeakPtr.weak_assign_same (self p : WeakPtr) (h : Heap) :
    self.assign p true h = some (self, h) := by
  simp [WeakPtr.assign]

theorem WeakPtr.weak_assign_other (self p : WeakPtr) (h : Heap) :
    self.assign p false h = (self.reset h).bind fun r => WeakPtr.ctor_copy p r.2 := by
  unfold WeakPtr.assign WeakPtr.ctor_copy
  cases hr : self.reset h with
  | none => simp
  | some r =>
    obtain ⟨a, h1⟩ := r
    simp only [Option.some_bind]
    by_cases hg : p.ger_ref_count = NULL
    · simp [hg]
    · simp [hg]

theorem WeakPtr.assign_shared_eq (self : WeakPtr) (p : SharedPtr) (h : Heap) :
    self.assign_shared p h = (self.reset h).bind fun r => WeakPtr.ctor_shared p r.2 := by
  unfold WeakPtr.assign_shared WeakPtr.ctor_shared
  cases hr : self.reset h with
  | none => simp
  | some r =>
    obtain ⟨a, h1⟩ := r
    simp only [Option.some_bind]

theorem SharedPtr.reset_of_dtor (a : SharedPtr) (h h1 : Heap) (hd : a.dtor h = some h1) :
    ∃ a1, a.reset h = some (a1, h1) := by
  unfold SharedPtr.dtor at hd
  cases hr : a.reset h with
  | none => simp [hr] at hd
  | some r =>
    obtain ⟨a1, h2⟩ := r
    simp [hr] at hd
    subst hd
    exact ⟨a1, rfl⟩

theorem WeakPtr.weak_reset_of_dtor (a : WeakPtr) (h h1 : Heap) (hd : a.dtor h = some h1) :
    ∃ a1, a.reset h = some (a1, h1) := by
  unfold WeakPtr.dtor at hd
  cases hr : a.reset h with
  | none => simp [hr] at hd
  | some r =>
    obtain ⟨a1, h2⟩ := r
    simp [hr] at hd
    subst hd
    exact ⟨a1, rfl⟩

theorem World.get_strong_of_getElem (w : World) (i : Nat) (a : SharedPtr)
    (h : w.strong[i]? = some (some a)) : w.get_strong i = some a := by
  simp [World.get_strong, h]

theorem World.get_weak_of_getElem (w : World) (i : Nat) (a : WeakPtr)
    (h : w.weak[i]? = some (some a)) : w.get_weak i = some a := by
  simp [World.get_weak, h]

theorem getElem?_set_none_self {α : Type} (l : List (Option α)) (i : Nat) (x : Option α)
    (h : l[i]? = some x) : (l.set i none)[i]? = some none := by
  have hlt : i < l.length := by
    by_contra hge
    rw [List.getElem?_eq_none (by omega)] at h
    simp at h
  simp [List.getElem?_set_self, hlt]

/-- In a counted world a statement without explicit `reset()` that names live handle
objects is executed without touching a deleted block, and the world stays counted. -/
theorem World.counted_step (w : World) (op : Op) (hw : w.counted)
    (hd : op.disciplined = true) (hv : op.valid w) :
    ∃ w1, w.step op = some w1 ∧ w1.counted := by
  cases op with
  | ctor_ptr p =>
    obtain ⟨s, h1, e, hc⟩ := World.counted_ctor_ptr w p hw
    exact ⟨_, by simp [World.step, e], hc⟩
  | copy i =>
    simp only [Op.valid, Option.isSome_iff_exists] at hv
    obtain ⟨a, ha⟩ := hv
    have hi := w.get_strong_some i a ha
    obtain ⟨h1, e, hc⟩ := World.counted_add_strong w a (w.strong ++ [some a]) hw
      (List.getElem?_mem hi)
      (by
        intro x hx
        simpa using hx)
      (by
        intro d
        simp [List.countP_append, List.countP_cons])
    exact ⟨_, by simp [World.step, ha, e], hc⟩
  | assign i j =>
    simp only [Op.valid, Option.isSome_iff_exists] at hv
    obtain ⟨⟨a, ha⟩, ⟨b, hb⟩⟩ := hv
    have hi := w.get_strong_some i a ha
    have hj := w.get_strong_some j b hb
    by_cases hij : i = j
    · subst hij
      refine ⟨{ strong := w.strong.set i (some a), weak := w.weak, heap := w.heap },
        by simp [World.step, ha, SharedPtr.assign_same], ?_⟩
      refine World.counted_same w _ hw ?_ rfl ?_ (fun _ _ => rfl)
      · intro x hx
        rcases List.mem_or_eq_of_mem_set hx with h1 | h1
        · exact hw.1 x h1
        · simp at h1
          subst h1
          exact hw.1 x (List.getElem?_mem hi)
      · intro d _
        have := countP_set_add (refs_strong d) w.strong i (some a) (some a) hi
        simp only [World.strong_refs]
        omega
    · obtain ⟨h1, e1, hc1⟩ := World.counted_remove_strong w i a hw hi
      obtain ⟨a1, er⟩ := SharedPtr.reset_of_dtor a w.heap h1 e1
      have hjm : (w.strong.set i none)[j]? = some (some b) := by
        rw [List.getElem?_set_ne hij]
        exact hj
      have hin := getElem?_set_none_self w.strong i _ hi
      obtain ⟨h2, e2, hc2⟩ := World.counted_add_strong
        { strong := w.strong.set i none, weak := w.weak, heap := h1 } b
        (w.strong.set i (some b)) hc1 (List.getElem?_mem hjm)
        (by
          intro x hx
          have hx2 : x ∈ (w.strong.set i none).set i (some b) := by
            simpa [List.set_set] using hx
          exact List.mem_or_eq_of_mem_set hx2)
        (by
          intro d
          have := countP_set_add (refs_strong d) (w.strong.set i none) i none (some b) hin
          simp only [List.set_set] at this
          simpa [refs_strong] using this)
      exact ⟨_, by simp [World.step, ha, hb, hij, SharedPtr.assign_other, er, e2], hc2⟩
  | reset i => simp [Op.disciplined] at hd
  | dtor i =>
    simp only [Op.valid, Option.isSome_iff_exists] at hv
    obtain ⟨a, ha⟩ := hv
    obtain ⟨h1, e, hc⟩ := World.counted_remove_strong w i a hw (w.get_strong_some i a ha)
    exact ⟨_, by simp [World.step, ha, e], hc⟩
  | weak_ctor_shared i =>
    simp only [Op.valid, Option.isSome_iff_exists] at hv
    obtain ⟨a, ha⟩ := hv
    have hi := w.get_strong_some i a ha
    obtain ⟨h1, e, _, hc⟩ := World.counted_add_weak w a.m_dest_ptr a.m_ref_data
      (w.weak ++ [some ⟨a.m_dest_ptr, a.m_ref_data⟩]) hw
      (by
        intro _
        have hpos : 0 < w.strong.countP (refs_strong a.m_ref_data) :=
          List.countP_pos_iff.mpr ⟨some a, List.getElem?_mem hi, by simp [refs_strong]⟩
        simp only [World.strong_refs]
        omega)
      (by
        intro d
        simp [List.countP_append, List.countP_cons])
    exact ⟨_, by simp [World.step, ha, e], hc⟩
  | weak_ctor_copy i =>
    simp only [Op.valid, Option.isSome_iff_exists] at hv
    obtain ⟨a, ha⟩ := hv
    have hi := w.get_weak_some i a ha
    obtain ⟨h1, _, e, hc⟩ := World.counted_add_weak w a.m_dest_ptr a.m_ref_data
      (w.weak ++ [some ⟨a.m_dest_ptr, a.m_ref_data⟩]) hw
      (by
        intro _
        have hpos : 0 < w.weak.countP (refs_weak a.m_ref_data) :=
          List.countP_pos_iff.mpr ⟨some a, List.getElem?_mem hi, by simp [refs_weak]⟩
        simp only [World.weak_refs]
        omega)
      (by
        intro d
        simp [List.countP_append, List.countP_cons])
    exact ⟨_, by simp [World.step, ha, e], hc⟩
  | weak_assign_shared i j =>
    simp only [Op.valid, Option.isSome_iff_exists] at hv
    obtain ⟨⟨a, ha⟩, ⟨b, hb⟩⟩ := hv
    have hi := w.get_weak_some i a ha
    have hj := w.get_strong_some j b hb
    obtain ⟨h1, e1, hc1⟩ := World.counted_remove_weak w i a hw hi
    obtain ⟨a1, er⟩ := WeakPtr.weak_reset_of_dtor a w.heap h1 e1
    have hin := getElem?_set_none_self w.weak i _ hi
    obtain ⟨h2, e2, _, hc2⟩ := World.counted_add_weak
      { strong := w.strong, weak := w.weak.set i none, heap := h1 } b.m_dest_ptr b.m_ref_data
      (w.weak.set i (some ⟨b.m_dest_ptr, b.m_ref_data⟩)) hc1
      (by
        intro _
        have hpos : 0 < w.strong.countP (refs_strong b.m_ref_data) :=
          List.countP_pos_iff.mpr ⟨some b, List.getElem?_mem hj, by simp [refs_strong]⟩
        simp only [World.strong_refs]
        omega)
      (by
        intro d
        have := countP_set_add (refs_weak d) (w.weak.set i none) i none
          (some ⟨b.m_dest_ptr, b.m_ref_data⟩) hin
        simp only [List.set_set] at this
        simpa [refs_weak] using this)
    exact ⟨_, by simp [World.step, ha, hb, WeakPtr.assign_shared_eq, er, e2], hc2⟩
  | weak_assign i j =>
    simp only [Op.valid, Option.isSome_iff_exists] at hv
    obtain ⟨⟨a, ha⟩, ⟨b, hb⟩⟩ := hv
    have hi := w.get_weak_some i a ha
    have hj := w.get_weak_some j b hb
    by_cases hij : i = j
    · subst hij
      refine ⟨{ strong := w.strong, weak := w.weak.set i (some a), heap := w.heap },
        by simp [World.step, ha, WeakPtr.weak_assign_same], ?_⟩
      refine World.counted_same w _ hw hw.1 rfl (fun _ _ => rfl) ?_
      intro d _
      have := countP_set_add (refs_weak d) w.weak i (some a) (some a) hi
      simp only [World.weak_refs]
      omega
    · obtain ⟨h1, e1, hc1⟩ := World.counted_remove_weak w i a hw hi
      obtain ⟨a1, er⟩ := WeakPtr.weak_reset_of_dtor a w.heap h1 e1
      have hjm : (w.weak.set i none)[j]? = some (some b) := by
        rw [List.getElem?_set_ne hij]
        exact hj
      have hin := getElem?_set_none_self w.weak i _ hi
      obtain ⟨h2, _, e2, hc2⟩ := World.counted_add_weak
        { strong := w.strong, weak := w.weak.set i none, heap := h1 } b.m_dest_ptr
        b.m_ref_data (w.weak.set i (some ⟨b.m_dest_ptr, b.m_ref_data⟩)) hc1
        (by
          intro _
          have hpos : 0 < (w.weak.set i none).countP (refs_weak b.m_ref_data) :=
            List.countP_pos_iff.mpr ⟨some b, List.getElem?_mem hjm, by simp [refs_weak]⟩
          simp only [World.weak_refs]
          omega)
        (by
          intro d
          have := countP_set_add (refs_weak d) (w.weak.set i none) i none
            (some ⟨b.m_dest_ptr, b.m_ref_data⟩) hin
          simp only [List.set_set] at this
          simpa [refs_weak] using this)
      exact ⟨_, by simp [World.step, ha, hb, hij, WeakPtr.weak_assign_other, er, e2], hc2⟩
  | weak_lock i =>
    simp only [Op.valid, Option.isSome_iff_exists] at hv
    obtain ⟨a, ha⟩ := hv
    obtain ⟨s, v1, h1, e, hc⟩ := World.counted_lock w i a hw (w.get_weak_some i a ha)
    exact ⟨_, by simp [World.step, ha, e], hc⟩
  | weak_reset i => simp [Op.disciplined] at hd
  | weak_dtor i =>
    simp only [Op.valid, Option.isSome_iff_exists] at hv
    obtain ⟨a, ha⟩ := hv
    obtain ⟨h1, e, hc⟩ := World.counted_remove_weak w i a hw (w.get_weak_some i a ha)
    exact ⟨_, by simp [World.step, ha, e], hc⟩

theorem World.valid_of_step (w w1 : World) (op : Op) (h : w.step op = some w1) :
    op.valid w := by
  cases op with
  | ctor_ptr p => trivial
  | copy i => cases hg : w.get_strong i <;> simp [World.step, hg, Op.valid] at h ⊢
  | assign i j =>
    cases hg : w.get_strong i <;> cases hg2 : w.get_strong j <;>
      simp [World.step, hg, hg2, Op.valid] at h ⊢
  | reset i => cases hg : w.get_strong i <;> simp [World.step, hg, Op.valid] at h ⊢
  | dtor i => cases hg : w.get_strong i <;> simp [World.step, hg, Op.valid] at h ⊢
  | weak_ctor_shared i =>
    cases hg : w.get_strong i <;> simp [World.step, hg, Op.valid] at h ⊢
  | weak_ctor_copy i => cases hg : w.get_weak i <;> simp [World.step, hg, Op.valid] at h ⊢
  | weak_assign_shared i j =>
    cases hg : w.get_weak i <;> cases hg2 : w.get_strong j <;>
      simp [World.step, hg, hg2, Op.valid] at h ⊢
  | weak_assign i j =>
    cases hg : w.get_weak i <;> cases hg2 : w.get_weak j <;>
      simp [World.step, hg, hg2, Op.valid] at h ⊢
  | weak_lock i => cases hg : w.get_weak i <;> simp [World.step, hg, Op.valid] at h ⊢
  | weak_reset i => cases hg : w.get_weak i <;> simp [World.step, hg, Op.valid] at h ⊢
  | weak_dtor i => cases hg : w.get_weak i <;> simp [World.step, hg, Op.valid] at h ⊢

theorem World.counted_empty : World.empty.counted := by
  refine ⟨?_, ?_, rfl, fun _ _ => rfl⟩
  · intro a ha
    simp [World.empty] at ha
  · intro c _
    simp [World.empty, Heap.empty, Heap.counts, World.strong_refs, World.weak_refs]

theorem World.counted_run (ops : List Op) :
    ∀ w w1 : World, w.counted → (∀ op ∈ ops, op.disciplined = true) →
      w.run ops = some w1 → w1.counted := by
  induction ops with
  | nil =>
    intro w w1 hw _ hr
    simp [World.run] at hr
    subst hr
    exact hw
  | cons op ops ih =>
    intro w w1 hw hd hr
    simp only [World.run] at hr
    cases hs : w.step op with
    | none => simp [hs] at hr
    | some w2 =>
      rw [hs] at hr
      obtain ⟨w3, e3, hc3⟩ := World.counted_step w op hw (hd op (by simp))
        (World.valid_of_step w w2 op hs)
      rw [hs] at e3
      simp at e3
      subst e3
      exact ih w2 w1 hc3 (fun o ho => hd o (by simp [ho])) hr

/-- C16: in every state a program reaches from no handles with constructions from raw
pointers, copy constructions, assignments, derivations of weak handles, `lock()` and
destructions (no explicit `reset()`; a destroyed handle cannot be used again), every live
control block has a strong count equal to the number of live strong handles holding its
address and a weak count equal to that number plus the number of live weak handles holding
its address.  In such a state every live strong handle has a null pointee exactly when it
has no control block, and every further statement of this kind on live handles is executed
without touching a deleted block. -/
theorem counts_equal_live_handles (ops : List Op)
    (hd : ∀ op ∈ ops, op.disciplined = true) :
    ∀ w : World, World.empty.run ops = some w →
      (∀ (c : Ptr) (rd : RefData), w.heap.blocks c = some rd →
        rd.m_ref_count.value = (w.strong_refs c : Int) ∧
        rd.m_weak_ref_count.value = (w.strong_refs c : Int) + (w.weak_refs c : Int)) ∧
      (∀ a : SharedPtr, some a ∈ w.strong → (a.get = NULL ↔ a.ger_ref_count = NULL)) ∧
      (∀ op : Op, op.disciplined = true → op.valid w → (w.step op).isSome = true) := by
  intro w hr
  have hc := World.counted_run ops World.empty w World.counted_empty hd hr
  refine ⟨?_, hc.1, ?_⟩
  · intro c rd hb
    have hcn : c ≠ NULL := by
      intro e
      rw [e, hc.2.2.1] at hb
      simp at hb
    have := (hc.2.1 c hcn).1
    simp only [Heap.counts, hb, Prod.mk.injEq] at this
    exact this
  · intro op hop hv
    obtain ⟨w1, e, _⟩ := World.counted_step w op hc hop hv
    simp [e]

/-- C16 on the program `a(7); b(a); w(a); ~a; c = w.lock(); ~b; ~c; d = w.lock()`: it runs,
and ends with block 1 at the counts (0, 1), no live strong handle on it and one live weak
handle. -/
theorem counts_equal_live_handles_witness :
    ((World.empty.run [.ctor_ptr 7, .copy 0, .weak_ctor_shared 0, .dtor 0, .weak_lock 0,
        .dtor 1, .dtor 2, .weak_lock 0]).map fun w =>
      (w.heap.blocks 1, w.strong_refs 1, w.weak_refs 1, w.strong, w.weak))
      = some (some ⟨⟨0⟩, ⟨1⟩⟩, 0, 1, [none, none, none, some ⟨0, 0⟩], [some ⟨0, 1⟩]) ∧
    ∀ w : World, World.empty.run [.ctor_ptr 7, .copy 0, .weak_ctor_shared 0, .dtor 0,
        .weak_lock 0, .dtor 1, .dtor 2, .weak_lock 0] = some w →
      (∀ (c : Ptr) (rd : RefData), w.heap.blocks c = some rd →
        rd.m_ref_count.value = (w.strong_refs c : Int) ∧
        rd.m_weak_ref_count.value = (w.strong_refs c : Int) + (w.weak_refs c : Int)) ∧
      (∀ a : SharedPtr, some a ∈ w.strong → (a.get = NULL ↔ a.ger_ref_count = NULL)) ∧
      (∀ op : Op, op.disciplined = true → op.valid w → (w.step op).isSome = true) :=
  ⟨rfl, counts_equal_live_handles [.ctor_ptr 7, .copy 0, .weak_ctor_shared 0, .dtor 0,
    .weak_lock 0, .dtor 1, .dtor 2, .weak_lock 0] (by decide)⟩

end ff
